import Mathlib

/-!
# TraCI hub: framing codec, client session and step loop

A shallow embedding of `src/util.cpp` (the command-size codec and the protocol
error value), `src/Client.cpp` (the per-client session) and the step loop of
`src/TraCIHub.cpp`, followed by theorems about them.  All definitions come
first, the theorems follow.

Conventions of the embedding:

* a C++ `int` is an `Int` in the range `-2^31 .. 2^31 - 1`.  The one `int`
  that grows during a run, the current time, is advanced modulo `2^32` (two's
  complement, `wrapInt32`), as the compiled hub does.  The expressions of the
  size codec (`size-1`, `size-5`, `size++`, `size+4`) are computed exactly;
  the theorems that state the value of such an expression do so under the
  condition that the C++ expression does not overflow.  Where an `int` is
  serialised to four bytes it is reduced modulo `2^32`, and four bytes read
  back are interpreted as a two's complement value;
* a byte (`unsigned char`) is a `Fin 256`; a `std::string` is its list of bytes;
* a member function becomes a function from the state before the call to its
  result and the state after it; reference parameters that are written are
  returned;
* `std::invalid_argument` raised by a storage read and `tcpip::SocketException`
  raised by a socket are `none`; a `ProtocolException` is the error side of
  `Except`;
* loops are recursive functions; where the number of iterations is not bounded
  by the structure of the data the function takes a bound on it;
* the byte storage, the socket and the protocol constants are external to the
  repository sources and are modelled from the specification.
-/

namespace TraCIHub

/-! ## Bytes and the external byte storage -/

/-- One octet, the `unsigned char` of the sources. -/
abbrev Byte := Fin 256

/-- The low eight bits of a natural number as a byte. -/
def toByte (n : Nat) : Byte := ⟨n % 256, Nat.mod_lt n (by decide)⟩

/-- The low eight bits of an `int` as a byte (`static_cast<unsigned char>`). -/
def intToByte (v : Int) : Byte := toByte (v % 256).toNat

/-- The four big-endian bytes of an `int`, two's complement. -/
def int32Bytes (v : Int) : List Byte :=
  let u := (v % 4294967296).toNat
  [toByte (u / 16777216), toByte (u / 65536), toByte (u / 256), toByte u]

/-- The unsigned value of four big-endian bytes. -/
def beNat (b0 b1 b2 b3 : Byte) : Nat :=
  b0.val * 16777216 + b1.val * 65536 + b2.val * 256 + b3.val

/-- The `int` (32-bit two's complement) formed by four big-endian bytes. -/
def beInt32 (b0 b1 b2 b3 : Byte) : Int :=
  if beNat b0 b1 b2 b3 < 2147483648 then (beNat b0 b1 b2 b3 : Int)
  else (beNat b0 b1 b2 b3 : Int) - 4294967296

/-- The value that a 32-bit `int` holds after an arithmetic result `v`: `v`
reduced modulo `2^32` into `-2^31 .. 2^31 - 1` (two's complement). -/
def wrapInt32 (v : Int) : Int := (v + 2147483648) % 4294967296 - 2147483648

/-- Modelled from the spec: `tcpip::Storage` (header `tcpip/storage.h`, not part
of the sources): "a growable byte buffer with a read cursor and typed primitives
(unsigned byte, signed byte/char, 32-bit big-endian int, length-prefixed
string)".  `store` holds all bytes written so far, `pos` is the read cursor. -/
structure Storage where
  store : List Byte
  pos : Nat
deriving DecidableEq, Repr

namespace Storage

/-- Modelled from the spec: a freshly constructed, empty storage. -/
def empty : Storage := ⟨[], 0⟩

/-- Modelled from the spec: `valid_pos()`, a byte is available at the read
cursor ("pendingIn is exhausted" is its negation). -/
def valid_pos (s : Storage) : Bool := decide (s.pos < s.store.length)

/-- Modelled from the spec: `size()`, the number of bytes held. -/
def size (s : Storage) : Nat := s.store.length

/-- Modelled from the spec: `reset()`, drop the contents and rewind the cursor. -/
def reset (_s : Storage) : Storage := ⟨[], 0⟩

/-- The bytes from the read cursor to the end of the storage. -/
def unread (s : Storage) : List Byte := s.store.drop s.pos

/-- Modelled from the spec: `readChar()`, the byte at the cursor, advancing the
cursor by one; `none` is the short read (`std::invalid_argument`). -/
def readChar (s : Storage) : Option (Byte × Storage) :=
  match s.store[s.pos]? with
  | some b => some (b, { s with pos := s.pos + 1 })
  | none => none

/-- Modelled from the spec: `readUnsignedByte()`, one byte as an `int` in 0..255. -/
def readUnsignedByte (s : Storage) : Option (Int × Storage) :=
  match s.readChar with
  | some (b, s1) => some ((b.val : Int), s1)
  | none => none

/-- Modelled from the spec: `readInt()`, a 32-bit big-endian `int`, read byte by
byte; `none` when fewer than four bytes remain. -/
def readInt (s : Storage) : Option (Int × Storage) :=
  match s.readChar with
  | none => none
  | some (b0, s1) =>
    match s1.readChar with
    | none => none
    | some (b1, s2) =>
      match s2.readChar with
      | none => none
      | some (b2, s3) =>
        match s3.readChar with
        | none => none
        | some (b3, s4) => some (beInt32 b0 b1 b2 b3, s4)

/-- Modelled from the spec: `writeChar(c)`, append one byte. -/
def writeChar (s : Storage) (b : Byte) : Storage :=
  { s with store := s.store ++ [b] }

/-- Modelled from the spec: `writeUnsignedByte(v)`, append the `int` `v` as one
unsigned byte (its low eight bits; the hub only passes values in 0..255 on
well-formed traffic). -/
def writeUnsignedByte (s : Storage) (v : Int) : Storage :=
  s.writeChar (intToByte v)

/-- Modelled from the spec: `writeByte(v)`, append the `int` `v` as one signed
byte (two's complement). -/
def writeByte (s : Storage) (v : Int) : Storage :=
  s.writeChar (intToByte v)

/-- Modelled from the spec: `writeInt(v)`, append a 32-bit big-endian `int`. -/
def writeInt (s : Storage) (v : Int) : Storage :=
  { s with store := s.store ++ int32Bytes v }

/-- Modelled from the spec: `writeString(str)`, "`<int32 length><length bytes>`". -/
def writeString (s : Storage) (str : List Byte) : Storage :=
  { (s.writeInt (str.length : Int)) with
    store := (s.writeInt (str.length : Int)).store ++ str }

/-- Modelled from the spec: `writeStorage(other)`, "append `answerBuf` verbatim":
the bytes of `other` from its read cursor on (the whole of `other` when its
cursor is at the start, as for every freshly received message) are appended;
`other` itself is not consumed. -/
def writeStorage (s other : Storage) : Storage :=
  { s with store := s.store ++ other.unread }

end Storage

/-! ## `src/util.cpp`: the command-size codec -/

/-- Embedding of `tcpip::readCommandSize` (`src/util.cpp`): the command size,
discounting the bytes used for the size itself.  The subtractions are exact:
`size - 1` is always an `int`; `size - 5` is an `int` unless the size field is
below `-2^31 + 5`, where the C++ subtraction overflows, and the theorems that
state the returned value exclude that case. -/
def readCommandSize (inStorage : Storage) : Option (Int × Storage) :=
  match inStorage.readUnsignedByte with
  | none => none
  | some (size, s1) =>
    if size ≠ 0 then some (size - 1, s1)
    else
      match s1.readInt with
      | none => none
      | some (size2, s2) => some (size2 - 5, s2)

/-- Embedding of `tcpip::writeCommandSize` (`src/util.cpp`). -/
def writeCommandSize (outStorage : Storage) (size : Int) : Storage :=
  let size1 := size + 1
  if size1 < 256 then outStorage.writeUnsignedByte size1
  else (outStorage.writeUnsignedByte 0).writeInt (size1 + 4)

/-! ## `src/util.cpp`: the protocol error value -/

/-- Embedding of `class ProtocolException` (`src/util.h`): the text returned by
`what()`, the port and the origin flag. -/
structure ProtocolException where
  myWhat : String
  myPort : Int
  myFromClient : Bool
deriving DecidableEq, Repr

/-- Embedding of the constructor `ProtocolException::ProtocolException(what,
port, isClient)` (`src/util.cpp`).  The stream is filled from the member
`myWhat`, which is still the empty string at that point, not from the
argument `what`; no closing bracket is written. -/
def ProtocolException.new (_what : String) (port : Int) (isClient : Bool) :
    ProtocolException :=
  { myWhat := "" ++ "(on " ++ (if isClient then "client" else "SUMO")
      ++ " through port " ++ toString port
    myPort := port
    myFromClient := isClient }

/-- Embedding of `ProtocolException::what`. -/
def ProtocolException.what (e : ProtocolException) : String := e.myWhat

/-- Embedding of `ProtocolException::isFromClient`. -/
def ProtocolException.isFromClient (e : ProtocolException) : Bool := e.myFromClient

/-! ## The external socket -/

/-- Modelled from the spec: `tcpip::Socket` (header `tcpip/socket.h`, not part of
the sources): a "blocking TCP endpoint with `listen+accept`, `connect`,
`sendExact(buf)`, `receiveExact(into buf)`, `close`, `hasPeer`".  The peer is
part of the value: `inbox` lists the messages the peer will deliver to the
coming `receiveExact` calls (a call on an empty inbox is a transport fault),
`sendFaults` scripts the coming `sendExact` calls (`true` is a transport fault;
an exhausted script means success), `sent` logs, oldest first, the payload
of every message that was transmitted, and `refused` tells whether the coming
`connect()` or `accept()` faults. -/
structure Socket where
  port : Int
  hasPeer : Bool
  inbox : List (List Byte)
  sendFaults : List Bool
  sent : List (List Byte)
  refused : Bool := false
deriving DecidableEq, Repr

namespace Socket

/-- Modelled from the spec: `has_client_connection()` ("hasPeer"). -/
def has_client_connection (k : Socket) : Bool := k.hasPeer

/-- Modelled from the spec: `accept()`, a peer connects; `none` is the transport
fault. -/
def accept (k : Socket) : Option Socket :=
  if k.refused then none else some { k with hasPeer := true }

/-- Modelled from the spec: `connect()`, the endpoint connects to its peer;
`none` is the transport fault. -/
def connect (k : Socket) : Option Socket :=
  if k.refused then none else some { k with hasPeer := true }

/-- The socket after a `sendExact` that faulted: the fault is consumed from the
script, nothing else changes. -/
def faulted (k : Socket) : Socket := { k with sendFaults := k.sendFaults.drop 1 }

/-- Modelled from the spec: `close()`. -/
def close (k : Socket) : Socket := { k with hasPeer := false }

/-- Modelled from the spec: `sendExact(buf)`, transmit all bytes held by `buf`
as one message; `none` is the transport fault (`tcpip::SocketException`), in
which case nothing is logged as sent. -/
def sendExact (k : Socket) (b : Storage) : Option Socket :=
  match k.sendFaults with
  | true :: _ => none
  | false :: rest => some { k with sendFaults := rest, sent := k.sent ++ [b.store] }
  | [] => some { k with sent := k.sent ++ [b.store] }

/-- Modelled from the spec: `receiveExact(into buf)`, append the next message of
the peer to `buf`; `none` is the transport fault. -/
def receiveExact (k : Socket) (b : Storage) : Option (Socket × Storage) :=
  match k.inbox with
  | [] => none
  | m :: rest => some ({ k with inbox := rest }, { b with store := b.store ++ m })

end Socket

/-- What the remote endpoint of a socket will do: the messages it will deliver,
the script of faults of the sends to it, and whether it refuses the
connection.  It is not an argument of any source function: it is the
environment of the run. -/
structure Peer where
  inbox : List (List Byte)
  sendFaults : List Bool
  refused : Bool
deriving DecidableEq, Repr

/-- The socket `k` with the remote endpoint `p` at its other end. -/
def Socket.withPeer (k : Socket) (p : Peer) : Socket :=
  { k with inbox := p.inbox, sendFaults := p.sendFaults, refused := p.refused }

/-! ## Constants of `TraCIConstants.h` -/

/-- Modelled from the spec: opcode `SIMSTEP2` (value 0x02), from the header
`TraCIConstants.h`, which is not part of the sources. -/
def CMD_SIMSTEP2 : Byte := 0x02

/-- Modelled from the spec: opcode `CLOSE` (value 0x7F), from `TraCIConstants.h`. -/
def CMD_CLOSE : Byte := 0x7F

/-- Modelled from the spec: result code `OK` (=0x00), from `TraCIConstants.h`. -/
def RTYPE_OK : Byte := 0x00

/-- The characters of a string literal as bytes (`std::string` contents). -/
def stringBytes (str : String) : List Byte := str.toList.map (fun ch => toByte ch.toNat)

/-! ## `src/Client.cpp`: the client session -/

/-- Embedding of the data members of `class Client` (`src/Client.h`). -/
structure Client where
  mySocket : Socket
  myPendingAnswers : Storage
  myPendingCommands : Storage
  myDisconnecting : Bool
  myConnected : Bool
  myWaiting : Bool
  myTargetTime : Int
deriving DecidableEq, Repr

namespace Client

/-- Embedding of the constructor `Client::Client(int port)`. -/
def new (port : Int) : Client :=
  { mySocket := { port := port, hasPeer := false, inbox := [], sendFaults := [], sent := [] }
    myPendingAnswers := Storage.empty
    myPendingCommands := Storage.empty
    myDisconnecting := false
    myConnected := false
    myWaiting := false
    myTargetTime := -1 }

/-- Embedding of `Client::acceptConnection`: the result flag and the session
after the call; `none` is the `tcpip::SocketException` of `accept()`, which the
function lets through. -/
def acceptConnection (c : Client) : Option (Bool × Client) :=
  if !c.myConnected then
    match c.mySocket.accept with
    | none => none
    | some sock => some (true, { c with mySocket := sock, myConnected := true })
  else some (false, c)

/-- Embedding of `Client::port`. -/
def port (c : Client) : Int := c.mySocket.port

/-- Embedding of `Client::canAct`: connected, not waiting, no close request. -/
def canAct (c : Client) (_currentTime : Int) : Bool :=
  c.myConnected && !c.myWaiting && !c.myDisconnecting

/-- Embedding of `Client::isConnected`. -/
def isConnected (c : Client) : Bool := c.mySocket.has_client_connection

/-- Embedding of `Client::hasPendingCommands`. -/
def hasPendingCommands (c : Client) : Bool := c.myPendingCommands.valid_pos

/-- Embedding of `Client::hasPendingAnswers`. -/
def hasPendingAnswers (c : Client) : Bool := decide (c.myPendingAnswers.size > 0)

/-- Embedding of `Client::writeStatusCmd`. -/
def writeStatusCmd (cmdCode status : Int) (description : List Byte)
    (outStorage : Storage) : Storage :=
  (((outStorage.writeUnsignedByte (1 + 1 + 1 + 4 + (description.length : Int))).writeUnsignedByte
    cmdCode).writeUnsignedByte status).writeString description

/-- Embedding of `Client::closeConnection`. -/
def closeConnection (c : Client) : Client :=
  if c.myConnected then { c with mySocket := c.mySocket.close, myConnected := false }
  else c

/-- Embedding of `Client::sendAnswers`: the result flag and the session after
the call. -/
def sendAnswers (c : Client) : Bool × Client :=
  if !c.myConnected then (false, c)
  else
    let c1 : Client :=
      if c.myDisconnecting then
        { c with myPendingAnswers := (writeStatusCmd (CMD_CLOSE.val : Int) (RTYPE_OK.val : Int)
            (stringBytes "Goodbye") c.myPendingAnswers) }
      else c
    match c1.mySocket.sendExact c1.myPendingAnswers with
    | none => (false, { c1 with mySocket := c1.mySocket.faulted, myConnected := false })
    | some sock =>
      let c2 : Client := { c1 with mySocket := sock }
      let c3 : Client := if c2.myDisconnecting then c2.closeConnection else c2
      (true, { c3 with myPendingAnswers := c3.myPendingAnswers.reset })

/-- Embedding of `Client::putAnswers`. -/
def putAnswers (c : Client) (answers : Storage) : Bool × Client :=
  if !c.myConnected then (false, c)
  else
    let c1 : Client := { c with myPendingAnswers := c.myPendingAnswers.writeStorage answers }
    if !c1.myWaiting && (!c1.hasPendingCommands || c1.myDisconnecting) then
      c1.sendAnswers
    else (true, c1)

/-- Embedding of `Client::handleStepResult`. -/
def handleStepResult (c : Client) (currentTime : Int) (success : Bool)
    (resultMsg : Storage) : Client :=
  if success && decide (currentTime < c.myTargetTime) then c
  else (putAnswers { c with myWaiting := false } resultMsg).2

/-- The copy loop of `Client::handleCommand`,
`for (i = 0; i < size-1; i++) outStorage.writeChar(inStorage.readChar())`,
with `n` the number of iterations still to run; `none` is the short read. -/
def copyChars : Nat → Storage → Storage → Option (Storage × Storage)
  | 0, inStorage, outStorage => some (inStorage, outStorage)
  | n + 1, inStorage, outStorage =>
    match inStorage.readChar with
    | none => none
    | some (b, in1) => copyChars n in1 (outStorage.writeChar b)

/-- Embedding of `Client::handleCommand`: the command code, the session, the
inbound storage and the outbound storage after the call, or the protocol
error that is thrown. -/
def handleCommand (c : Client) (inStorage outStorage : Storage) :
    Except ProtocolException (Byte × Client × Storage × Storage) :=
  match readCommandSize inStorage with
  | none =>
    .error (ProtocolException.new "Message too short: cannot read the size of a command"
      c.port true)
  | some (size, in1) =>
    match in1.readChar with
    | none =>
      .error (ProtocolException.new "Message too short: cannot read the code of a command"
        c.port true)
    | some (commandCode, in2) =>
      if commandCode = CMD_SIMSTEP2 then
        match in2.readInt with
        | none =>
          .error (ProtocolException.new
            "Message too short: cannot read the target time of a SIMSTEP2 command" c.port true)
        | some (nextT, in3) =>
          .ok (commandCode,
            { c with myTargetTime := if nextT = 0 then -1 else nextT, myWaiting := true },
            in3, outStorage)
      else if commandCode = CMD_CLOSE then
        .ok (commandCode, { c with myDisconnecting := true }, in2, outStorage)
      else
        let out1 := writeCommandSize outStorage size
        let out2 := out1.writeChar commandCode
        match copyChars (size - 1).toNat in2 out2 with
        | none =>
          .error (ProtocolException.new
            "Message too short: couldn't read all bytes from the command" c.port true)
        | some (in3, out3) => .ok (commandCode, c, in3, out3)

/-- The drain loop of `Client::getCommands`,
`while (myPendingCommands.valid_pos()) { cmd = handleCommand(myPendingCommands,
message); processedCmds++; if (cmd == CMD_SIMSTEP2 || cmd == CMD_CLOSE) break; }`.
The local `cmd` is `none` while it is uninitialised.  The first argument bounds
the number of iterations; `getCommands` passes the number of unread bytes, which
the loop never exceeds because every handled command consumes at least two
bytes. -/
def drainLoop : Nat → Client → Storage → Option Byte → Nat →
    Except ProtocolException (Option Byte × Nat × Client × Storage)
  | 0, c, message, cmd, processedCmds => .ok (cmd, processedCmds, c, message)
  | fuel + 1, c, message, cmd, processedCmds =>
    if c.myPendingCommands.valid_pos then
      match c.handleCommand c.myPendingCommands message with
      | .error e => .error e
      | .ok (code, c1, in1, out1) =>
        let c2 : Client := { c1 with myPendingCommands := in1 }
        if code = CMD_SIMSTEP2 || code = CMD_CLOSE then
          .ok (some code, processedCmds + 1, c2, out1)
        else drainLoop fuel c2 out1 (some code) (processedCmds + 1)
    else .ok (cmd, processedCmds, c, message)

/-- The part of `Client::getCommands` after a message is available ("Filter the
commands"): the drain loop, then the answer to a lone close request. -/
def filterCommands (c : Client) (message : Storage) :
    Except ProtocolException (Bool × Client × Storage) :=
  match drainLoop c.myPendingCommands.unread.length c message none 0 with
  | .error e => .error e
  | .ok (cmd, processedCmds, c1, out) =>
    if cmd = some CMD_CLOSE && processedCmds = 1 then
      .ok (c1.sendAnswers.1, c1.sendAnswers.2, out)
    else .ok (true, c1, out)

/-- Embedding of `Client::getCommands`: the result flag, the session and the
outbound storage `message` after the call, or the protocol error thrown by
`handleCommand`. -/
def getCommands (c : Client) (message : Storage) (currentTime : Int) :
    Except ProtocolException (Bool × Client × Storage) :=
  if !c.canAct currentTime && !c.myDisconnecting && !c.hasPendingAnswers then
    .ok (false, c, message)
  else if !c.hasPendingCommands then
    match c.mySocket.receiveExact c.myPendingCommands.reset with
    | none =>
      .ok (false, { c with myPendingCommands := c.myPendingCommands.reset, myConnected := false },
        message)
    | some (sock, pending) =>
      filterCommands { c with mySocket := sock, myPendingCommands := pending } message
  else filterCommands c message

end Client

/-! ## Frames of the wire protocol, as the specification words them -/

/-- Follows the spec: a frame is well-formed per the wire protocol when it is
either a one-byte size field giving the total on-wire length (at most 255),
or a zero byte and a 32-bit big-endian int giving the total on-wire length
(at least 256, and representable as an `int`), in both cases followed by an
opcode byte and the payload that completes the announced length. -/
def wellFormedFrame (f : List Byte) : Bool :=
  match f with
  | [] => false
  | b :: rest =>
    if b ≠ 0 then decide (b.val = f.length) && decide (2 ≤ f.length)
    else
      match rest with
      | b0 :: b1 :: b2 :: b3 :: _ :: _ =>
        decide (beNat b0 b1 b2 b3 = f.length) && decide (256 ≤ f.length)
          && decide (f.length < 2147483648)
      | _ => false

/-- The opcode byte of a frame: the byte after the size field. -/
def frameOpcode (f : List Byte) : Option Byte :=
  match f with
  | [] => none
  | b :: rest => if b ≠ 0 then rest.head? else (rest.drop 4).head?

/-- Follows the spec: a well-formed client command is a well-formed frame whose
body matches its opcode where the wire protocol fixes it: the body of SIMSTEP2
is `<int32 targetTime>` (six bytes on the wire) and the body of CLOSE is empty
(two bytes on the wire). -/
def wellFormedCommand (f : List Byte) : Bool :=
  wellFormedFrame f &&
    (match frameOpcode f with
     | none => false
     | some op =>
       if op = CMD_SIMSTEP2 then decide (f.length = 6)
       else if op = CMD_CLOSE then decide (f.length = 2)
       else true)

/-- Follows the spec: a control frame carries one of the two opcodes the hub
consumes, SIMSTEP2 or CLOSE. -/
def isControlFrame (f : List Byte) : Bool :=
  decide (frameOpcode f = some CMD_SIMSTEP2) || decide (frameOpcode f = some CMD_CLOSE)

/-- Follows the spec: the frames of a message that one drain handles, those up
to and including the first control frame (all of them if there is none). -/
def handledFrames : List (List Byte) → List (List Byte)
  | [] => []
  | f :: fs => if isControlFrame f then [f] else f :: handledFrames fs

/-- The bytes by which a well-formed application frame `f` is forwarded: `f`
itself, except that a frame in the five-byte form of total length below 260 is
given the one-byte size field `length - 4`. -/
def forwardedFrame (f : List Byte) : List Byte :=
  if f.head? = some 0 ∧ f.length < 260 then toByte (f.length - 4) :: f.drop 5 else f

/-- The bytes forwarded for a message: the forwarded form of every handled
frame that is not a control frame, in order. -/
def forwardedBytes (frames : List (List Byte)) : List Byte :=
  (((handledFrames frames).filter (fun f => !isControlFrame f)).map forwardedFrame).flatten

/-! ## `src/TraCIHub.cpp`: the hub -/

/-- Modelled from the spec: `readString()`, the bytes of a string after its
length has been read: `n` bytes, `none` on a short read. -/
def Storage.readBytes : Nat → Storage → Option (List Byte × Storage)
  | 0, s => some ([], s)
  | n + 1, s =>
    match s.readChar with
    | none => none
    | some (b, s1) =>
      match Storage.readBytes n s1 with
      | none => none
      | some (bs, s2) => some (b :: bs, s2)

/-- Modelled from the spec: `readString()`, "`<int32 length><length bytes>`". -/
def Storage.readString (s : Storage) : Option (List Byte × Storage) :=
  match s.readInt with
  | none => none
  | some (len, s1) => Storage.readBytes len.toNat s1

/-- What the step loop of `TraCIHub::execute` can catch: a
`tcpip::SocketException` raised on the engine socket, or a
`ProtocolException`. -/
inductive Fault where
  | socket : Fault
  | protocol : ProtocolException → Fault
deriving DecidableEq, Repr

/-- A fault on its way out of the step loop, with the two hub members that the
cleanup of `execute` and the time-keeping depend on, as the throw leaves them:
the engine socket and the current time. -/
structure Abort where
  fault : Fault
  sumo : Socket
  currentTime : Int
deriving DecidableEq, Repr

/-- Embedding of the data members of `class TraCIHub` (`src/TraCIHub.h`) that
the step loop uses: the engine socket, the sessions in configured order, the
step length and the current time. -/
structure Hub where
  mySumoSocket : Socket
  myClients : List Client
  myTimestepLength : Int
  myCurrentTime : Int
deriving DecidableEq, Repr

namespace Hub

/-- Embedding of the constructor `TraCIHub::TraCIHub(sumoHost, sumoPort,
clientPorts, stepLength)`: one session per client port, time 0.  The last two
arguments are not arguments of the source: they are the environment of the
run, the engine at the other end of the engine socket and, for each client
port, the client that will connect to it. -/
def new (_sumoHost : String) (sumoPort : Int) (clientPorts : List Int) (stepLength : Int)
    (engine : Peer) (clientPeers : Int → Peer) : Hub :=
  { mySumoSocket :=
      Socket.withPeer
        { port := sumoPort, hasPeer := false, inbox := [], sendFaults := [], sent := [] } engine
    myClients := clientPorts.map
      (fun p => { Client.new p with mySocket := (Client.new p).mySocket.withPeer (clientPeers p) })
    myTimestepLength := stepLength
    myCurrentTime := 0 }

/-- The size check at the head of `TraCIHub::verifyStatusResponse`,
`try { size = readCommandSize(answer); } catch (std::invalid_argument) {}
if (size < 6) throw ProtocolException(...)`: the answer storage after the size
was read when the check passes, or the protocol error.
When the size cannot be read the source swallows the short read and leaves the
local `size` uninitialised; every continuation from there ends in a
`throw ProtocolException(..., mySumoSocket.port())` (at once if the test
`size < 6` succeeds, otherwise from one of the following reads, which cannot
all succeed on a buffer too short to hold a size), so that case is the error
constructed from the engine port. -/
def checkStatusSize (h : Hub) (answer : Storage) (cmdCode : Int) :
    Except ProtocolException Storage :=
  match readCommandSize answer with
  | none =>
    .error (ProtocolException.new "Invalid status response" h.mySumoSocket.port false)
  | some (size, a1) =>
    if size < 6 then
      .error (ProtocolException.new
        ("Invalid status response for command " ++ toString cmdCode ++ ": " ++ toString size
          ++ " bytes is too short.") h.mySumoSocket.port false)
    else .ok a1

/-- Embedding of `TraCIHub::verifyStatusResponse`: the success flag, the
description and the answer storage after the call, or the protocol error. -/
def verifyStatusResponse (h : Hub) (answer : Storage) (cmdCode : Int) :
    Except ProtocolException (Bool × List Byte × Storage) :=
  match h.checkStatusSize answer cmdCode with
  | .error e => .error e
  | .ok a1 =>
    match a1.readChar with
    | none =>
      .error (ProtocolException.new "Message too short: couldn't read command code"
        h.mySumoSocket.port false)
    | some (actualCmdCode, a2) =>
      if (actualCmdCode.val : Int) ≠ cmdCode then
        .error (ProtocolException.new
          ("Received status response for command " ++ toString actualCmdCode.val
            ++ " when expecting " ++ toString cmdCode) h.mySumoSocket.port false)
      else
        match a2.readUnsignedByte with
        | none =>
          .error (ProtocolException.new "Message too short: couldn't read result code"
            h.mySumoSocket.port false)
        | some (resultCode, a3) =>
          match a3.readString with
          | none =>
            .error (ProtocolException.new
              "Message too short: couldn't read result description"
              h.mySumoSocket.port false)
          | some (description, a4) =>
            .ok (decide (resultCode = (RTYPE_OK.val : Int)), description, a4)

/-- The step request composed by `TraCIHub::runStep`:
`writeByte(1+1+4); writeChar(CMD_SIMSTEP2); writeInt(0)`. -/
def stepMessage : Storage :=
  ((Storage.empty.writeByte (1 + 1 + 4)).writeChar CMD_SIMSTEP2).writeInt 0

/-- Embedding of `TraCIHub::runStep`: the hub after the step, or the fault that
leaves the function.  `myCurrentTime += myTimestepLength` is an addition of two
32-bit `int`s: the stored value is the sum reduced by `wrapInt32`. -/
def runStep (h : Hub) : Except Abort Hub :=
  match h.mySumoSocket.sendExact stepMessage with
  | none => .error ⟨Fault.socket, h.mySumoSocket.faulted, h.myCurrentTime⟩
  | some sumo1 =>
    match sumo1.receiveExact Storage.empty with
    | none => .error ⟨Fault.socket, sumo1, h.myCurrentTime⟩
    | some (sumo2, answer) =>
      let h1 : Hub :=
        { h with
          mySumoSocket := sumo2
          myCurrentTime := wrapInt32 (h.myCurrentTime + h.myTimestepLength) }
      match h1.verifyStatusResponse (Storage.empty.writeStorage answer) (CMD_SIMSTEP2.val : Int) with
      | .error e => .error ⟨Fault.protocol e, sumo2, h1.myCurrentTime⟩
      | .ok (success, _, _) =>
        .ok { h1 with
          myClients := h1.myClients.map (fun c => c.handleStepResult h1.myCurrentTime success answer) }

/-- Embedding of `TraCIHub::handleClient`, the loop
`while (client.canAct(myCurrentTime)) { ... }` on the engine socket `sumo` and
one session.  The first argument bounds the number of iterations; `none` means
the bound was reached while the session could still act. -/
def handleClient : Nat → Socket → Int → Client → Option (Except Abort (Socket × Client))
  | 0, sumo, currentTime, client =>
    if client.canAct currentTime then none else some (.ok (sumo, client))
  | fuel + 1, sumo, currentTime, client =>
    if client.canAct currentTime then
      match client.getCommands Storage.empty currentTime with
      | .error e => some (.error ⟨Fault.protocol e, sumo, currentTime⟩)
      | .ok (_, client1, message) =>
        if message.size > 0 then
          match sumo.sendExact message with
          | none => some (.error ⟨Fault.socket, sumo.faulted, currentTime⟩)
          | some sumo1 =>
            match sumo1.receiveExact Storage.empty with
            | none => some (.error ⟨Fault.socket, sumo1, currentTime⟩)
            | some (sumo2, answer) =>
              handleClient fuel sumo2 currentTime (client1.putAnswers answer).2
        else handleClient fuel sumo currentTime client1
    else some (.ok (sumo, client))

/-- The session loop of `TraCIHub::handleStep`,
`for (it = myClients.begin(); ...) if (it->isConnected()) { handleClient(*it);
someConnected = someConnected || it->isConnected(); }`. -/
def handleClients (fuel : Nat) (currentTime : Int) :
    Socket → List Client → Bool → Option (Except Abort (Socket × List Client × Bool))
  | sumo, [], someConnected => some (.ok (sumo, [], someConnected))
  | sumo, client :: rest, someConnected =>
    if client.isConnected then
      match handleClient fuel sumo currentTime client with
      | none => none
      | some (.error e) => some (.error e)
      | some (.ok (sumo1, client1)) =>
        match handleClients fuel currentTime sumo1 rest (someConnected || client1.isConnected) with
        | none => none
        | some (.error e) => some (.error e)
        | some (.ok (sumo2, rest1, sc)) => some (.ok (sumo2, client1 :: rest1, sc))
    else
      match handleClients fuel currentTime sumo rest someConnected with
      | none => none
      | some (.error e) => some (.error e)
      | some (.ok (sumo2, rest1, sc)) => some (.ok (sumo2, client :: rest1, sc))

/-- Embedding of `TraCIHub::handleStep`: all sessions are serviced, then one
simulation step is run; the result is `someConnected`. -/
def handleStep (fuel : Nat) (h : Hub) : Option (Except Abort (Bool × Hub)) :=
  match handleClients fuel h.myCurrentTime h.mySumoSocket h.myClients false with
  | none => none
  | some (.error e) => some (.error e)
  | some (.ok (sumo1, clients1, someConnected)) =>
    match runStep { h with mySumoSocket := sumo1, myClients := clients1 } with
    | .error e => some (.error e)
    | .ok h1 => some (.ok (someConnected, h1))

/-- Embedding of `TraCIHub::connectToSUMO`: true iff the connection was made. -/
def connectToSUMO (h : Hub) : Bool × Hub :=
  match h.mySumoSocket.connect with
  | none => (false, h)
  | some sock => (true, { h with mySumoSocket := sock })

/-- The close command composed by `TraCIHub::disconnectSUMO`:
`writeUnsignedByte(1 + 1); writeUnsignedByte(CMD_CLOSE)`. -/
def closeMessage : Storage :=
  (Storage.empty.writeUnsignedByte (1 + 1)).writeUnsignedByte (CMD_CLOSE.val : Int)

/-- Embedding of `TraCIHub::disconnectSUMO`; `none` is the
`tcpip::SocketException` of `sendExact`, which the function lets through. -/
def disconnectSUMO (h : Hub) : Option Hub :=
  if !h.mySumoSocket.has_client_connection then some h
  else
    match h.mySumoSocket.sendExact closeMessage with
    | none => none
    | some sock => some { h with mySumoSocket := sock.close }

/-- The loop of `TraCIHub::acceptClients` over the sessions; the flag is false
when an `acceptConnection` raised a `tcpip::SocketException`, which ends the
loop. -/
def acceptAll : List Client → Bool × List Client
  | [] => (true, [])
  | client :: rest =>
    match client.acceptConnection with
    | none => (false, client :: rest)
    | some (_, client1) => ((acceptAll rest).1, client1 :: (acceptAll rest).2)

/-- Embedding of `TraCIHub::acceptClients`: true iff all connections were
successful. -/
def acceptClients (h : Hub) : Bool × Hub :=
  ((acceptAll h.myClients).1, { h with myClients := (acceptAll h.myClients).2 })

/-- Embedding of `TraCIHub::closeClients`. -/
def closeClients (h : Hub) : Hub :=
  { h with myClients := h.myClients.map Client.closeConnection }

/-- The step loop of `TraCIHub::execute`,
`active = true; while (active) { active = handleStep(); }`: the hub when the
loop ends, or the fault that leaves it.  The first argument bounds the number
of rounds, the second is the bound passed to `handleStep`; `none` means that a
bound was reached. -/
def stepLoop : Nat → Nat → Hub → Option (Except Abort Hub)
  | 0, _, _ => none
  | rounds + 1, fuel, h =>
    match handleStep fuel h with
    | none => none
    | some (.error e) => some (.error e)
    | some (.ok (active, h1)) => if active then stepLoop rounds fuel h1 else some (.ok h1)

/-- The value that the handlers of `TraCIHub::execute` give to `result` for a
fault caught from the step loop: 1 for a `tcpip::SocketException`,
`e.isFromClient()? 2 : 1` for a `ProtocolException`. -/
def faultResult : Fault → Int
  | Fault.socket => 1
  | Fault.protocol e => if e.isFromClient then 2 else 1

/-- Embedding of `TraCIHub::execute`: the returned exit status and the engine
socket at that moment.  `.error` is an exception that leaves `execute`
uncaught (the `tcpip::SocketException` of a `disconnectSUMO` whose send
faults); `none` means that a bound of the step loop was reached.  The sessions
are not part of the result: after a fault `closeClients()` closes their
sockets, which cannot throw and does not touch the engine socket. -/
def execute (rounds fuel : Nat) (h : Hub) : Option (Except Fault (Int × Socket)) :=
  match h.connectToSUMO with
  | (false, h1) => some (.ok (1, h1.mySumoSocket))
  | (true, h1) =>
    match h1.acceptClients with
    | (false, h2) =>
      match h2.disconnectSUMO with
      | none => some (.error Fault.socket)
      | some h3 => some (.ok (2, h3.mySumoSocket))
    | (true, h2) =>
      match stepLoop rounds fuel h2 with
      | none => none
      | some (.ok h3) =>
        match h3.disconnectSUMO with
        | none => some (.error Fault.socket)
        | some h4 => some (.ok (0, h4.mySumoSocket))
      | some (.error a) =>
        match ({ h2 with mySumoSocket := a.sumo, myCurrentTime := a.currentTime } : Hub).disconnectSUMO with
        | none => some (.error Fault.socket)
        | some h4 => some (.ok (faultResult a.fault, h4.mySumoSocket))

end Hub

/-- The current time after `k` engine steps taken from time `t0` with step
length `L`: each `runStep` stores `wrapInt32 (myCurrentTime + L)`. -/
def Hub.timeAfter (t0 L : Int) : Nat → Int
  | 0 => t0
  | k + 1 => wrapInt32 (Hub.timeAfter t0 L k + L)

/-- The session after `k` successful engine steps taken from time `t0` with
step length `L`: each `runStep` advances the current time and then calls
`handleStepResult(myCurrentTime, success, answer)` on the session; `raws j` is
the engine answer of step `j + 1`. -/
def Client.afterSteps (c : Client) (t0 L : Int) (raws : Nat → Storage) : Nat → Client
  | 0 => c
  | k + 1 =>
    (Client.afterSteps c t0 L raws k).handleStepResult (Hub.timeAfter t0 L (k + 1)) true (raws k)

/-- A call of one of the four operations of a session that can send to the
client or lead to a send: `sendAnswers()`, `putAnswers(answers)`,
`getCommands(message, currentTime)`, `handleStepResult(currentTime, success,
resultMsg)`. -/
inductive ClientCall where
  | sendAnswers : ClientCall
  | putAnswers : Storage → ClientCall
  | getCommands : Storage → Int → ClientCall
  | handleStepResult : Int → Bool → Storage → ClientCall

/-- The session after one call; `none` when the call throws a
`ProtocolException`. -/
def Client.call (c : Client) : ClientCall → Option Client
  | ClientCall.sendAnswers => some c.sendAnswers.2
  | ClientCall.putAnswers answers => some (c.putAnswers answers).2
  | ClientCall.getCommands message currentTime =>
    match c.getCommands message currentTime with
    | .ok (_, c1, _) => some c1
    | .error _ => none
  | ClientCall.handleStepResult currentTime success resultMsg =>
    some (c.handleStepResult currentTime success resultMsg)

/-- The session after a sequence of calls, made in order; `none` when one of
them throws. -/
def Client.calls : Client → List ClientCall → Option Client
  | c, [] => some c
  | c, k :: ks =>
    match c.call k with
    | none => none
    | some c1 => Client.calls c1 ks

/-- The command batches that `handleClient` forwards for one session, in the
order in which they are sent: the content of `message` after each
`getCommands` call that left it non-empty and whose `sendExact` to the engine
succeeded.  The recursion is that of `Hub.handleClient`. -/
def Hub.clientBatches : Nat → Socket → Int → Client → List (List Byte)
  | 0, _, _, _ => []
  | fuel + 1, sumo, currentTime, client =>
    if client.canAct currentTime then
      match client.getCommands Storage.empty currentTime with
      | .error _ => []
      | .ok (_, client1, message) =>
        if message.size > 0 then
          match sumo.sendExact message with
          | none => []
          | some sumo1 =>
            match sumo1.receiveExact Storage.empty with
            | none => [message.store]
            | some (sumo2, answer) =>
              message.store ::
                Hub.clientBatches fuel sumo2 currentTime (client1.putAnswers answer).2
        else Hub.clientBatches fuel sumo currentTime client1
    else []

/-- The command batches of one round, one list per session in configured
order: those of `Hub.clientBatches` for a session that `handleStep` services,
none for a session whose socket has no peer.  The recursion is that of
`Hub.handleClients`. -/
def Hub.roundBatches (fuel : Nat) (currentTime : Int) :
    Socket → List Client → List (List (List Byte))
  | _, [] => []
  | sumo, client :: rest =>
    if client.isConnected then
      Hub.clientBatches fuel sumo currentTime client ::
        (match Hub.handleClient fuel sumo currentTime client with
         | some (.ok (sumo1, _)) => Hub.roundBatches fuel currentTime sumo1 rest
         | _ => [])
    else [] :: Hub.roundBatches fuel currentTime sumo rest

/-- Follows the spec: the hub states reachable from the state `h0` by rounds of
the step loop that complete without a fault. -/
inductive Hub.Reachable (h0 : Hub) : Hub → Prop where
  | start : Hub.Reachable h0 h0
  | round {h h1 : Hub} {fuel : Nat} {active : Bool} :
      Hub.Reachable h0 h → Hub.handleStep fuel h = some (.ok (active, h1)) →
      Hub.Reachable h0 h1

/-- The condition in which the hub leaves every session between two of its
operations: a session that handled a close request is no longer connected, and
a connected session has a peer on its socket. -/
def Client.settled (c : Client) : Prop :=
  (c.myDisconnecting = true → c.myConnected = false) ∧
  (c.myConnected = true → c.mySocket.hasPeer = true)

instance Client.settledDecidable (c : Client) : Decidable c.settled :=
  inferInstanceAs (Decidable ((c.myDisconnecting = true → c.myConnected = false) ∧
    (c.myConnected = true → c.mySocket.hasPeer = true)))

/-- The number of `handleCommand` calls that the drain loop of
`Client::getCommands` makes, the call that throws included.  The recursion is
that of `Client.drainLoop`; the first argument bounds the number of
iterations. -/
def Client.drainCalls : Nat → Client → Storage → Nat
  | 0, _, _ => 0
  | fuel + 1, c, message =>
    if c.myPendingCommands.valid_pos then
      match c.handleCommand c.myPendingCommands message with
      | .error _ => 1
      | .ok (code, c1, in1, out1) =>
        if code = CMD_SIMSTEP2 || code = CMD_CLOSE then 1
        else 1 + Client.drainCalls fuel { c1 with myPendingCommands := in1 } out1
    else 0

/-- The hub states reached from the state `h0` by exactly `k` rounds of the
step loop that complete without a fault. -/
inductive Hub.ReachableIn (h0 : Hub) : Nat → Hub → Prop where
  | start : Hub.ReachableIn h0 0 h0
  | round {k : Nat} {h h1 : Hub} {fuel : Nat} {active : Bool} :
      Hub.ReachableIn h0 k h → Hub.handleStep fuel h = some (.ok (active, h1)) →
      Hub.ReachableIn h0 (k + 1) h1

/-! ## Concrete inputs used by the examples below -/

/-- A frame in the five-byte form of total length 256: size field `0x00000100`,
opcode `0xAA`, 250 zero payload bytes. -/
def frame256 : List Byte := 0 :: 0 :: 0 :: 1 :: 0 :: 0xAA :: List.replicate 250 0

/-- The frame of scenario S1: size 7, opcode `0xAA`, four payload bytes. -/
def frameS1 : List Byte := [0x07, 0xAA, 0x04, 0x01, 0x02, 0x03, 0x04]

/-- The on-wire bytes printed in scenario S5, for a given payload: a zero byte,
the size field `0x00,0x00,0x01,0x31`, opcode `0xB0`, then the payload. -/
def frameS5 (payload : List Byte) : List Byte :=
  [0x00, 0x00, 0x00, 0x01, 0x31, 0xB0] ++ payload

/-- The frame of scenario S5 with the size field holding the total on-wire
length 306 = `0x00000132`. -/
def frameS5Total (payload : List Byte) : List Byte :=
  [0x00, 0x00, 0x00, 0x01, 0x32, 0xB0] ++ payload

/-- A successful status response to SIMSTEP2 with an empty description, as the
engine sends it: size 7, opcode `0x02`, result `0x00`, string length 0. -/
def stepAnswer : Storage := ⟨[0x07, 0x02, 0x00, 0x00, 0x00, 0x00, 0x00], 0⟩

/-- A connected session on port 4001 that is waiting with target time -1
("release at the next step"). -/
def waitingNextStep : Client :=
  { mySocket := { port := 4001, hasPeer := true, inbox := [], sendFaults := [], sent := [] }
    myPendingAnswers := Storage.empty
    myPendingCommands := Storage.empty
    myDisconnecting := false
    myConnected := true
    myWaiting := true
    myTargetTime := -1 }

/-- A frame in the five-byte form of total length 259: size field `0x00000103`,
opcode `0xAB`, 253 zero payload bytes. -/
def frame259 : List Byte := 0 :: 0 :: 0 :: 1 :: 3 :: 0xAB :: List.replicate 253 0

/-- The step request `SIMSTEP2(0)`: size 6, opcode `0x02`, target time 0. -/
def frameStep0 : List Byte := [0x06, 0x02, 0x00, 0x00, 0x00, 0x00]

/-- The close request: size 2, opcode `0x7F`. -/
def frameClose : List Byte := [0x02, 0x7F]

/-- A connected session on port 4001, neither waiting nor disconnecting, whose
pendingIn holds the given bytes with the cursor at the start. -/
def readySession (pending : List Byte) : Client :=
  { mySocket := { port := 4001, hasPeer := true, inbox := [], sendFaults := [], sent := [] }
    myPendingAnswers := Storage.empty
    myPendingCommands := ⟨pending, 0⟩
    myDisconnecting := false
    myConnected := true
    myWaiting := false
    myTargetTime := -1 }

/-- The session of scenario S3: connected and waiting for target time 3500. -/
def waitingS3 : Client :=
  { mySocket := { port := 4001, hasPeer := true, inbox := [], sendFaults := [], sent := [] }
    myPendingAnswers := Storage.empty
    myPendingCommands := ⟨[0x06, 0x02, 0x00, 0x00, 0x0D, 0xAC], 6⟩
    myDisconnecting := false
    myConnected := true
    myWaiting := true
    myTargetTime := 3500 }

/-- The status frame that answers a close request, as `sendAnswers` composes it
with `writeStatusCmd(CMD_CLOSE, RTYPE_OK, "Goodbye", ...)`: size byte 14,
opcode `0x7F`, result `0x00`, string length 7, the characters of "Goodbye". -/
def goodbyeFrame : List Byte :=
  [0x0E, 0x7F, 0x00, 0x00, 0x00, 0x00, 0x07, 0x47, 0x6F, 0x6F, 0x64, 0x62, 0x79, 0x65]

/-- The bytes printed in scenario S2 for the answer to a close request: as
`goodbyeFrame`, but with the size byte `0x0B`. -/
def goodbyeS2 : List Byte :=
  [0x0B, 0x7F, 0x00, 0x00, 0x00, 0x00, 0x07, 0x47, 0x6F, 0x6F, 0x64, 0x62, 0x79, 0x65]

/-- A connected session on port 4001, neither waiting nor disconnecting, with
empty pendingIn and pendingOut, whose client will deliver the given messages. -/
def readyWithInbox (inbox : List (List Byte)) : Client :=
  { mySocket := { port := 4001, hasPeer := true, inbox := inbox, sendFaults := [], sent := [] }
    myPendingAnswers := Storage.empty
    myPendingCommands := Storage.empty
    myDisconnecting := false
    myConnected := true
    myWaiting := false
    myTargetTime := -1 }

/-- A connected session that has handled a close request while an answer of the
engine is still stored in pendingOut. -/
def closingWithAnswer : Client :=
  { mySocket := { port := 4001, hasPeer := true, inbox := [], sendFaults := [], sent := [] }
    myPendingAnswers := ⟨[0x07, 0xAA, 0x00, 0x00, 0x00, 0x00, 0x00], 0⟩
    myPendingCommands := ⟨frameS1 ++ frameClose, 9⟩
    myDisconnecting := true
    myConnected := true
    myWaiting := false
    myTargetTime := -1 }

/-- The hub of scenario S1 after the connections were made: step length 1000,
time 0, one ready session whose client sends the S1 frame followed by
`SIMSTEP2(0)` in one message, and an engine that answers the S1 frame with a
status frame for `0xAA` and the step with `stepAnswer`. -/
def hubS1 : Hub :=
  { mySumoSocket :=
      { port := 8813, hasPeer := true,
        inbox := [[0x07, 0xAA, 0x00, 0x00, 0x00, 0x00, 0x00], stepAnswer.store],
        sendFaults := [], sent := [] }
    myClients := [readyWithInbox [frameS1 ++ frameStep0]]
    myTimestepLength := 1000
    myCurrentTime := 0 }

/-- A hub constructed with the step length -1000, after the engine connected:
no sessions, time 0, an engine that answers one step with `stepAnswer`. -/
def hubBackwards : Hub :=
  { mySumoSocket :=
      { port := 8813, hasPeer := true, inbox := [stepAnswer.store], sendFaults := [],
        sent := [] }
    myClients := []
    myTimestepLength := -1000
    myCurrentTime := 0 }

/-- A hub as constructed for the engine port 8813 and the client port 4001,
step length 1000, before any connection is made: the engine will deliver the
messages `engineInbox` and its sends follow the script `engineFaults`; the
client, once accepted, will deliver the messages `clientInbox`. -/
def hubAtStart (engineInbox : List (List Byte)) (engineFaults : List Bool)
    (clientInbox : List (List Byte)) : Hub :=
  Hub.new "localhost" 8813 [4001] 1000
    { inbox := engineInbox, sendFaults := engineFaults, refused := false }
    (fun _ => { inbox := clientInbox, sendFaults := [], refused := false })

/-- The run of scenario S6: the client sends `SIMSTEP2(0)`, and the engine
answers the step request of the hub with a status frame whose opcode byte is
`0xAA`. -/
def hubS6 : Hub := hubAtStart [[0x07, 0xAA, 0x00, 0x00, 0x00, 0x00, 0x00]] [] [frameStep0]

/-- A run with a malformed client frame: the client sends the S1 frame cut off
after three bytes. -/
def hubMalformed : Hub := hubAtStart [] [] [[0x07, 0xAA, 0x04]]

/-- A run in which the engine is lost during the first step: the client sends
`SIMSTEP2(0)`, the step request of the hub is transmitted, no answer arrives,
and the next send to the engine faults. -/
def hubEngineLost : Hub := hubAtStart [] [false, true] [frameStep0]

/-- A connected session on port 4001 that is waiting for the target time
2100000000. -/
def waitingLate : Client :=
  { mySocket := { port := 4001, hasPeer := true, inbox := [], sendFaults := [], sent := [] }
    myPendingAnswers := Storage.empty
    myPendingCommands := ⟨[0x06, 0x02, 0x7D, 0x2B, 0x75, 0x00], 6⟩
    myDisconnecting := false
    myConnected := true
    myWaiting := true
    myTargetTime := 2100000000 }

/-- A hub with the step length 2000000000 at time 0, whose one session is
`waitingLate` and whose engine answers two steps with `stepAnswer`. -/
def hubLongStep : Hub :=
  { mySumoSocket :=
      { port := 8813, hasPeer := true, inbox := [stepAnswer.store, stepAnswer.store],
        sendFaults := [], sent := [] }
    myClients := [waitingLate]
    myTimestepLength := 2000000000
    myCurrentTime := 0 }

/-- The engine of scenario S1: it accepts the connection, answers the S1 frame
with a status frame for `0xAA` and the step with `stepAnswer`, and every send
to it succeeds. -/
def enginePeerS1 : Peer :=
  { inbox := [[0x07, 0xAA, 0x00, 0x00, 0x00, 0x00, 0x00], stepAnswer.store]
    sendFaults := []
    refused := false }

/-- The client of scenario S1: it connects and sends the S1 frame followed by
`SIMSTEP2(0)` in one message. -/
def clientPeerS1 : Peer :=
  { inbox := [frameS1 ++ frameStep0], sendFaults := [], refused := false }

end TraCIHub

namespace TraCIHub

/-! ## Lemmas on bytes and storages -/

theorem toByte_val (n : Nat) : (toByte n).val = n % 256 := rfl

theorem intToByte_val (v : Int) (h0 : 0 ≤ v) (h1 : v < 256) : ((intToByte v).val : Int) = v := by
  unfold intToByte
  rw [toByte_val]
  omega

theorem beInt32_int32Bytes (v : Int) (h0 : -2147483648 ≤ v) (h1 : v < 2147483648) :
    ∃ b0 b1 b2 b3, int32Bytes v = [b0, b1, b2, b3] ∧ beInt32 b0 b1 b2 b3 = v := by
  refine ⟨_, _, _, _, rfl, ?_⟩
  unfold beInt32 beNat
  simp only [toByte_val]
  split <;> omega

namespace Storage

theorem readChar_of_unread {s : Storage} {b : Byte} {t : List Byte}
    (h : s.unread = b :: t) :
    s.readChar = some (b, ⟨s.store, s.pos + 1⟩) ∧ (⟨s.store, s.pos + 1⟩ : Storage).unread = t := by
  unfold unread at h
  have hlt : s.pos < s.store.length := by
    by_contra hge
    rw [List.drop_eq_nil_of_le (by omega)] at h
    cases h
  have hd := List.drop_eq_getElem_cons hlt
  rw [hd] at h
  injection h with hb ht
  constructor
  · unfold readChar
    rw [List.getElem?_eq_getElem hlt, hb]
  · simpa [unread] using ht

theorem readChar_eq_none {s : Storage} (h : s.unread = []) : s.readChar = none := by
  unfold unread at h
  unfold readChar
  have : s.store.length ≤ s.pos := by
    rw [List.drop_eq_nil_iff] at h
    exact h
  rw [List.getElem?_eq_none this]

theorem unread_length (s : Storage) : s.unread.length = s.store.length - s.pos := by
  simp [unread]

theorem readChar_eq_none_iff (s : Storage) : s.readChar = none ↔ s.unread = [] := by
  constructor
  · intro h
    cases hu : s.unread with
    | nil => rfl
    | cons b t => rw [(readChar_of_unread hu).1] at h; cases h
  · exact readChar_eq_none

theorem readInt_of_unread {s : Storage} {b0 b1 b2 b3 : Byte} {t : List Byte}
    (h : s.unread = b0 :: b1 :: b2 :: b3 :: t) :
    s.readInt = some (beInt32 b0 b1 b2 b3, ⟨s.store, s.pos + 4⟩) ∧
      (⟨s.store, s.pos + 4⟩ : Storage).unread = t := by
  obtain ⟨r0, u0⟩ := readChar_of_unread h
  obtain ⟨r1, u1⟩ := readChar_of_unread u0
  obtain ⟨r2, u2⟩ := readChar_of_unread u1
  obtain ⟨r3, u3⟩ := readChar_of_unread u2
  constructor
  · unfold readInt
    rw [r0]; dsimp only
    rw [r1]; dsimp only
    rw [r2]; dsimp only
    rw [r3]
  · exact u3

theorem readInt_eq_none {s : Storage} (h : s.unread.length < 4) : s.readInt = none := by
  unfold readInt
  cases hu : s.unread with
  | nil => rw [readChar_eq_none hu]
  | cons b0 t0 =>
    obtain ⟨r0, u0⟩ := readChar_of_unread hu
    rw [r0]; dsimp only
    cases t0 with
    | nil => rw [readChar_eq_none u0]
    | cons b1 t1 =>
      obtain ⟨r1, u1⟩ := readChar_of_unread u0
      rw [r1]; dsimp only
      cases t1 with
      | nil => rw [readChar_eq_none u1]
      | cons b2 t2 =>
        obtain ⟨r2, u2⟩ := readChar_of_unread u1
        rw [r2]; dsimp only
        cases t2 with
        | nil => rw [readChar_eq_none u2]
        | cons b3 t3 =>
          rw [hu] at h
          simp only [List.length_cons] at h
          omega

end Storage

theorem readCommandSize_short {s : Storage} {b : Byte} {t : List Byte}
    (h : s.unread = b :: t) (hb : b ≠ 0) :
    readCommandSize s = some ((b.val : Int) - 1, ⟨s.store, s.pos + 1⟩) := by
  unfold readCommandSize Storage.readUnsignedByte
  rw [(Storage.readChar_of_unread h).1]
  have hv : ((b.val : Nat) : Int) ≠ 0 := by
    intro h0
    apply hb
    apply Fin.ext
    simpa using h0
  simp only [ne_eq, hv, not_false_eq_true, if_true]

theorem readCommandSize_long {s : Storage} {b0 b1 b2 b3 : Byte} {t : List Byte}
    (h : s.unread = 0 :: b0 :: b1 :: b2 :: b3 :: t) :
    readCommandSize s = some (beInt32 b0 b1 b2 b3 - 5, ⟨s.store, s.pos + 5⟩) := by
  unfold readCommandSize Storage.readUnsignedByte
  obtain ⟨r, u⟩ := Storage.readChar_of_unread h
  rw [r]
  simp only [Fin.val_zero, Nat.cast_zero, ne_eq, not_true_eq_false, if_false]
  rw [(Storage.readInt_of_unread u).1]

theorem readCommandSize_long_short {s : Storage} {t : List Byte}
    (h : s.unread = 0 :: t) (ht : t.length < 4) : readCommandSize s = none := by
  unfold readCommandSize Storage.readUnsignedByte
  obtain ⟨r, u⟩ := Storage.readChar_of_unread h
  rw [r]
  simp only [Fin.val_zero, Nat.cast_zero, ne_eq, not_true_eq_false, if_false]
  rw [Storage.readInt_eq_none (by rw [u]; exact ht)]

theorem readCommandSize_empty {s : Storage} (h : s.unread = []) : readCommandSize s = none := by
  unfold readCommandSize Storage.readUnsignedByte
  rw [Storage.readChar_eq_none h]

namespace Client

theorem copyChars_of_unread (xs : List Byte) :
    ∀ (inS outS : Storage) (t : List Byte), inS.unread = xs ++ t →
      copyChars xs.length inS outS =
        some (⟨inS.store, inS.pos + xs.length⟩, ⟨outS.store ++ xs, outS.pos⟩) ∧
      (⟨inS.store, inS.pos + xs.length⟩ : Storage).unread = t := by
  induction xs with
  | nil =>
    intro inS outS t h
    constructor
    · simp [copyChars]
    · simpa using h
  | cons x xs ih =>
    intro inS outS t h
    obtain ⟨r, u⟩ := Storage.readChar_of_unread (by simpa using h : inS.unread = x :: (xs ++ t))
    obtain ⟨hc, hu⟩ := ih ⟨inS.store, inS.pos + 1⟩ (outS.writeChar x) t u
    simp only [List.length_cons, copyChars, r]
    constructor
    · rw [hc]
      simp [Storage.writeChar, Nat.add_assoc, Nat.add_comm 1]
    · have : inS.pos + (xs.length + 1) = inS.pos + 1 + xs.length := by omega
      rw [this]
      exact hu

theorem copyChars_short :
    ∀ (n : Nat) (inS outS : Storage), inS.unread.length < n → copyChars n inS outS = none := by
  intro n
  induction n with
  | zero => intro inS outS h; omega
  | succ n ih =>
    intro inS outS h
    cases hu : inS.unread with
    | nil => simp only [copyChars, Storage.readChar_eq_none hu]
    | cons b t =>
      obtain ⟨r, u⟩ := Storage.readChar_of_unread hu
      simp only [copyChars, r]
      apply ih
      rw [u]
      rw [hu] at h
      simpa using h

end Client


theorem Storage.unread_of_getElem? {s : Storage} {b : Byte} (h : s.store[s.pos]? = some b) :
    s.unread = b :: s.store.drop (s.pos + 1) := by
  have hlt : s.pos < s.store.length := by
    by_contra hge
    rw [List.getElem?_eq_none (by omega)] at h
    cases h
  unfold Storage.unread
  rw [List.drop_eq_getElem_cons hlt]
  rw [List.getElem?_eq_getElem hlt] at h
  injection h with h
  rw [h]

theorem Storage.unread_eq_nil_iff (s : Storage) : s.unread = [] ↔ s.store.length ≤ s.pos := by
  unfold Storage.unread
  exact List.drop_eq_nil_iff

/-! ## The codec -/

/-- C1: for every `n` with `0 ≤ n < 2^31 - 6`, `writeCommandSize` on an empty
buffer followed by `readCommandSize` returns `n` with the cursor at the end of
the buffer (every written byte is consumed), and the number of bytes written is
1 when `n + 1 < 256` and 5 otherwise. -/
theorem commandSize_roundtrip (n : Int) (h0 : 0 ≤ n) (h1 : n < 2147483648 - 6) :
    readCommandSize (writeCommandSize Storage.empty n) =
        some (n, ⟨(writeCommandSize Storage.empty n).store,
          (writeCommandSize Storage.empty n).store.length⟩) ∧
      (writeCommandSize Storage.empty n).store.length = (if n + 1 < 256 then 1 else 5) := by
  by_cases hs : n + 1 < 256
  · have hw : writeCommandSize Storage.empty n = ⟨[intToByte (n + 1)], 0⟩ := by
      simp [writeCommandSize, hs, Storage.writeUnsignedByte, Storage.writeChar, Storage.empty]
    have hv := intToByte_val (n + 1) (by omega) hs
    have hne : intToByte (n + 1) ≠ 0 := by
      intro h
      rw [h] at hv
      simp at hv
      omega
    have hr := readCommandSize_short (s := ⟨[intToByte (n + 1)], 0⟩) (b := intToByte (n + 1))
      (t := []) rfl hne
    rw [hw, hr, hv]
    simp [hs]
  · obtain ⟨b0, b1, b2, b3, hb, hv⟩ := beInt32_int32Bytes (n + 1 + 4) (by omega) (by omega)
    have hw : writeCommandSize Storage.empty n = ⟨[0, b0, b1, b2, b3], 0⟩ := by
      simp only [writeCommandSize, hs, if_false, Storage.writeUnsignedByte, Storage.writeChar,
        Storage.writeInt, Storage.empty, hb]
      rfl
    have hr := readCommandSize_long (s := ⟨[0, b0, b1, b2, b3], 0⟩) (t := []) rfl
    rw [hw, hr, hv]
    simp only [hs, if_false, List.length_cons, List.length_nil, and_true]
    congr 2
    omega

/-- The round trip at `n = 300`: five bytes are written and read back. -/
theorem commandSize_roundtrip_witness :
    readCommandSize (writeCommandSize Storage.empty 300) =
        some (300, ⟨(writeCommandSize Storage.empty 300).store,
          (writeCommandSize Storage.empty 300).store.length⟩) ∧
      (writeCommandSize Storage.empty 300).store.length =
        (if (300 : Int) + 1 < 256 then 1 else 5) :=
  commandSize_roundtrip 300 (by decide) (by decide)

theorem readCommandSize_eq_none_iff (s : Storage) :
    readCommandSize s = none ↔
      (s.store.length ≤ s.pos ∨ (s.store[s.pos]? = some 0 ∧ s.store.length < s.pos + 5)) := by
  constructor
  · intro hn
    by_cases hlt : s.pos < s.store.length
    · right
      have hb : s.store[s.pos]? = some (s.store[s.pos]) := List.getElem?_eq_getElem hlt
      have e0 := Storage.unread_of_getElem? hb
      by_cases hz : s.store[s.pos] = 0
      · rw [hz] at hb e0
        refine ⟨hb, ?_⟩
        by_contra hge
        have hlen : 4 ≤ (s.store.drop (s.pos + 1)).length := by
          rw [List.length_drop]; omega
        match hd : s.store.drop (s.pos + 1), hlen with
        | b0 :: b1 :: b2 :: b3 :: t, _ =>
          rw [hd] at e0
          rw [readCommandSize_long e0] at hn
          cases hn
      · rw [readCommandSize_short e0 hz] at hn
        cases hn
    · left; omega
  · rintro (h | ⟨hb, hlen⟩)
    · exact readCommandSize_empty ((Storage.unread_eq_nil_iff s).2 h)
    · have e0 := Storage.unread_of_getElem? hb
      apply readCommandSize_long_short e0
      rw [List.length_drop]
      have : s.pos < s.store.length := by
        by_contra hge
        rw [List.getElem?_eq_none (by omega)] at hb
        cases hb
      omega

theorem Client.handleCommand_forward (c : Client) (inS out in1 : Storage) (size : Int)
    (op : Byte) (payload t : List Byte)
    (hsize : readCommandSize inS = some (size, in1))
    (hun : in1.unread = op :: (payload ++ t))
    (h1 : op ≠ CMD_SIMSTEP2) (h2 : op ≠ CMD_CLOSE)
    (hlen : (size - 1).toNat = payload.length) :
    c.handleCommand inS out =
      .ok (op, c, ⟨in1.store, in1.pos + 1 + payload.length⟩,
        ⟨(writeCommandSize out size).store ++ op :: payload, (writeCommandSize out size).pos⟩) := by
  obtain ⟨r, u⟩ := Storage.readChar_of_unread hun
  obtain ⟨hc, _⟩ := Client.copyChars_of_unread payload ⟨in1.store, in1.pos + 1⟩
    ((writeCommandSize out size).writeChar op) t u
  unfold Client.handleCommand
  rw [hsize]; dsimp only
  rw [r]; dsimp only
  rw [if_neg h1, if_neg h2, hlen, hc]
  simp [Storage.writeChar]

theorem Client.handleCommand_simstep (c : Client) (inS out in1 : Storage) (size : Int)
    (b0 b1 b2 b3 : Byte) (t : List Byte)
    (hsize : readCommandSize inS = some (size, in1))
    (hun : in1.unread = CMD_SIMSTEP2 :: b0 :: b1 :: b2 :: b3 :: t) :
    c.handleCommand inS out =
      .ok (CMD_SIMSTEP2,
        { c with
          myTargetTime := if beInt32 b0 b1 b2 b3 = 0 then -1 else beInt32 b0 b1 b2 b3,
          myWaiting := true },
        ⟨in1.store, in1.pos + 5⟩, out) := by
  obtain ⟨r, u⟩ := Storage.readChar_of_unread hun
  obtain ⟨ri, _⟩ := Storage.readInt_of_unread u
  unfold Client.handleCommand
  rw [hsize]; dsimp only
  rw [r]; dsimp only
  rw [if_pos rfl, ri]

theorem Client.handleCommand_close (c : Client) (inS out in1 : Storage) (size : Int)
    (t : List Byte)
    (hsize : readCommandSize inS = some (size, in1))
    (hun : in1.unread = CMD_CLOSE :: t) :
    c.handleCommand inS out =
      .ok (CMD_CLOSE, { c with myDisconnecting := true }, ⟨in1.store, in1.pos + 1⟩, out) := by
  obtain ⟨r, _⟩ := Storage.readChar_of_unread hun
  unfold Client.handleCommand
  rw [hsize]; dsimp only
  rw [r]; dsimp only
  rw [if_neg (by decide), if_pos rfl]

/-- A well-formed frame is one of the two shapes of the wire protocol. -/
theorem wellFormedFrame_shape {f : List Byte} (h : wellFormedFrame f = true) :
    (∃ b op payload, f = b :: op :: payload ∧ b ≠ 0 ∧ b.val = payload.length + 2) ∨
    (∃ b0 b1 b2 b3 op payload, f = 0 :: b0 :: b1 :: b2 :: b3 :: op :: payload ∧
      beNat b0 b1 b2 b3 = payload.length + 6 ∧ 256 ≤ payload.length + 6 ∧
      payload.length + 6 < 2147483648) := by
  unfold wellFormedFrame at h
  match f, h with
  | b :: rest, h =>
    by_cases hb : b = 0
    · right
      subst hb
      simp only [ne_eq, not_true_eq_false, if_false] at h
      match rest, h with
      | b0 :: b1 :: b2 :: b3 :: op :: payload, h =>
        simp only [List.length_cons, Bool.and_eq_true, decide_eq_true_eq] at h
        exact ⟨b0, b1, b2, b3, op, payload, rfl, by omega, by omega, by omega⟩
    · left
      simp only [ne_eq, hb, not_false_eq_true, if_true, List.length_cons, Bool.and_eq_true,
        decide_eq_true_eq] at h
      match rest, h with
      | op :: payload, h =>
        exact ⟨b, op, payload, rfl, hb, by simpa using h.1⟩
      | [], h => simp at h


theorem intToByte_natCast (b : Byte) : intToByte (b.val : Int) = b := by
  apply Fin.ext
  unfold intToByte
  rw [toByte_val]
  have := b.isLt
  omega

theorem intToByte_of_nat (n : Nat) : intToByte (n : Int) = toByte n := by
  apply Fin.ext
  unfold intToByte
  rw [toByte_val, toByte_val]
  omega

theorem int32Bytes_beNat (b0 b1 b2 b3 : Byte) :
    int32Bytes (beNat b0 b1 b2 b3 : Int) = [b0, b1, b2, b3] := by
  have h0 := b0.isLt
  have h1 := b1.isLt
  have h2 := b2.isLt
  have h3 := b3.isLt
  unfold int32Bytes beNat
  have e : ((((b0.val * 16777216 + b1.val * 65536 + b2.val * 256 + b3.val : Nat) : Int))
      % 4294967296).toNat = b0.val * 16777216 + b1.val * 65536 + b2.val * 256 + b3.val := by
    omega
  simp only [e]
  congr 1
  · apply Fin.ext; rw [toByte_val]; omega
  congr 1
  · apply Fin.ext; rw [toByte_val]; omega
  congr 1
  · apply Fin.ext; rw [toByte_val]; omega
  congr 1
  · apply Fin.ext; rw [toByte_val]; omega

/-! ## Forwarding of application commands -/

theorem Client.handleCommand_wellFormed (c : Client) (inS out : Storage) (f rest : List Byte)
    (op : Byte) (hin : inS.unread = f ++ rest)
    (hwf : wellFormedFrame f = true) (hop : frameOpcode f = some op)
    (h1 : op ≠ CMD_SIMSTEP2) (h2 : op ≠ CMD_CLOSE) :
    c.handleCommand inS out =
      .ok (op, c, ⟨inS.store, inS.pos + f.length⟩,
        ⟨out.store ++ forwardedFrame f, out.pos⟩) := by
  unfold forwardedFrame
  rcases wellFormedFrame_shape hwf with ⟨b, op1, payload, hf, hb, hlen⟩ |
    ⟨b0, b1, b2, b3, op1, payload, hf, hlen, hlo, hhi⟩
  · subst hf
    have hop1 : op1 = op := by
      simpa [frameOpcode, hb] using hop
    subst hop1
    have hin1 : inS.unread = b :: (op1 :: (payload ++ rest)) := by simpa using hin
    have hs := readCommandSize_short hin1 hb
    have hu := (Storage.readChar_of_unread hin1).2
    rw [Client.handleCommand_forward c inS out _ _ op1 payload rest hs hu h1 h2 (by omega)]
    have hw : writeCommandSize out ((b.val : Int) - 1) = ⟨out.store ++ [b], out.pos⟩ := by
      have hlt := b.isLt
      have : (b.val : Int) - 1 + 1 < 256 := by omega
      simp only [writeCommandSize, this, if_true, Storage.writeUnsignedByte, Storage.writeChar]
      rw [show (b.val : Int) - 1 + 1 = (b.val : Int) by omega, intToByte_natCast]
    have hne : ¬ (some b = some (0 : Byte)) := by
      intro h; injection h with h; exact hb h
    simp [hw, hne, Nat.add_assoc, Nat.add_comm 1]
    omega
  · subst hf
    have hop1 : op1 = op := by
      simpa [frameOpcode] using hop
    subst hop1
    have hin1 : inS.unread = 0 :: b0 :: b1 :: b2 :: b3 :: (op1 :: (payload ++ rest)) := by
      simpa using hin
    have hs := readCommandSize_long hin1
    have hu : (⟨inS.store, inS.pos + 5⟩ : Storage).unread = op1 :: (payload ++ rest) := by
      have e1 := (Storage.readChar_of_unread hin1).2
      exact (Storage.readInt_of_unread e1).2
    have hv : beInt32 b0 b1 b2 b3 = ((payload.length + 6 : Nat) : Int) := by
      unfold beInt32
      rw [hlen, if_pos hhi]
    rw [Client.handleCommand_forward c inS out _ _ op1 payload rest hs hu h1 h2
      (by rw [hv]; omega)]
    by_cases hsmall : payload.length + 6 < 260
    · have hw : writeCommandSize out (beInt32 b0 b1 b2 b3 - 5) =
          ⟨out.store ++ [toByte (payload.length + 2)], out.pos⟩ := by
        have : beInt32 b0 b1 b2 b3 - 5 + 1 < 256 := by rw [hv]; omega
        simp only [writeCommandSize, this, if_true, Storage.writeUnsignedByte, Storage.writeChar]
        rw [show beInt32 b0 b1 b2 b3 - 5 + 1 = ((payload.length + 2 : Nat) : Int) by
          rw [hv]; omega, intToByte_of_nat]
      simp [hw, hsmall, Nat.add_assoc]
      omega
    · have hw : writeCommandSize out (beInt32 b0 b1 b2 b3 - 5) =
          ⟨out.store ++ [0, b0, b1, b2, b3], out.pos⟩ := by
        have : ¬ beInt32 b0 b1 b2 b3 - 5 + 1 < 256 := by rw [hv]; omega
        simp only [writeCommandSize, this, if_false, Storage.writeUnsignedByte, Storage.writeChar,
          Storage.writeInt]
        rw [show beInt32 b0 b1 b2 b3 - 5 + 1 + 4 = (beNat b0 b1 b2 b3 : Int) by
          rw [hv, hlen]; omega, int32Bytes_beNat]
        simp
        rfl
      simp [hw, hsmall, Nat.add_assoc]
      omega


/-- C2 (amended): for every well-formed frame `f` at the read cursor whose opcode
is neither SIMSTEP2 nor CLOSE, `handleCommand` returns the opcode, leaves the
session unchanged, advances the inbound cursor by exactly the length of `f`, and
appends to the outbound buffer the bytes of `f` itself, except for a frame in
the five-byte form of total length 256..259, which is appended with the one-byte
size field `length - 4` followed by the same opcode and payload. -/
theorem handleCommand_forwards_frame (c : Client) (inS out : Storage) (f rest : List Byte)
    (op : Byte) (hin : inS.unread = f ++ rest)
    (hwf : wellFormedFrame f = true) (hop : frameOpcode f = some op)
    (h1 : op ≠ CMD_SIMSTEP2) (h2 : op ≠ CMD_CLOSE) :
    c.handleCommand inS out =
      .ok (op, c, ⟨inS.store, inS.pos + f.length⟩,
        ⟨out.store ++ (if f.head? = some 0 ∧ f.length < 260
            then toByte (f.length - 4) :: f.drop 5 else f), out.pos⟩) :=
  Client.handleCommand_wellFormed c inS out f rest op hin hwf hop h1 h2

/-- The frame of scenario S1 is forwarded byte for byte. -/
theorem handleCommand_forwards_frame_witness :
    (Client.new 4001).handleCommand ⟨frameS1, 0⟩ Storage.empty =
      .ok (0xAA, Client.new 4001, ⟨frameS1, 0 + frameS1.length⟩,
        ⟨Storage.empty.store ++ (if frameS1.head? = some 0 ∧ frameS1.length < 260
            then toByte (frameS1.length - 4) :: frameS1.drop 5 else frameS1),
          Storage.empty.pos⟩) :=
  handleCommand_forwards_frame (Client.new 4001) ⟨frameS1, 0⟩ Storage.empty frameS1 [] 0xAA
    (by decide) (by decide) (by decide) (by decide) (by decide)

theorem longFrame256_facts (c : Client) (p : List Byte) (h : p.length = 250) :
    wellFormedFrame (0 :: 0 :: 0 :: 1 :: 0 :: 0xAA :: p) = true ∧
    frameOpcode (0 :: 0 :: 0 :: 1 :: 0 :: 0xAA :: p) = some 0xAA ∧
    c.handleCommand ⟨0 :: 0 :: 0 :: 1 :: 0 :: 0xAA :: p, 0⟩ Storage.empty =
      .ok (0xAA, c, ⟨0 :: 0 :: 0 :: 1 :: 0 :: 0xAA :: p, 256⟩, ⟨252 :: 0xAA :: p, 0⟩) ∧
    (252 :: 0xAA :: p : List Byte) ≠ 0 :: 0 :: 0 :: 1 :: 0 :: 0xAA :: p := by
  have hwf : wellFormedFrame (0 :: 0 :: 0 :: 1 :: 0 :: 0xAA :: p) = true := by
    simp only [wellFormedFrame, List.length_cons, h]
    decide
  have hop : frameOpcode (0 :: 0 :: 0 :: 1 :: 0 :: 0xAA :: p) = some 0xAA := by
    simp [frameOpcode]
  refine ⟨hwf, hop, ?_, ?_⟩
  · rw [Client.handleCommand_wellFormed c ⟨0 :: 0 :: 0 :: 1 :: 0 :: 0xAA :: p, 0⟩ Storage.empty
      (0 :: 0 :: 0 :: 1 :: 0 :: 0xAA :: p) [] 0xAA (by simp [Storage.unread]) hwf hop
      (by decide) (by decide)]
    have e : forwardedFrame (0 :: 0 :: 0 :: 1 :: 0 :: 0xAA :: p) = 252 :: 0xAA :: p := by
      unfold forwardedFrame
      rw [if_pos ⟨rfl, by simp only [List.length_cons, h]; decide⟩]
      simp only [List.length_cons, h, List.drop_succ_cons, List.drop_zero]
      rfl
    rw [e]
    simp only [List.length_cons, h]
    rfl
  · intro hc
    injection hc with hb _
    exact absurd hb (by decide)

/-- C2 fails as stated: `frame256` is well-formed (zero byte, 32-bit big-endian
total length 256, opcode `0xAA`, 250 payload bytes), yet `handleCommand` appends
252 bytes starting with the one-byte size field 252, not the 256 bytes of the
frame. -/
theorem handleCommand_frame256_counterexample :
    wellFormedFrame frame256 = true ∧ frameOpcode frame256 = some 0xAA ∧
    (Client.new 4001).handleCommand ⟨frame256, 0⟩ Storage.empty =
      .ok (0xAA, Client.new 4001, ⟨frame256, 256⟩,
        ⟨252 :: 0xAA :: List.replicate 250 0, 0⟩) ∧
    (252 :: 0xAA :: List.replicate 250 0 : List Byte) ≠ frame256 :=
  longFrame256_facts (Client.new 4001) (List.replicate 250 0) (List.length_replicate 250 0)


/-! ## Scenario S5 -/

theorem frameS5_printed (c : Client) (payload : List Byte) (h : payload.length = 300) :
    readCommandSize ⟨frameS5 payload, 0⟩ = some (300, ⟨frameS5 payload, 5⟩) ∧
    c.handleCommand ⟨frameS5 payload, 0⟩ Storage.empty =
      .ok (0xB0, c, ⟨frameS5 payload, 305⟩,
        ⟨[0x00, 0x00, 0x00, 0x01, 0x31, 0xB0] ++ payload.take 299, 0⟩) := by
  have hin : (⟨frameS5 payload, 0⟩ : Storage).unread =
      0 :: 0 :: 0 :: 1 :: 0x31 :: (0xB0 :: (payload.take 299 ++ payload.drop 299)) := by
    simp [Storage.unread, frameS5]
  have hs : readCommandSize ⟨frameS5 payload, 0⟩ = some (300, ⟨frameS5 payload, 5⟩) :=
    readCommandSize_long hin
  have hu : (⟨frameS5 payload, 5⟩ : Storage).unread =
      0xB0 :: (payload.take 299 ++ payload.drop 299) :=
    (Storage.readInt_of_unread (Storage.readChar_of_unread hin).2).2
  refine ⟨hs, ?_⟩
  rw [Client.handleCommand_forward c _ Storage.empty _ 300 0xB0 (payload.take 299)
    (payload.drop 299) hs hu (by decide) (by decide) (by simp; omega)]
  have hl : (payload.take 299).length = 299 := by simp; omega
  simp only [hl]
  rfl

theorem frameS5_total (c : Client) (payload : List Byte) (h : payload.length = 300) :
    readCommandSize ⟨frameS5Total payload, 0⟩ = some (301, ⟨frameS5Total payload, 5⟩) ∧
    c.handleCommand ⟨frameS5Total payload, 0⟩ Storage.empty =
      .ok (0xB0, c, ⟨frameS5Total payload, 306⟩, ⟨frameS5Total payload, 0⟩) := by
  have hin : (⟨frameS5Total payload, 0⟩ : Storage).unread =
      0 :: 0 :: 0 :: 1 :: 0x32 :: (0xB0 :: (payload ++ [])) := by
    simp [Storage.unread, frameS5Total]
  have hs : readCommandSize ⟨frameS5Total payload, 0⟩ =
      some (301, ⟨frameS5Total payload, 5⟩) :=
    readCommandSize_long hin
  have hu : (⟨frameS5Total payload, 5⟩ : Storage).unread = 0xB0 :: (payload ++ []) :=
    (Storage.readInt_of_unread (Storage.readChar_of_unread hin).2).2
  refine ⟨hs, ?_⟩
  rw [Client.handleCommand_forward c _ Storage.empty _ 301 0xB0 payload [] hs hu
    (by decide) (by decide) (by omega)]
  simp only [h]
  rfl

/-- C3 (amended): for every payload of 300 bytes, (a) on the bytes printed in
scenario S5, whose size field is `0x00000131` = 305, `readCommandSize` returns
300 and `handleCommand` copies the opcode `0xB0` and the first 299 payload bytes,
leaving the cursor at 305 of 306 bytes (the last payload byte stays unread);
(b) on the frame whose size field holds the total length 306, `readCommandSize`
returns 301 and `handleCommand` copies the whole frame byte for byte, leaving
the inbound buffer exhausted. -/
theorem scenarioS5_large_frame (c : Client) (payload : List Byte) (h : payload.length = 300) :
    (readCommandSize ⟨frameS5 payload, 0⟩ = some (300, ⟨frameS5 payload, 5⟩) ∧
      c.handleCommand ⟨frameS5 payload, 0⟩ Storage.empty =
        .ok (0xB0, c, ⟨frameS5 payload, 305⟩,
          ⟨[0x00, 0x00, 0x00, 0x01, 0x31, 0xB0] ++ payload.take 299, 0⟩) ∧
      (⟨frameS5 payload, 305⟩ : Storage).valid_pos = true) ∧
    (readCommandSize ⟨frameS5Total payload, 0⟩ = some (301, ⟨frameS5Total payload, 5⟩) ∧
      c.handleCommand ⟨frameS5Total payload, 0⟩ Storage.empty =
        .ok (0xB0, c, ⟨frameS5Total payload, 306⟩, ⟨frameS5Total payload, 0⟩) ∧
      (⟨frameS5Total payload, 306⟩ : Storage).valid_pos = false) := by
  refine ⟨⟨(frameS5_printed c payload h).1, (frameS5_printed c payload h).2, ?_⟩,
    ⟨(frameS5_total c payload h).1, (frameS5_total c payload h).2, ?_⟩⟩
  · simp [Storage.valid_pos, frameS5, h]
  · simp [Storage.valid_pos, frameS5Total, h]


/-- Scenario S5 with an all-zero payload of 300 bytes: the frame with size field
306 decodes to 301. -/
theorem scenarioS5_large_frame_witness :
    (List.replicate 300 (0 : Byte)).length = 300 ∧
    readCommandSize ⟨frameS5Total (List.replicate 300 0), 0⟩ =
      some (301, ⟨frameS5Total (List.replicate 300 0), 5⟩) ∧
    (Client.new 4001).handleCommand ⟨frameS5Total (List.replicate 300 0), 0⟩ Storage.empty =
      .ok (0xB0, Client.new 4001, ⟨frameS5Total (List.replicate 300 0), 306⟩,
        ⟨frameS5Total (List.replicate 300 0), 0⟩) :=
  ⟨List.length_replicate 300 0,
    (scenarioS5_large_frame (Client.new 4001) (List.replicate 300 0)
      (List.length_replicate 300 0)).2.1,
    (scenarioS5_large_frame (Client.new 4001) (List.replicate 300 0)
      (List.length_replicate 300 0)).2.2.1⟩

/-- C3 fails as stated: on the bytes `0x00, 0x00,0x00,0x01,0x31, 0xB0` followed by
300 (zero) payload bytes, `readCommandSize` returns 300, not 301, and
`handleCommand` stops at cursor 305 with one payload byte still unread, so the
inbound buffer is not exhausted and only 299 payload bytes are copied. -/
theorem scenarioS5_printed_counterexample :
    readCommandSize ⟨frameS5 (List.replicate 300 0), 0⟩ =
      some (300, ⟨frameS5 (List.replicate 300 0), 5⟩) ∧
    readCommandSize ⟨frameS5 (List.replicate 300 0), 0⟩ ≠
      some (301, ⟨frameS5 (List.replicate 300 0), 5⟩) ∧
    (Client.new 4001).handleCommand ⟨frameS5 (List.replicate 300 0), 0⟩ Storage.empty =
      .ok (0xB0, Client.new 4001, ⟨frameS5 (List.replicate 300 0), 305⟩,
        ⟨[0x00, 0x00, 0x00, 0x01, 0x31, 0xB0] ++ (List.replicate 300 0).take 299, 0⟩) ∧
    (⟨frameS5 (List.replicate 300 0), 305⟩ : Storage).valid_pos = true ∧
    ([0x00, 0x00, 0x00, 0x01, 0x31, 0xB0] ++ (List.replicate 300 (0 : Byte)).take 299).length
      = 305 := by
  have h := frameS5_printed (Client.new 4001) (List.replicate 300 0) (List.length_replicate 300 0)
  refine ⟨h.1, ?_, h.2, ?_, ?_⟩
  · rw [h.1]
    intro hc
    injection hc with hc
    injection hc with hc _
    exact absurd hc (by decide)
  · simp only [Storage.valid_pos, frameS5, List.length_append, List.length_replicate,
      List.length_cons, List.length_nil]
    decide
  · simp only [List.length_append, List.length_take, List.length_replicate,
      List.length_cons, List.length_nil]
    decide

/-! ## Step requests -/

/-- C5: for every session and every inbound buffer whose size field can be read
and is followed by the opcode SIMSTEP2 and four bytes `b0 b1 b2 b3`,
`handleCommand` returns `0x02`, sets `waiting` and sets `targetTime` to -1 when
the big-endian int `nextT` formed by those bytes is 0 and to `nextT` otherwise;
the outbound buffer is returned as it was (nothing is forwarded), and
`connected`, `disconnecting`, `pendingOut` and the socket are unchanged. -/
theorem handleCommand_simstep2 (c : Client) (inS out in1 : Storage) (size : Int)
    (b0 b1 b2 b3 : Byte) (t : List Byte)
    (hsize : readCommandSize inS = some (size, in1))
    (hun : in1.unread = 0x02 :: b0 :: b1 :: b2 :: b3 :: t) :
    ∃ c1 : Client,
      c.handleCommand inS out = .ok (0x02, c1, ⟨in1.store, in1.pos + 5⟩, out) ∧
      c1.myWaiting = true ∧
      c1.myTargetTime = (if beInt32 b0 b1 b2 b3 = 0 then -1 else beInt32 b0 b1 b2 b3) ∧
      c1.myConnected = c.myConnected ∧ c1.myDisconnecting = c.myDisconnecting ∧
      c1.myPendingAnswers = c.myPendingAnswers ∧ c1.mySocket = c.mySocket :=
  ⟨_, Client.handleCommand_simstep c inS out in1 size b0 b1 b2 b3 t hsize hun,
    rfl, rfl, rfl, rfl, rfl, rfl⟩

/-- The step request of scenario S3, `[0x06, 0x02, 0x00,0x00,0x0D,0xAC]` (target
time 3500), handled by a fresh session. -/
theorem handleCommand_simstep2_witness :
    ∃ c1 : Client,
      (Client.new 4001).handleCommand ⟨[0x06, 0x02, 0x00, 0x00, 0x0D, 0xAC], 0⟩ Storage.empty =
        .ok (0x02, c1, ⟨[0x06, 0x02, 0x00, 0x00, 0x0D, 0xAC], 1 + 5⟩, Storage.empty) ∧
      c1.myWaiting = true ∧
      c1.myTargetTime = (if beInt32 0x00 0x00 0x0D 0xAC = 0 then -1
        else beInt32 0x00 0x00 0x0D 0xAC) ∧
      c1.myConnected = (Client.new 4001).myConnected ∧
      c1.myDisconnecting = (Client.new 4001).myDisconnecting ∧
      c1.myPendingAnswers = (Client.new 4001).myPendingAnswers ∧
      c1.mySocket = (Client.new 4001).mySocket :=
  handleCommand_simstep2 (Client.new 4001) ⟨[0x06, 0x02, 0x00, 0x00, 0x0D, 0xAC], 0⟩
    Storage.empty ⟨[0x06, 0x02, 0x00, 0x00, 0x0D, 0xAC], 1⟩ 5 0x00 0x00 0x0D 0xAC [] rfl rfl


/-! ## Step results and answers -/

theorem Client.putAnswers_connected (c : Client) (answers : Storage)
    (hc : c.myConnected = true) :
    c.putAnswers answers =
      if (!c.myWaiting && (!c.hasPendingCommands || c.myDisconnecting)) = true then
        Client.sendAnswers
          { c with myPendingAnswers := c.myPendingAnswers.writeStorage answers }
      else (true, { c with myPendingAnswers := c.myPendingAnswers.writeStorage answers }) := by
  unfold Client.putAnswers
  rw [if_neg (by simp [hc])]
  rfl

/-- C7 (amended): `handleStepResult(now, success, raw)` leaves the session
unchanged (hence sends nothing) when `success` is true and `now < targetTime`;
in every other case, in particular whenever `success` is false, the result is
that of `putAnswers(raw)` on the session with `waiting` cleared.  For
`now ≥ -1` the condition `success ∧ now < targetTime` is the same as
`success ∧ now < targetTime ∧ targetTime ≠ -1`. -/
theorem handleStepResult_cases (c : Client) (now : Int) (success : Bool) (raw : Storage) :
    ((success = true ∧ now < c.myTargetTime) → c.handleStepResult now success raw = c) ∧
    (¬ (success = true ∧ now < c.myTargetTime) →
      c.handleStepResult now success raw =
        (Client.putAnswers { c with myWaiting := false } raw).2) ∧
    (success = false →
      c.handleStepResult now success raw =
        (Client.putAnswers { c with myWaiting := false } raw).2) ∧
    (-1 ≤ now →
      ((success = true ∧ now < c.myTargetTime) ↔
        (success = true ∧ now < c.myTargetTime ∧ c.myTargetTime ≠ -1))) := by
  refine ⟨?_, ?_, ?_, ?_⟩
  · rintro ⟨hs, hlt⟩
    simp [Client.handleStepResult, hs, hlt]
  · intro h
    unfold Client.handleStepResult
    rw [if_neg]
    simpa using h
  · intro hs
    simp [Client.handleStepResult, hs]
  · intro hn
    constructor
    · rintro ⟨hs, hlt⟩
      exact ⟨hs, hlt, by omega⟩
    · rintro ⟨hs, hlt, _⟩
      exact ⟨hs, hlt⟩

/-- Scenario S3 at time 1000 with target 3500: a successful step changes nothing. -/
theorem handleStepResult_cases_witness :
    ({ waitingNextStep with myTargetTime := 3500 } : Client).handleStepResult 1000 true stepAnswer
      = { waitingNextStep with myTargetTime := 3500 } :=
  (handleStepResult_cases { waitingNextStep with myTargetTime := 3500 } 1000 true stepAnswer).1
    ⟨rfl, by decide⟩

/-- C7 fails as stated: for a session whose target time is -1, the time
`now = -2` and a successful step, the claim's condition (`targetTime ≠ -1`) is
false, yet `handleStepResult` leaves the session unchanged, still waiting, and
does not behave as `putAnswers(raw)`, which would have sent the answer. -/
theorem handleStepResult_negative_time_counterexample :
    ¬ (true = true ∧ (-2 : Int) < waitingNextStep.myTargetTime ∧
        waitingNextStep.myTargetTime ≠ -1) ∧
    waitingNextStep.handleStepResult (-2) true stepAnswer = waitingNextStep ∧
    (waitingNextStep.handleStepResult (-2) true stepAnswer).myWaiting = true ∧
    waitingNextStep.handleStepResult (-2) true stepAnswer ≠
      (Client.putAnswers { waitingNextStep with myWaiting := false } stepAnswer).2 ∧
    (Client.putAnswers { waitingNextStep with myWaiting := false } stepAnswer).2.mySocket.sent =
      [[0x07, 0x02, 0x00, 0x00, 0x00, 0x00, 0x00]] := by
  refine ⟨by decide, by decide, by decide, by decide, by decide⟩

/-- C10: `putAnswers` on any session and any answer buffer.  If `connected` is
false it returns false and leaves the session (pendingOut and socket included)
unchanged.  Otherwise the answer bytes (the bytes of the answer buffer from its
cursor on, all of them when the cursor is at the start) are appended to
pendingOut; then, exactly when `waiting` is false and pendingIn is exhausted or
`disconnecting` is true, the result is that of `sendAnswers` on the session so
updated; when that condition is false it returns true, the socket is untouched
(nothing is sent) and pendingOut is the old pendingOut followed by the answer. -/
theorem putAnswers_cases (c : Client) (answers : Storage) :
    (c.myConnected = false → c.putAnswers answers = (false, c)) ∧
    (c.myConnected = true →
      ((c.myWaiting = false ∧
          (c.myPendingCommands.valid_pos = false ∨ c.myDisconnecting = true)) →
        c.putAnswers answers =
          Client.sendAnswers { c with myPendingAnswers :=
            ⟨c.myPendingAnswers.store ++ answers.unread, c.myPendingAnswers.pos⟩ }) ∧
      (¬ (c.myWaiting = false ∧
          (c.myPendingCommands.valid_pos = false ∨ c.myDisconnecting = true)) →
        c.putAnswers answers =
          (true, { c with myPendingAnswers :=
            ⟨c.myPendingAnswers.store ++ answers.unread, c.myPendingAnswers.pos⟩ }) ∧
        (c.putAnswers answers).2.mySocket = c.mySocket ∧
        (c.putAnswers answers).2.myPendingAnswers.store =
          c.myPendingAnswers.store ++ answers.unread)) ∧
    (answers.pos = 0 → answers.unread = answers.store) := by
  refine ⟨?_, ?_, ?_⟩
  · intro h
    simp [Client.putAnswers, h]
  · intro hc
    have hcond : ((!c.myWaiting && (!c.hasPendingCommands || c.myDisconnecting)) = true ↔
        (c.myWaiting = false ∧
          (c.myPendingCommands.valid_pos = false ∨ c.myDisconnecting = true))) := by
      simp [Client.hasPendingCommands]
    constructor
    · intro h
      rw [Client.putAnswers_connected c answers hc, if_pos (hcond.2 h)]
      rfl
    · intro h
      have hp : c.putAnswers answers =
          (true, { c with myPendingAnswers :=
            ⟨c.myPendingAnswers.store ++ answers.unread, c.myPendingAnswers.pos⟩ }) := by
        rw [Client.putAnswers_connected c answers hc, if_neg (fun hx => h (hcond.1 hx))]
        rfl
      rw [hp]
      exact ⟨rfl, rfl, rfl⟩
  · intro h
    simp [Storage.unread, h]

/-- A waiting session stores the step answer without sending it. -/
theorem putAnswers_cases_witness :
    waitingNextStep.putAnswers stepAnswer =
      (true, { waitingNextStep with myPendingAnswers :=
        ⟨waitingNextStep.myPendingAnswers.store ++ stepAnswer.unread,
          waitingNextStep.myPendingAnswers.pos⟩ }) ∧
    (waitingNextStep.putAnswers stepAnswer).2.mySocket = waitingNextStep.mySocket ∧
    (waitingNextStep.putAnswers stepAnswer).2.myPendingAnswers.store =
      waitingNextStep.myPendingAnswers.store ++ stepAnswer.unread :=
  ((putAnswers_cases waitingNextStep stepAnswer).2.1 rfl).2 (by decide)


/-! ## Draining a message -/

theorem Storage.unread_advance {s : Storage} {f t : List Byte} (h : s.unread = f ++ t) :
    (⟨s.store, s.pos + f.length⟩ : Storage).unread = t := by
  unfold Storage.unread at h ⊢
  show List.drop (s.pos + f.length) s.store = t
  rw [← List.drop_drop, h, List.drop_left]

theorem Storage.valid_pos_of_unread {s : Storage} {b : Byte} {t : List Byte}
    (h : s.unread = b :: t) : s.valid_pos = true := by
  unfold Storage.valid_pos
  have := Storage.unread_length s
  rw [h] at this
  simp only [List.length_cons] at this
  simp
  omega

theorem Storage.valid_pos_of_unread_nil {s : Storage} (h : s.unread = []) :
    s.valid_pos = false := by
  unfold Storage.valid_pos
  have := (Storage.unread_eq_nil_iff s).1 h
  simp
  omega

theorem wellFormedCommand_cases {f : List Byte} (h : wellFormedCommand f = true) :
    (∃ b0 b1 b2 b3, f = [6, CMD_SIMSTEP2, b0, b1, b2, b3]) ∨ f = [2, CMD_CLOSE] ∨
    (∃ op, wellFormedFrame f = true ∧ frameOpcode f = some op ∧ op ≠ CMD_SIMSTEP2 ∧
      op ≠ CMD_CLOSE ∧ isControlFrame f = false) := by
  unfold wellFormedCommand at h
  rw [Bool.and_eq_true] at h
  obtain ⟨hwf, hm⟩ := h
  cases hop : frameOpcode f with
  | none => rw [hop] at hm; simp at hm
  | some op =>
    rw [hop] at hm
    dsimp only at hm
    rcases wellFormedFrame_shape hwf with ⟨b, op1, payload, hf, hb, hlen⟩ |
      ⟨b0, b1, b2, b3, op1, payload, hf, hlen, hlo, hhi⟩
    · subst hf
      have hop1 : op1 = op := by simpa [frameOpcode, hb] using hop
      subst hop1
      by_cases h1 : op1 = CMD_SIMSTEP2
      · left
        rw [if_pos h1] at hm
        simp only [List.length_cons, decide_eq_true_eq] at hm
        have hp : payload.length = 4 := by omega
        match payload, hp with
        | [b0, b1, b2, b3], _ =>
          refine ⟨b0, b1, b2, b3, ?_⟩
          have hb6 : b = 6 := by
            apply Fin.ext
            simpa using hlen
          rw [hb6, h1]
      · rw [if_neg h1] at hm
        by_cases h2 : op1 = CMD_CLOSE
        · right; left
          rw [if_pos h2] at hm
          simp only [List.length_cons, decide_eq_true_eq] at hm
          have hp : payload.length = 0 := by omega
          match payload, hp with
          | [], _ =>
            have hb2 : b = 2 := by
              apply Fin.ext
              simpa using hlen
            rw [hb2, h2]
        · right; right
          refine ⟨op1, hwf, rfl, h1, h2, ?_⟩
          simp [isControlFrame, hop, h1, h2]
    · subst hf
      have hop1 : op1 = op := by simpa [frameOpcode] using hop
      subst hop1
      have h1 : op1 ≠ CMD_SIMSTEP2 := by
        intro h1
        rw [if_pos h1] at hm
        simp only [List.length_cons, decide_eq_true_eq] at hm
        omega
      rw [if_neg h1] at hm
      have h2 : op1 ≠ CMD_CLOSE := by
        intro h2
        rw [if_pos h2] at hm
        simp only [List.length_cons, decide_eq_true_eq] at hm
        omega
      right; right
      refine ⟨op1, hwf, rfl, h1, h2, ?_⟩
      simp [isControlFrame, hop, h1, h2]

theorem Client.sendAnswers_pendingCommands (c : Client) :
    c.sendAnswers.2.myPendingCommands = c.myPendingCommands := by
  unfold Client.sendAnswers
  cases hc : c.myConnected
  · simp
  · cases hd : c.myDisconnecting <;>
      simp only [Bool.not_true, Bool.false_eq_true, if_false, if_true] <;>
      split <;> simp [Client.closeConnection, hd, hc]

theorem handledFrames_append_drop (frames : List (List Byte)) :
    handledFrames frames ++ frames.drop (handledFrames frames).length = frames := by
  induction frames with
  | nil => rfl
  | cons f fs ih =>
    unfold handledFrames
    split
    · simp
    · simp only [List.length_cons, List.cons_append, List.drop_succ_cons]
      rw [ih]


theorem forwardedBytes_cons_app (f : List Byte) (fs : List (List Byte))
    (h : isControlFrame f = false) :
    forwardedBytes (f :: fs) = forwardedFrame f ++ forwardedBytes fs := by
  simp [forwardedBytes, handledFrames, h]

theorem forwardedBytes_cons_control (f : List Byte) (fs : List (List Byte))
    (h : isControlFrame f = true) : forwardedBytes (f :: fs) = [] := by
  simp [forwardedBytes, handledFrames, h]

theorem Client.drainLoop_frames : ∀ (frames : List (List Byte)) (fuel : Nat) (c : Client)
    (message : Storage) (cmd : Option Byte) (n : Nat),
    (∀ f ∈ frames, wellFormedCommand f = true) →
    c.myPendingCommands.unread = frames.flatten →
    frames.flatten.length ≤ fuel →
    ∃ cmd1 n1 c1,
      Client.drainLoop fuel c message cmd n =
        .ok (cmd1, n1, c1, ⟨message.store ++ forwardedBytes frames, message.pos⟩) ∧
      c1.myPendingCommands = ⟨c.myPendingCommands.store,
        c.myPendingCommands.pos + (handledFrames frames).flatten.length⟩ := by
  intro frames
  induction frames with
  | nil =>
    intro fuel c message cmd n _ hun _
    have hv := Storage.valid_pos_of_unread_nil (by simpa using hun)
    refine ⟨cmd, n, c, ?_, ?_⟩
    · cases fuel with
      | zero => simp [Client.drainLoop, forwardedBytes, handledFrames]
      | succ k => simp [Client.drainLoop, hv, forwardedBytes, handledFrames]
    · simp [handledFrames]
  | cons f fs ih =>
    intro fuel c message cmd n hwf hun hfuel
    have hf := hwf f (List.mem_cons_self f fs)
    have hfs : ∀ g ∈ fs, wellFormedCommand g = true :=
      fun g hg => hwf g (List.mem_cons_of_mem f hg)
    rw [List.flatten_cons] at hun hfuel
    rcases wellFormedCommand_cases hf with ⟨b0, b1, b2, b3, hfe⟩ | hfe | ⟨op, hw, hop, h1, h2, hctl⟩
    · subst hfe
      have hun1 : c.myPendingCommands.unread =
          6 :: (CMD_SIMSTEP2 :: b0 :: b1 :: b2 :: b3 :: fs.flatten) := by simpa using hun
      have hs := readCommandSize_short hun1 (by decide)
      have hu := (Storage.readChar_of_unread hun1).2
      have hh := Client.handleCommand_simstep c c.myPendingCommands message _ _ b0 b1 b2 b3 _ hs hu
      have hv := Storage.valid_pos_of_unread hun1
      obtain ⟨k, rfl⟩ : ∃ k, fuel = k + 1 := by
        simp only [List.length_append, List.length_cons] at hfuel
        exact ⟨fuel - 1, by omega⟩
      have hc : isControlFrame [6, CMD_SIMSTEP2, b0, b1, b2, b3] = true := by
        simp [isControlFrame, frameOpcode]
      refine ⟨some CMD_SIMSTEP2, n + 1,
        { c with
          myTargetTime := if beInt32 b0 b1 b2 b3 = 0 then -1 else beInt32 b0 b1 b2 b3,
          myWaiting := true,
          myPendingCommands := ⟨c.myPendingCommands.store, c.myPendingCommands.pos + 1 + 5⟩ },
        ?_, ?_⟩
      · simp only [Client.drainLoop, hv, if_true, hh]
        rw [if_pos (by simp), forwardedBytes_cons_control _ _ hc]
        simp
      · simp [handledFrames, hc, Nat.add_assoc]
    · subst hfe
      have hun1 : c.myPendingCommands.unread = 2 :: (CMD_CLOSE :: fs.flatten) := by
        simpa using hun
      have hs := readCommandSize_short hun1 (by decide)
      have hu := (Storage.readChar_of_unread hun1).2
      have hh := Client.handleCommand_close c c.myPendingCommands message _ _ _ hs hu
      have hv := Storage.valid_pos_of_unread hun1
      obtain ⟨k, rfl⟩ : ∃ k, fuel = k + 1 := by
        simp only [List.length_append, List.length_cons] at hfuel
        exact ⟨fuel - 1, by omega⟩
      have hc : isControlFrame [2, CMD_CLOSE] = true := by
        simp [isControlFrame, frameOpcode]
      refine ⟨some CMD_CLOSE, n + 1,
        { c with
          myDisconnecting := true,
          myPendingCommands := ⟨c.myPendingCommands.store, c.myPendingCommands.pos + 1 + 1⟩ },
        ?_, ?_⟩
      · simp only [Client.drainLoop, hv, if_true, hh]
        rw [if_pos (by simp), forwardedBytes_cons_control _ _ hc]
        simp
      · simp [handledFrames, hc, Nat.add_assoc]
    · have hh := Client.handleCommand_wellFormed c c.myPendingCommands message f fs.flatten op
        hun hw hop h1 h2
      have hlen2 : 2 ≤ f.length := by
        rcases wellFormedFrame_shape hw with ⟨b, op1, payload, hfe, _, _⟩ |
          ⟨b0, b1, b2, b3, op1, payload, hfe, _, _, _⟩ <;> subst hfe <;>
          simp only [List.length_cons] <;> omega
      have hv : c.myPendingCommands.valid_pos = true := by
        match f, hlen2, hun with
        | b :: t, _, hun => exact Storage.valid_pos_of_unread (by simpa using hun)
      obtain ⟨k, rfl⟩ : ∃ k, fuel = k + 1 := by
        simp only [List.length_append] at hfuel
        exact ⟨fuel - 1, by omega⟩
      have hu := Storage.unread_advance hun
      obtain ⟨cmd1, n1, c1, hd, hcur⟩ := ih k
        { c with myPendingCommands := ⟨c.myPendingCommands.store,
            c.myPendingCommands.pos + f.length⟩ }
        ⟨message.store ++ forwardedFrame f, message.pos⟩ (some op) (n + 1) hfs hu
        (by simp only [List.length_append] at hfuel; omega)
      refine ⟨cmd1, n1, c1, ?_, ?_⟩
      · simp only [Client.drainLoop, hv, if_true, hh]
        rw [if_neg (by simp [h1, h2]), hd, forwardedBytes_cons_app _ _ hctl]
        simp
      · rw [hcur]
        simp [handledFrames, hctl, Nat.add_assoc]


theorem handledFrames_subset {frames : List (List Byte)} {f : List Byte}
    (h : f ∈ handledFrames frames) : f ∈ frames := by
  rw [← handledFrames_append_drop frames]
  exact List.mem_append_left _ h

theorem Client.getCommands_frames (c : Client) (message : Storage) (now : Int)
    (frames : List (List Byte)) (hne : frames ≠ [])
    (hwf : ∀ f ∈ frames, wellFormedCommand f = true)
    (hact : c.canAct now = true)
    (hun : c.myPendingCommands.unread = frames.flatten) :
    ∃ r c1,
      c.getCommands message now =
        .ok (r, c1, ⟨message.store ++ forwardedBytes frames, message.pos⟩) ∧
      c1.myPendingCommands = ⟨c.myPendingCommands.store,
        c.myPendingCommands.pos + (handledFrames frames).flatten.length⟩ ∧
      c1.myPendingCommands.unread = (frames.drop (handledFrames frames).length).flatten := by
  have hvp : c.myPendingCommands.valid_pos = true := by
    match frames, hne, hwf, hun with
    | f :: fs, _, hwf, hun =>
      have hf := hwf f (List.mem_cons_self f fs)
      rw [List.flatten_cons] at hun
      rcases wellFormedCommand_cases hf with ⟨b0, b1, b2, b3, hfe⟩ | hfe | ⟨op, hw, _, _, _, _⟩
      · subst hfe
        exact Storage.valid_pos_of_unread (by simpa using hun)
      · subst hfe
        exact Storage.valid_pos_of_unread (by simpa using hun)
      · rcases wellFormedFrame_shape hw with ⟨b, op1, payload, hfe, _, _⟩ |
          ⟨b0, b1, b2, b3, op1, payload, hfe, _, _, _⟩ <;> subst hfe <;>
          exact Storage.valid_pos_of_unread (by simpa using hun)
  obtain ⟨cmd1, n1, c1, hd, hcur⟩ := Client.drainLoop_frames frames
    c.myPendingCommands.unread.length c message none 0 hwf hun (by rw [hun])
  have hrest : (⟨c.myPendingCommands.store,
      c.myPendingCommands.pos + (handledFrames frames).flatten.length⟩ : Storage).unread =
      (frames.drop (handledFrames frames).length).flatten := by
    apply Storage.unread_advance
    rw [hun, ← List.flatten_append, handledFrames_append_drop]
  have hg : c.getCommands message now = Client.filterCommands c message := by
    unfold Client.getCommands
    rw [if_neg (by simp [hact]), if_neg (by simp [Client.hasPendingCommands, hvp])]
  rw [hg]
  unfold Client.filterCommands
  rw [hd]
  dsimp only
  split
  · refine ⟨_, _, rfl, ?_, ?_⟩
    · rw [Client.sendAnswers_pendingCommands, hcur]
    · rw [Client.sendAnswers_pendingCommands, hcur]
      exact hrest
  · refine ⟨_, _, rfl, hcur, ?_⟩
    rw [hcur]
    exact hrest

theorem forwardedBytes_canonical (frames : List (List Byte))
    (h : ∀ f ∈ frames, ¬ (f.head? = some 0 ∧ f.length < 260)) :
    forwardedBytes frames =
      ((handledFrames frames).filter (fun f => !isControlFrame f)).flatten := by
  unfold forwardedBytes
  congr 1
  conv_rhs => rw [← List.map_id ((handledFrames frames).filter (fun f => !isControlFrame f))]
  apply List.map_congr_left
  intro f hf
  have hmem : f ∈ frames := handledFrames_subset (List.mem_of_mem_filter hf)
  simp only [forwardedFrame, id]
  rw [if_neg (h f hmem)]


/-- C9 (amended): for every connected, non-waiting, non-disconnecting session
whose pendingIn holds, from the cursor on, a non-empty sequence of well-formed
commands (well-formed frames in which a SIMSTEP2 frame is exactly six bytes
long and a CLOSE frame exactly two), `getCommands` returns without error; the outbound buffer receives, in
their original order, the forwarded form of the frames that are not control
frames among the handled ones (the frames up to and including the first
SIMSTEP2 or CLOSE, all of them if there is none) and nothing else; the cursor
is left immediately after the last handled frame, so the unread bytes are the
remaining frames.  The forwarded form of a frame is the frame itself unless it
is in the five-byte form with total length below 260, so when no frame is of
that kind the outbound buffer receives exactly the non-control handled frames. -/
theorem getCommands_drains_frames (c : Client) (message : Storage) (now : Int)
    (frames : List (List Byte)) (hne : frames ≠ [])
    (hwf : ∀ f ∈ frames, wellFormedCommand f = true)
    (hact : c.canAct now = true)
    (hun : c.myPendingCommands.unread = frames.flatten) :
    (∃ r c1,
      c.getCommands message now =
        .ok (r, c1, ⟨message.store ++ forwardedBytes frames, message.pos⟩) ∧
      c1.myPendingCommands = ⟨c.myPendingCommands.store,
        c.myPendingCommands.pos + (handledFrames frames).flatten.length⟩ ∧
      c1.myPendingCommands.unread = (frames.drop (handledFrames frames).length).flatten) ∧
    ((∀ f ∈ frames, ¬ (f.head? = some 0 ∧ f.length < 260)) →
      forwardedBytes frames =
        ((handledFrames frames).filter (fun f => !isControlFrame f)).flatten) :=
  ⟨Client.getCommands_frames c message now frames hne hwf hact hun,
    forwardedBytes_canonical frames⟩

/-- The message of scenario S1 followed by a close request: the S1 frame is
forwarded, the drain stops at the step request, the close request stays
pending. -/
theorem getCommands_drains_frames_witness :
    (∃ r c1,
      (readySession (frameS1 ++ frameStep0 ++ frameClose)).getCommands Storage.empty 0 =
        .ok (r, c1, ⟨Storage.empty.store ++ forwardedBytes [frameS1, frameStep0, frameClose],
          Storage.empty.pos⟩) ∧
      c1.myPendingCommands =
        ⟨(readySession (frameS1 ++ frameStep0 ++ frameClose)).myPendingCommands.store,
          (readySession (frameS1 ++ frameStep0 ++ frameClose)).myPendingCommands.pos +
            (handledFrames [frameS1, frameStep0, frameClose]).flatten.length⟩ ∧
      c1.myPendingCommands.unread =
        ([frameS1, frameStep0, frameClose].drop
          (handledFrames [frameS1, frameStep0, frameClose]).length).flatten) ∧
    ((∀ f ∈ [frameS1, frameStep0, frameClose], ¬ (f.head? = some 0 ∧ f.length < 260)) →
      forwardedBytes [frameS1, frameStep0, frameClose] =
        ((handledFrames [frameS1, frameStep0, frameClose]).filter
          (fun f => !isControlFrame f)).flatten) :=
  getCommands_drains_frames (readySession (frameS1 ++ frameStep0 ++ frameClose)) Storage.empty 0
    [frameS1, frameStep0, frameClose] (by decide) (by decide) (by decide) (by decide)

theorem frame259_facts (p : List Byte) (h : p.length = 253) :
    wellFormedCommand (0 :: 0 :: 0 :: 1 :: 3 :: 0xAB :: p) = true ∧
    isControlFrame (0 :: 0 :: 0 :: 1 :: 3 :: 0xAB :: p) = false ∧
    forwardedFrame (0 :: 0 :: 0 :: 1 :: 3 :: 0xAB :: p) = 255 :: 0xAB :: p := by
  refine ⟨?_, ?_, ?_⟩
  · simp [wellFormedCommand, wellFormedFrame, frameOpcode, h, beNat, CMD_SIMSTEP2, CMD_CLOSE]
    rfl
  · simp [isControlFrame, frameOpcode, CMD_SIMSTEP2, CMD_CLOSE]
  · unfold forwardedFrame
    rw [if_pos ⟨rfl, by simp only [List.length_cons, h]; decide⟩]
    simp only [List.length_cons, h, List.drop_succ_cons, List.drop_zero]
    rfl

/-- A ready session whose pendingIn holds the well-formed frames `frameS1` and
`frame259` (neither is a control frame) forwards `frameS1` followed by 255
bytes starting with the one-byte size field 255, which is not the byte sequence
of the two frames. -/
theorem frame259_reencoded :
    (∀ f ∈ [frameS1, frame259], wellFormedCommand f = true ∧ isControlFrame f = false) ∧
    (readySession (frameS1 ++ frame259)).canAct 0 = true ∧
    (∃ r c1, (readySession (frameS1 ++ frame259)).getCommands Storage.empty 0 =
      .ok (r, c1, ⟨frameS1 ++ (255 :: 0xAB :: List.replicate 253 0), 0⟩)) ∧
    frameS1 ++ (255 :: 0xAB :: List.replicate 253 0) ≠ frameS1 ++ frame259 := by
  obtain ⟨hw, hc, hf⟩ : wellFormedCommand frame259 = true ∧ isControlFrame frame259 = false ∧
      forwardedFrame frame259 = 255 :: 0xAB :: List.replicate 253 0 :=
    frame259_facts (List.replicate 253 0) (List.length_replicate 253 0)
  have hw1 : wellFormedCommand frameS1 = true := by decide
  have hc1 : isControlFrame frameS1 = false := by decide
  have hall : ∀ f ∈ [frameS1, frame259], wellFormedCommand f = true ∧ isControlFrame f = false := by
    intro f hf
    simp only [List.mem_cons, List.mem_singleton, List.not_mem_nil, or_false] at hf
    rcases hf with rfl | rfl
    · exact ⟨hw1, hc1⟩
    · exact ⟨hw, hc⟩
  refine ⟨hall, rfl, ?_, ?_⟩
  · obtain ⟨r, c1, hg, _⟩ := Client.getCommands_frames (readySession (frameS1 ++ frame259))
      Storage.empty 0 [frameS1, frame259] (by simp) (fun f hf => (hall f hf).1) rfl
      (by simp [readySession, Storage.unread])
    refine ⟨r, c1, ?_⟩
    rw [hg]
    have hfb : forwardedBytes [frameS1, frame259] =
        frameS1 ++ (255 :: 0xAB :: List.replicate 253 0) := by
      rw [forwardedBytes_cons_app _ _ hc1, forwardedBytes_cons_app _ _ hc]
      have e1 : forwardedFrame frameS1 = frameS1 := by decide
      rw [e1]
      have e0 : forwardedBytes [] = [] := rfl
      rw [hf, e0, List.append_nil]
    rw [hfb]
    rfl
  · intro h
    have := List.append_cancel_left h
    injection this with hb _
    exact absurd hb (by decide)


/-- C9 fails as stated, in two ways.  A ready session whose pendingIn holds the
well-formed frames `frameS1` and `frame259` (neither is a control frame)
forwards `frameS1` followed by 255 bytes starting with the one-byte size field
255, which is not the byte sequence of the two frames.  And on the well-formed
frames `[0x07, 0x02, 0,0,0,5, 0xEE]` (a SIMSTEP2 frame of seven bytes) and
`frameS1` the drain stops with the cursor at 6, inside the first frame, not
after it, as it stops with the cursor at 2 on the well-formed frames
`[0x03, 0x7F, 0xBB]` (a CLOSE frame of three bytes) and `frameS1`:
`handleCommand` reads the four bytes of the target time of a SIMSTEP2 command
and nothing of a CLOSE command, whatever the size field says. -/
theorem getCommands_frames_counterexample :
    ((∀ f ∈ [frameS1, frame259], wellFormedCommand f = true ∧ isControlFrame f = false) ∧
      (readySession (frameS1 ++ frame259)).canAct 0 = true ∧
      (∃ r c1, (readySession (frameS1 ++ frame259)).getCommands Storage.empty 0 =
        .ok (r, c1, ⟨frameS1 ++ (255 :: 0xAB :: List.replicate 253 0), 0⟩)) ∧
      frameS1 ++ (255 :: 0xAB :: List.replicate 253 0) ≠ frameS1 ++ frame259) ∧
    (wellFormedFrame [0x07, 0x02, 0x00, 0x00, 0x00, 0x05, 0xEE] = true ∧
      wellFormedFrame frameS1 = true ∧
      ([0x07, 0x02, 0x00, 0x00, 0x00, 0x05, 0xEE] : List Byte).length = 7 ∧
      (readySession ([0x07, 0x02, 0x00, 0x00, 0x00, 0x05, 0xEE] ++ frameS1)).canAct 0 = true ∧
      (readySession ([0x07, 0x02, 0x00, 0x00, 0x00, 0x05, 0xEE] ++ frameS1)).getCommands
          Storage.empty 0 =
        .ok (true,
          { (readySession ([0x07, 0x02, 0x00, 0x00, 0x00, 0x05, 0xEE] ++ frameS1)) with
            myPendingCommands := ⟨[0x07, 0x02, 0x00, 0x00, 0x00, 0x05, 0xEE] ++ frameS1, 6⟩
            myWaiting := true
            myTargetTime := 5 },
          Storage.empty)) ∧
    (wellFormedFrame [0x03, 0x7F, 0xBB] = true ∧
      ([0x03, 0x7F, 0xBB] : List Byte).length = 3 ∧
      (readySession ([0x03, 0x7F, 0xBB] ++ frameS1)).canAct 0 = true ∧
      (∃ (r : Bool) (c1 : Client) (out : Storage),
        (readySession ([0x03, 0x7F, 0xBB] ++ frameS1)).getCommands Storage.empty 0 =
          .ok (r, c1, out) ∧
        c1.myPendingCommands = ⟨[0x03, 0x7F, 0xBB] ++ frameS1, 2⟩)) :=
  ⟨frame259_reencoded, ⟨by decide, by decide, rfl, rfl, rfl⟩,
    ⟨by decide, rfl, rfl, ⟨_, _, _, rfl, rfl⟩⟩⟩


/-! ## Waiting sessions -/

theorem wrapInt32_of_range (v : Int) (h0 : -2147483648 ≤ v) (h1 : v < 2147483648) :
    wrapInt32 v = v := by
  unfold wrapInt32
  omega

theorem wrapInt32_range (v : Int) :
    -2147483648 ≤ wrapInt32 v ∧ wrapInt32 v < 2147483648 := by
  unfold wrapInt32
  omega

theorem wrapInt32_add (a b : Int) : wrapInt32 (wrapInt32 a + b) = wrapInt32 (a + b) := by
  unfold wrapInt32
  omega

theorem Hub.timeAfter_of_range (t0 L : Int) (hL : 0 ≤ L) (h0 : -2147483648 ≤ t0) :
    ∀ k : Nat, t0 + (k : Int) * L < 2147483648 → Hub.timeAfter t0 L k = t0 + (k : Int) * L := by
  intro k
  induction k with
  | zero => intro _; simp [Hub.timeAfter]
  | succ k ih =>
    intro hk
    have hm : 0 ≤ (k : Int) * L := Int.mul_nonneg (by omega) hL
    have e : ((k + 1 : Nat) : Int) * L = (k : Int) * L + L := by push_cast; ring
    rw [e] at hk ⊢
    rw [Hub.timeAfter, ih (by omega), wrapInt32_of_range _ (by omega) (by omega)]
    omega

theorem Client.afterSteps_waiting (c : Client) (t0 L T : Int) (raws : Nat → Storage)
    (hL : 0 < L) (ht0 : -2147483648 ≤ t0) (hTr : T < 2147483648) (htt : c.myTargetTime = T) :
    ∀ k : Nat, t0 + (k : Int) * L < T → Client.afterSteps c t0 L raws k = c := by
  intro k
  induction k with
  | zero => intro _; rfl
  | succ k ih =>
    intro hk
    have hm : 0 ≤ (k : Int) * L := Int.mul_nonneg (by omega) (by omega)
    have e : ((k + 1 : Nat) : Int) * L = (k : Int) * L + L := by push_cast; ring
    have hlt : t0 + (k : Int) * L < T := by
      rw [e] at hk
      omega
    have ht : Hub.timeAfter t0 L (k + 1) = t0 + ((k + 1 : Nat) : Int) * L :=
      Hub.timeAfter_of_range t0 L (by omega) ht0 (k + 1) (by omega)
    simp only [Client.afterSteps, ih hlt, ht, Client.handleStepResult, htt, hk, decide_True,
      Bool.and_self, if_true]

theorem Client.afterSteps_release (c : Client) (t0 L T : Int) (raws : Nat → Storage)
    (hL : 0 < L) (ht0 : -2147483648 ≤ t0) (hTr : T < 2147483648) (htt : c.myTargetTime = T)
    (k : Nat) (hge : T ≤ t0 + ((k : Int) + 1) * L)
    (hfirst : ∀ j : Nat, 1 ≤ j → j < k + 1 → t0 + (j : Int) * L < T)
    (hrep : t0 + ((k : Int) + 1) * L < 2147483648) :
    Hub.timeAfter t0 L (k + 1) = t0 + ((k : Int) + 1) * L ∧
    Client.afterSteps c t0 L raws (k + 1) =
      (Client.putAnswers { c with myWaiting := false } (raws k)).2 := by
  have hprev : Client.afterSteps c t0 L raws k = c := by
    cases k with
    | zero => rfl
    | succ m =>
      exact Client.afterSteps_waiting c t0 L T raws hL ht0 hTr htt (m + 1)
        (hfirst (m + 1) (by omega) (by omega))
  have ht : Hub.timeAfter t0 L (k + 1) = t0 + ((k : Int) + 1) * L := by
    have := Hub.timeAfter_of_range t0 L (by omega) ht0 (k + 1) (by push_cast; exact hrep)
    rw [this]
    push_cast
    rfl
  have hn : ¬ (t0 + ((k : Int) + 1) * L < T) := by omega
  refine ⟨ht, ?_⟩
  simp only [Client.afterSteps, hprev, ht, Client.handleStepResult, htt, hn, decide_False,
    Bool.and_false, Bool.false_eq_true, if_false]

theorem release_step_exists (t0 L T : Int) (hL : 0 < L) :
    ∃ k : Nat, T ≤ t0 + ((k : Int) + 1) * L ∧
      ∀ j : Nat, 1 ≤ j → j < k + 1 → t0 + (j : Int) * L < T := by
  have hex : ∃ k : Nat, T ≤ t0 + ((k : Int) + 1) * L := by
    refine ⟨(T - t0).toNat, ?_⟩
    have h1 : (T - t0) ≤ ((T - t0).toNat : Int) := Int.self_le_toNat _
    have h2 : (((T - t0).toNat : Int) + 1) * 1 ≤ (((T - t0).toNat : Int) + 1) * L :=
      Int.mul_le_mul_of_nonneg_left (by omega) (by omega)
    omega
  classical
  refine ⟨Nat.find hex, Nat.find_spec hex, ?_⟩
  intro j hj1 hjk
  obtain ⟨m, rfl⟩ : ∃ m, j = m + 1 := ⟨j - 1, by omega⟩
  have hmin := Nat.find_min hex (m := m) (by omega)
  push_cast
  omega

theorem Hub.verifyStatusResponse_congr (h h1 : Hub) (answer : Storage) (cmdCode : Int)
    (hp : h1.mySumoSocket.port = h.mySumoSocket.port) :
    h1.verifyStatusResponse answer cmdCode = h.verifyStatusResponse answer cmdCode := by
  unfold Hub.verifyStatusResponse Hub.checkStatusSize
  rw [hp]

theorem Hub.runStep_success (h : Hub) (answer : List Byte) (rest : List (List Byte))
    (d : List Byte) (a1 : Storage)
    (hsend : h.mySumoSocket.sendFaults = [])
    (hin : h.mySumoSocket.inbox = answer :: rest)
    (hver : h.verifyStatusResponse ⟨answer, 0⟩ (CMD_SIMSTEP2.val : Int) = .ok (true, d, a1)) :
    h.runStep =
      .ok { mySumoSocket :=
              { h.mySumoSocket with
                inbox := rest, sent := h.mySumoSocket.sent ++ [Hub.stepMessage.store] }
            myClients := h.myClients.map
              (fun c => c.handleStepResult (wrapInt32 (h.myCurrentTime + h.myTimestepLength))
                true ⟨answer, 0⟩)
            myTimestepLength := h.myTimestepLength
            myCurrentTime := wrapInt32 (h.myCurrentTime + h.myTimestepLength) } := by
  unfold Hub.runStep
  simp only [Socket.sendExact, hsend, Socket.receiveExact, hin]
  have e1 : (Storage.empty.writeStorage ⟨Storage.empty.store ++ answer, Storage.empty.pos⟩) =
      ⟨answer, 0⟩ := by
    simp [Storage.writeStorage, Storage.empty, Storage.unread]
  rw [e1, Hub.verifyStatusResponse_congr h, hver]
  · simp [Storage.empty]
  · rfl


/-- C8 (amended): with step length `L > 0`, for a connected session that is
waiting with target time `T > 0` since the time `t0` (`t0` and `T` being
`int`s), and successful engine steps with answers `raws 0, raws 1, ...`:
(a) at every step `k ≥ 1` with `t0 + k*L < T` the current time is `t0 + k*L`,
the call `handleStepResult(t0 + k*L, true, answer)` changes nothing, and the
session after `k` steps is the session it was: still waiting, pendingOut
unchanged, nothing sent; (b) at the first step `k + 1` with
`t0 + (k+1)*L ≥ T`, provided `t0 + (k+1)*L` is at most `2^31 - 1`, the current
time is `t0 + (k+1)*L` and the session becomes the result of
`putAnswers(answer)` on the session with `waiting` cleared; (c) such a first
step exists; (d) a `runStep` whose exchange with the engine succeeds stores
the sum of the current time and `L` as a 32-bit `int` and calls
`handleStepResult(currentTime, true, answer)` on every session, and the stored
value is the sum itself when that is at most `2^31 - 1`. -/
theorem deferred_step_release (c : Client) (t0 L T : Int) (raws : Nat → Storage)
    (hL : 0 < L) (_hT : 0 < T) (ht0 : -2147483648 ≤ t0) (hTr : T < 2147483648)
    (_hconn : c.myConnected = true) (hw : c.myWaiting = true)
    (htt : c.myTargetTime = T) :
    (∀ k : Nat, 1 ≤ k → t0 + (k : Int) * L < T →
      Hub.timeAfter t0 L k = t0 + (k : Int) * L ∧
      c.handleStepResult (t0 + (k : Int) * L) true (raws (k - 1)) = c ∧
      Client.afterSteps c t0 L raws k = c ∧
      (Client.afterSteps c t0 L raws k).myWaiting = true ∧
      (Client.afterSteps c t0 L raws k).myPendingAnswers = c.myPendingAnswers ∧
      (Client.afterSteps c t0 L raws k).mySocket.sent = c.mySocket.sent) ∧
    (∀ k : Nat, T ≤ t0 + ((k : Int) + 1) * L →
      (∀ j : Nat, 1 ≤ j → j < k + 1 → t0 + (j : Int) * L < T) →
      t0 + ((k : Int) + 1) * L < 2147483648 →
      Hub.timeAfter t0 L (k + 1) = t0 + ((k : Int) + 1) * L ∧
      Client.afterSteps c t0 L raws (k + 1) =
        (Client.putAnswers { c with myWaiting := false } (raws k)).2) ∧
    (∃ k : Nat, T ≤ t0 + ((k : Int) + 1) * L ∧
      ∀ j : Nat, 1 ≤ j → j < k + 1 → t0 + (j : Int) * L < T) ∧
    (∀ (h : Hub) (answer : List Byte) (rest : List (List Byte)) (d : List Byte) (a1 : Storage),
      h.myTimestepLength = L → h.mySumoSocket.sendFaults = [] →
      h.mySumoSocket.inbox = answer :: rest →
      h.verifyStatusResponse ⟨answer, 0⟩ (CMD_SIMSTEP2.val : Int) = .ok (true, d, a1) →
      h.runStep =
        .ok { mySumoSocket :=
                { h.mySumoSocket with
                  inbox := rest, sent := h.mySumoSocket.sent ++ [Hub.stepMessage.store] }
              myClients := h.myClients.map
                (fun s => s.handleStepResult (wrapInt32 (h.myCurrentTime + L)) true ⟨answer, 0⟩)
              myTimestepLength := L
              myCurrentTime := wrapInt32 (h.myCurrentTime + L) } ∧
      (-2147483648 ≤ h.myCurrentTime → h.myCurrentTime + L < 2147483648 →
        wrapInt32 (h.myCurrentTime + L) = h.myCurrentTime + L)) := by
  refine ⟨?_, ?_, release_step_exists t0 L T hL, ?_⟩
  · intro k _ hk
    have h1 := Client.afterSteps_waiting c t0 L T raws hL ht0 hTr htt k hk
    refine ⟨Hub.timeAfter_of_range t0 L (by omega) ht0 k (by omega), ?_, h1,
      by rw [h1]; exact hw, by rw [h1], by rw [h1]⟩
    simp [Client.handleStepResult, htt, hk]
  · intro k hge hfirst hrep
    exact Client.afterSteps_release c t0 L T raws hL ht0 hTr htt k hge hfirst hrep
  · intro h answer rest d a1 hl hs hi hv
    subst hl
    exact ⟨Hub.runStep_success h answer rest d a1 hs hi hv,
      fun h0 h1 => wrapInt32_of_range _ (by omega) h1⟩

/-- Scenario S3: step length 1000, target time 3500, start at time 0.  After the
steps to 1000, 2000 and 3000 the session is unchanged; the step to 4000
releases it with the step answer. -/
theorem deferred_step_release_witness :
    Client.afterSteps waitingS3 0 1000 (fun _ => stepAnswer) 3 = waitingS3 ∧
    (Hub.timeAfter 0 1000 (3 + 1) = 0 + (((3 : Nat) : Int) + 1) * 1000 ∧
      Client.afterSteps waitingS3 0 1000 (fun _ => stepAnswer) (3 + 1) =
        (Client.putAnswers { waitingS3 with myWaiting := false } stepAnswer).2) ∧
    (Client.putAnswers { waitingS3 with myWaiting := false } stepAnswer).2.mySocket.sent =
      [[0x07, 0x02, 0x00, 0x00, 0x00, 0x00, 0x00]] ∧
    (Client.putAnswers { waitingS3 with myWaiting := false } stepAnswer).2.myWaiting = false :=
  ⟨((deferred_step_release waitingS3 0 1000 3500 (fun _ => stepAnswer) (by decide) (by decide)
      (by decide) (by decide) rfl rfl rfl).1 3 (by decide) (by decide)).2.2.1,
   (deferred_step_release waitingS3 0 1000 3500 (fun _ => stepAnswer) (by decide) (by decide)
      (by decide) (by decide) rfl rfl rfl).2.1 3 (by decide) (by intro j h1 h2; omega)
      (by decide),
   by decide, by decide⟩

/-- C8 fails as stated: with step length 2000000000 and a session waiting since
time 0 for the target time 2100000000, step 2 is the first step `k` with
`t0 + k*L ≥ T`, but the current time, a 32-bit `int`, is then -294967296, which
is below the target: the session is not released at that step, neither in two
steps taken alone nor in two `runStep` calls of the hub. -/
theorem deferred_step_overflow_counterexample :
    waitingLate.myWaiting = true ∧ waitingLate.myConnected = true ∧
    waitingLate.myTargetTime = 2100000000 ∧
    (0 + 1 * 2000000000 < (2100000000 : Int) ∧ (2100000000 : Int) ≤ 0 + 2 * 2000000000) ∧
    Hub.timeAfter 0 2000000000 2 = -294967296 ∧
    Client.afterSteps waitingLate 0 2000000000 (fun _ => stepAnswer) 2 = waitingLate ∧
    (∃ h1 h2 : Hub, hubLongStep.runStep = .ok h1 ∧ h1.runStep = .ok h2 ∧
      h1.myCurrentTime = 2000000000 ∧ h2.myCurrentTime = -294967296 ∧
      h2.myClients = [waitingLate]) := by
  refine ⟨rfl, rfl, rfl, by decide, by decide, by decide, ⟨_, _, rfl, rfl, ?_, ?_, ?_⟩⟩
  · decide
  · decide
  · decide


/-! ## The drain loop never exhausts its bound -/

theorem Storage.readChar_some {s s1 : Storage} {b : Byte} (h : s.readChar = some (b, s1)) :
    s1 = ⟨s.store, s.pos + 1⟩ ∧ s.pos < s.store.length := by
  cases hu : s.unread with
  | nil => rw [Storage.readChar_eq_none hu] at h; cases h
  | cons x t =>
    rw [(Storage.readChar_of_unread hu).1] at h
    injection h with h
    injection h with _ h2
    refine ⟨h2.symm, ?_⟩
    have := Storage.unread_length s
    rw [hu] at this
    simp only [List.length_cons] at this
    omega

theorem Storage.readInt_some {s s1 : Storage} {v : Int} (h : s.readInt = some (v, s1)) :
    s1 = ⟨s.store, s.pos + 4⟩ ∧ s.pos + 4 ≤ s.store.length := by
  by_cases hl : s.unread.length < 4
  · rw [Storage.readInt_eq_none hl] at h; cases h
  · rcases hu : s.unread with _ | ⟨b0, _ | ⟨b1, _ | ⟨b2, _ | ⟨b3, t⟩⟩⟩⟩
    · rw [hu] at hl; simp at hl
    · rw [hu] at hl; simp at hl
    · rw [hu] at hl; simp at hl
    · rw [hu] at hl; simp at hl
    · rw [(Storage.readInt_of_unread hu).1] at h
      injection h with h
      injection h with _ h2
      refine ⟨h2.symm, ?_⟩
      have := Storage.unread_length s
      rw [hu] at this
      simp only [List.length_cons] at this
      omega

theorem readCommandSize_some {s s1 : Storage} {v : Int} (h : readCommandSize s = some (v, s1)) :
    s1.store = s.store ∧ s.pos + 1 ≤ s1.pos ∧ s1.pos ≤ s1.store.length := by
  unfold readCommandSize Storage.readUnsignedByte at h
  cases hr : s.readChar with
  | none => rw [hr] at h; cases h
  | some p =>
    obtain ⟨b, s2⟩ := p
    obtain ⟨e2, hlt⟩ := Storage.readChar_some hr
    rw [hr] at h
    dsimp only at h
    split at h
    · injection h with h
      injection h with _ h2
      subst h2
      subst e2
      exact ⟨rfl, Nat.le_refl _, hlt⟩
    · cases hi : s2.readInt with
      | none => rw [hi] at h; cases h
      | some q =>
        obtain ⟨w, s3⟩ := q
        obtain ⟨e3, hle⟩ := Storage.readInt_some hi
        rw [hi] at h
        injection h with h
        injection h with _ h2
        subst h2
        subst e3
        subst e2
        exact ⟨rfl, by simp only; omega, hle⟩

theorem Client.copyChars_some : ∀ (n : Nat) (inS outS in1 out1 : Storage),
    copyChars n inS outS = some (in1, out1) → inS.pos ≤ inS.store.length →
    in1.store = inS.store ∧ inS.pos ≤ in1.pos ∧ in1.pos ≤ in1.store.length := by
  intro n
  induction n with
  | zero =>
    intro inS outS in1 out1 h hle
    simp only [copyChars] at h
    injection h with h
    injection h with h1 _
    subst h1
    exact ⟨rfl, Nat.le_refl _, hle⟩
  | succ n ih =>
    intro inS outS in1 out1 h _
    simp only [copyChars] at h
    cases hr : inS.readChar with
    | none => rw [hr] at h; cases h
    | some p =>
      obtain ⟨b, s2⟩ := p
      obtain ⟨e2, hlt⟩ := Storage.readChar_some hr
      rw [hr] at h
      dsimp only at h
      subst e2
      obtain ⟨a1, a2, a3⟩ := ih _ _ _ _ h (by simp only; omega)
      exact ⟨a1, by simp only at a2; omega, a3⟩

/-- Every `handleCommand` call that returns leaves the bytes of the inbound
storage as they were and moves its cursor forward by at least two bytes,
staying within the storage. -/
theorem Client.handleCommand_consumes {c c1 : Client} {inS outS in1 out1 : Storage}
    {code : Byte} (h : c.handleCommand inS outS = .ok (code, c1, in1, out1)) :
    in1.store = inS.store ∧ inS.pos + 2 ≤ in1.pos ∧ in1.pos ≤ in1.store.length := by
  unfold Client.handleCommand at h
  cases hs : readCommandSize inS with
  | none => rw [hs] at h; cases h
  | some p =>
    obtain ⟨size, s1⟩ := p
    obtain ⟨e1, hp1, _⟩ := readCommandSize_some hs
    rw [hs] at h
    dsimp only at h
    cases hr : s1.readChar with
    | none => rw [hr] at h; cases h
    | some q =>
      obtain ⟨op, s2⟩ := q
      obtain ⟨e2, hlt2⟩ := Storage.readChar_some hr
      rw [hr] at h
      dsimp only at h
      subst e2
      split at h
      · cases hi : Storage.readInt ⟨s1.store, s1.pos + 1⟩ with
        | none => rw [hi] at h; cases h
        | some w =>
          obtain ⟨nextT, s3⟩ := w
          obtain ⟨e3, hle3⟩ := Storage.readInt_some hi
          rw [hi] at h
          injection h with h
          injection h with _ h
          injection h with _ h
          injection h with h3 _
          subst h3
          subst e3
          exact ⟨e1, by simp only; omega, by simpa using hle3⟩
      · split at h
        · injection h with h
          injection h with _ h
          injection h with _ h
          injection h with h3 _
          subst h3
          exact ⟨e1, by simp only; omega, by simp only; omega⟩
        · cases hc : copyChars (size - 1).toNat ⟨s1.store, s1.pos + 1⟩
              ((writeCommandSize outS size).writeChar op) with
          | none => rw [hc] at h; cases h
          | some w =>
            obtain ⟨s3, o3⟩ := w
            obtain ⟨a1, a2, a3⟩ := Client.copyChars_some _ _ _ _ _ hc (by simp only; omega)
            rw [hc] at h
            injection h with h
            injection h with _ h
            injection h with _ h
            injection h with h3 _
            subst h3
            exact ⟨by rw [a1]; exact e1, by simp only at a2; omega, a3⟩

/-- The bound that `getCommands` passes to its drain loop, the number of unread
bytes, is never exhausted: any larger bound gives the same result. -/
theorem Client.drainLoop_fuel_succ : ∀ (fuel : Nat) (c : Client) (message : Storage)
    (cmd : Option Byte) (n : Nat),
    c.myPendingCommands.store.length - c.myPendingCommands.pos ≤ fuel →
    Client.drainLoop (fuel + 1) c message cmd n = Client.drainLoop fuel c message cmd n := by
  intro fuel
  induction fuel with
  | zero =>
    intro c message cmd n h
    have hv : c.myPendingCommands.valid_pos = false := by
      simp [Storage.valid_pos]; omega
    simp [Client.drainLoop, hv]
  | succ k ih =>
    intro c message cmd n h
    rw [Client.drainLoop]
    conv_rhs => rw [Client.drainLoop]
    by_cases hv : c.myPendingCommands.valid_pos = true
    · simp only [hv, if_true]
      cases hh : c.handleCommand c.myPendingCommands message with
      | error e => rfl
      | ok r =>
        obtain ⟨code, c1, in1, out1⟩ := r
        obtain ⟨a1, a2, a3⟩ := Client.handleCommand_consumes hh
        dsimp only
        split
        · rfl
        · apply ih
          simp only
          rw [a1]
          omega
    · simp only [hv, Bool.false_eq_true, if_false]

theorem Client.drainLoop_fuel (c : Client) (message : Storage) (cmd : Option Byte) (n : Nat)
    (extra : Nat) :
    Client.drainLoop (c.myPendingCommands.unread.length + extra) c message cmd n =
      Client.drainLoop c.myPendingCommands.unread.length c message cmd n := by
  induction extra with
  | zero => rfl
  | succ e ih =>
    rw [← Nat.add_assoc, Client.drainLoop_fuel_succ _ c message cmd n
      (by rw [Storage.unread_length]; omega), ih]


/-! ## Close requests -/

theorem stringBytes_goodbye :
    stringBytes "Goodbye" = [0x47, 0x6F, 0x6F, 0x64, 0x62, 0x79, 0x65] := by
  decide

theorem Client.writeStatusCmd_goodbye (out : Storage) :
    Client.writeStatusCmd (CMD_CLOSE.val : Int) (RTYPE_OK.val : Int) (stringBytes "Goodbye") out =
      ⟨out.store ++ goodbyeFrame, out.pos⟩ := by
  rw [stringBytes_goodbye]
  simp only [Client.writeStatusCmd, Storage.writeUnsignedByte, Storage.writeChar,
    Storage.writeString, Storage.writeInt, List.append_assoc]
  rfl


theorem Client.getCommands_close_only (c : Client) (message : Storage) (now : Int)
    (rest : List (List Byte))
    (hact : c.canAct now = true) (hout : c.myPendingAnswers.store = [])
    (hin : c.myPendingCommands.valid_pos = false)
    (hmsg : c.mySocket.inbox = [0x02, 0x7F] :: rest)
    (hsend : c.mySocket.sendFaults.head? ≠ some true) :
    c.getCommands message now =
      .ok (true,
        { c with
          mySocket :=
            { c.mySocket with
              hasPeer := false, inbox := rest, sendFaults := c.mySocket.sendFaults.drop 1,
              sent := c.mySocket.sent ++ [goodbyeFrame] }
          myPendingAnswers := ⟨[], 0⟩
          myPendingCommands := ⟨[0x02, 0x7F], 2⟩
          myDisconnecting := true
          myConnected := false },
        message) := by
  obtain ⟨sock, pa, pc, disc, conn, wait, tt⟩ := c
  obtain ⟨port, peer, inbox, faults, sent, refused⟩ := sock
  obtain ⟨pas, pap⟩ := pa
  simp only [Client.canAct, Bool.and_eq_true, Bool.not_eq_true'] at hact
  obtain ⟨⟨hc, hw⟩, hd⟩ := hact
  simp only at hout hmsg hsend hin
  subst hc hw hd hout hmsg
  unfold Client.getCommands
  simp only [Client.canAct, Client.hasPendingCommands, hin, Socket.receiveExact,
    Storage.reset, Bool.and_self, Bool.not_true, Bool.false_and, Bool.false_eq_true, if_false,
    Bool.not_false, if_true, List.nil_append]
  have hh := Client.handleCommand_close
    { mySocket := { port := port, hasPeer := peer, inbox := rest, sendFaults := faults,
                    sent := sent, refused := refused },
      myPendingAnswers := ⟨[], pap⟩, myPendingCommands := ⟨[0x02, 0x7F], 0⟩,
      myDisconnecting := false, myConnected := true, myWaiting := false, myTargetTime := tt }
    ⟨[0x02, 0x7F], 0⟩ message ⟨[0x02, 0x7F], 1⟩ 1 [] rfl rfl
  simp only [Client.filterCommands, Storage.unread, List.drop_zero, List.length_cons,
    List.length_nil, Client.drainLoop, Storage.valid_pos, Nat.zero_lt_succ, decide_True, if_true,
    hh]
  rw [if_pos (by decide)]
  simp only [Bool.and_self, if_true, Client.sendAnswers, Bool.not_true, Bool.false_eq_true,
    if_false, Client.writeStatusCmd_goodbye, List.nil_append]
  match faults, hsend with
  | [], _ => simp [Socket.sendExact, Client.closeConnection, Socket.close, Storage.reset]
  | false :: r, _ => simp [Socket.sendExact, Client.closeConnection, Socket.close, Storage.reset]
  | true :: r, h => simp at h


theorem Hub.handleClient_cannot_act (fuel : Nat) (sumo : Socket) (now : Int) (c : Client)
    (h : c.canAct now = false) : Hub.handleClient fuel sumo now c = some (.ok (sumo, c)) := by
  cases fuel <;> simp [Hub.handleClient, h]

/-- C11 (amended): when a connected session that is neither waiting nor
disconnecting, with empty pendingOut and exhausted pendingIn, receives a message
consisting of the single frame `[0x02, 0x7F]` and the send to the client does
not fault, `getCommands` returns true without writing to the engine-bound
buffer, and the one message sent to the client is exactly
`[0x0E, 0x7F, 0x00, 0x00,0x00,0x00,0x07, 'G','o','o','d','b','y','e']`: size
byte 14 (the total length of the frame), opcode CLOSE, result code `0x00`, the
length-prefixed description "Goodbye".  The session is then disconnected with
its socket closed, and `handleClient` returns with exactly that effect, sending
nothing to the engine. -/
theorem close_request_goodbye (c : Client) (now : Int) (rest : List (List Byte))
    (hact : c.canAct now = true) (hout : c.myPendingAnswers.store = [])
    (hin : c.myPendingCommands.valid_pos = false)
    (hmsg : c.mySocket.inbox = [0x02, 0x7F] :: rest)
    (hsend : c.mySocket.sendFaults.head? ≠ some true) :
    ∃ c1 : Client,
      c.getCommands Storage.empty now = .ok (true, c1, Storage.empty) ∧
      c1.mySocket.sent = c.mySocket.sent ++
        [[0x0E, 0x7F, 0x00, 0x00, 0x00, 0x00, 0x07, 0x47, 0x6F, 0x6F, 0x64, 0x62, 0x79, 0x65]] ∧
      stringBytes "Goodbye" = [0x47, 0x6F, 0x6F, 0x64, 0x62, 0x79, 0x65] ∧
      c1.myConnected = false ∧ c1.mySocket.hasPeer = false ∧
      (∀ (fuel : Nat) (sumo : Socket),
        Hub.handleClient (fuel + 1) sumo now c = some (.ok (sumo, c1))) := by
  have hg := Client.getCommands_close_only c Storage.empty now rest hact hout hin hmsg hsend
  refine ⟨_, hg, rfl, stringBytes_goodbye, rfl, rfl, ?_⟩
  intro fuel sumo
  rw [Hub.handleClient]
  simp only [hact, if_true, hg]
  rw [if_neg (by simp [Storage.size, Storage.empty])]
  exact Hub.handleClient_cannot_act fuel sumo now _ (by simp [Client.canAct])

/-- Scenario S2 on a fresh ready session whose client sends `[0x02, 0x7F]`. -/
theorem close_request_goodbye_witness :
    ∃ c1 : Client,
      (readyWithInbox [[0x02, 0x7F]]).getCommands Storage.empty 0 =
        .ok (true, c1, Storage.empty) ∧
      c1.mySocket.sent = (readyWithInbox [[0x02, 0x7F]]).mySocket.sent ++
        [[0x0E, 0x7F, 0x00, 0x00, 0x00, 0x00, 0x07, 0x47, 0x6F, 0x6F, 0x64, 0x62, 0x79, 0x65]] ∧
      stringBytes "Goodbye" = [0x47, 0x6F, 0x6F, 0x64, 0x62, 0x79, 0x65] ∧
      c1.myConnected = false ∧ c1.mySocket.hasPeer = false ∧
      (∀ (fuel : Nat) (sumo : Socket),
        Hub.handleClient (fuel + 1) sumo 0 (readyWithInbox [[0x02, 0x7F]]) =
          some (.ok (sumo, c1))) :=
  close_request_goodbye (readyWithInbox [[0x02, 0x7F]]) 0 [] (by decide) (by decide)
    (by decide) (by decide) (by decide)

/-- C11 fails as stated: the bytes sent to the client of scenario S2 start with
the size byte `0x0E` (14), not `0x0B` (11); they are not the bytes printed in
the scenario. -/
theorem close_request_goodbye_counterexample :
    (∃ c1 : Client,
      (readyWithInbox [[0x02, 0x7F]]).getCommands Storage.empty 0 =
        .ok (true, c1, Storage.empty) ∧
      c1.mySocket.sent =
        [[0x0E, 0x7F, 0x00, 0x00, 0x00, 0x00, 0x07, 0x47, 0x6F, 0x6F, 0x64, 0x62, 0x79, 0x65]] ∧
      c1.mySocket.sent ≠ [goodbyeS2]) ∧
    goodbyeS2 =
      [0x0B, 0x7F, 0x00, 0x00, 0x00, 0x00, 0x07, 0x47, 0x6F, 0x6F, 0x64, 0x62, 0x79, 0x65] := by
  refine ⟨⟨_, Client.getCommands_close_only (readyWithInbox [[0x02, 0x7F]]) Storage.empty 0 []
    (by decide) (by decide) (by decide) (by decide) (by decide), by decide, by decide⟩, rfl⟩


/-! ## After the goodbye -/

theorem Client.handleCommand_keeps {c c1 : Client} {inS outS in1 out1 : Storage}
    {code : Byte} (h : c.handleCommand inS outS = .ok (code, c1, in1, out1)) :
    c1.mySocket = c.mySocket ∧ c1.myConnected = c.myConnected ∧
      c1.myPendingAnswers = c.myPendingAnswers := by
  unfold Client.handleCommand at h
  cases hs : readCommandSize inS with
  | none => rw [hs] at h; cases h
  | some p =>
    obtain ⟨size, s1⟩ := p
    rw [hs] at h
    dsimp only at h
    cases hr : s1.readChar with
    | none => rw [hr] at h; cases h
    | some q =>
      obtain ⟨op, s2⟩ := q
      rw [hr] at h
      dsimp only at h
      split at h
      · cases hi : s2.readInt with
        | none => rw [hi] at h; cases h
        | some w =>
          obtain ⟨nextT, s3⟩ := w
          rw [hi] at h
          injection h with h
          injection h with _ h
          injection h with h2 _
          subst h2
          exact ⟨rfl, rfl, rfl⟩
      · split at h
        · injection h with h
          injection h with _ h
          injection h with h2 _
          subst h2
          exact ⟨rfl, rfl, rfl⟩
        · cases hc : copyChars (size - 1).toNat s2 ((writeCommandSize outS size).writeChar op) with
          | none => rw [hc] at h; cases h
          | some w =>
            obtain ⟨s3, o3⟩ := w
            rw [hc] at h
            injection h with h
            injection h with _ h
            injection h with h2 _
            subst h2
            exact ⟨rfl, rfl, rfl⟩

theorem Client.drainLoop_keeps : ∀ (fuel : Nat) (c : Client) (message : Storage)
    (cmd : Option Byte) (n : Nat) (cmd1 : Option Byte) (n1 : Nat) (c1 : Client) (out : Storage),
    Client.drainLoop fuel c message cmd n = .ok (cmd1, n1, c1, out) →
    c1.mySocket = c.mySocket ∧ c1.myConnected = c.myConnected ∧
      c1.myPendingAnswers = c.myPendingAnswers := by
  intro fuel
  induction fuel with
  | zero =>
    intro c message cmd n cmd1 n1 c1 out h
    simp only [Client.drainLoop] at h
    injection h with h
    injection h with _ h
    injection h with _ h
    injection h with h2 _
    subst h2
    exact ⟨rfl, rfl, rfl⟩
  | succ k ih =>
    intro c message cmd n cmd1 n1 c1 out h
    rw [Client.drainLoop] at h
    split at h
    · cases hh : c.handleCommand c.myPendingCommands message with
      | error e => rw [hh] at h; cases h
      | ok r =>
        obtain ⟨code, c2, in1, out1⟩ := r
        obtain ⟨a1, a2, a3⟩ := Client.handleCommand_keeps hh
        rw [hh] at h
        dsimp only at h
        split at h
        · injection h with h
          injection h with _ h
          injection h with _ h
          injection h with h2 _
          subst h2
          exact ⟨a1, a2, a3⟩
        · obtain ⟨b1, b2, b3⟩ := ih _ _ _ _ _ _ _ _ h
          exact ⟨b1.trans a1, b2.trans a2, b3.trans a3⟩
    · injection h with h
      injection h with _ h
      injection h with _ h
      injection h with h2 _
      subst h2
      exact ⟨rfl, rfl, rfl⟩

theorem Client.sendAnswers_disconnected (c : Client) (h : c.myConnected = false) :
    c.sendAnswers = (false, c) := by
  simp [Client.sendAnswers, h]

theorem Client.putAnswers_disconnected (c : Client) (answers : Storage)
    (h : c.myConnected = false) : c.putAnswers answers = (false, c) := by
  simp [Client.putAnswers, h]

theorem Client.handleStepResult_disconnected (c : Client) (now : Int) (success : Bool)
    (raw : Storage) (h : c.myConnected = false) :
    (c.handleStepResult now success raw).myConnected = false ∧
      (c.handleStepResult now success raw).mySocket = c.mySocket := by
  unfold Client.handleStepResult
  split
  · exact ⟨h, rfl⟩
  · rw [Client.putAnswers_disconnected _ _ (by simpa using h)]
    exact ⟨h, rfl⟩

theorem Client.filterCommands_disconnected (c c1 : Client) (message out : Storage) (r : Bool)
    (h : c.myConnected = false) (hf : c.filterCommands message = .ok (r, c1, out)) :
    c1.myConnected = false ∧ c1.mySocket = c.mySocket := by
  unfold Client.filterCommands at hf
  cases hd : Client.drainLoop c.myPendingCommands.unread.length c message none 0 with
  | error e => rw [hd] at hf; cases hf
  | ok w =>
    obtain ⟨cmd1, n1, c2, out2⟩ := w
    obtain ⟨a1, a2, _⟩ := Client.drainLoop_keeps _ _ _ _ _ _ _ _ _ hd
    have hc2 : c2.myConnected = false := by rw [a2]; exact h
    rw [hd] at hf
    dsimp only at hf
    rw [Client.sendAnswers_disconnected c2 hc2] at hf
    split at hf <;>
    · injection hf with hf
      injection hf with _ hf
      injection hf with h2 _
      subst h2
      exact ⟨hc2, a1⟩

theorem Client.getCommands_disconnected (c c1 : Client) (message out : Storage) (now : Int)
    (r : Bool) (h : c.myConnected = false) (hg : c.getCommands message now = .ok (r, c1, out)) :
    c1.myConnected = false ∧ c1.mySocket.sent = c.mySocket.sent := by
  unfold Client.getCommands at hg
  split at hg
  · injection hg with hg
    injection hg with _ hg
    injection hg with h2 _
    subst h2
    exact ⟨h, rfl⟩
  · split at hg
    · cases hr : c.mySocket.receiveExact c.myPendingCommands.reset with
      | none =>
        rw [hr] at hg
        injection hg with hg
        injection hg with _ hg
        injection hg with h2 _
        subst h2
        exact ⟨rfl, rfl⟩
      | some w =>
        obtain ⟨sock, pending⟩ := w
        rw [hr] at hg
        obtain ⟨a1, a2⟩ := Client.filterCommands_disconnected _ _ _ _ _ (by exact h) hg
        refine ⟨a1, ?_⟩
        rw [a2]
        unfold Socket.receiveExact at hr
        split at hr
        · cases hr
        · injection hr with hr
          injection hr with h3 _
          subst h3
          rfl
    · obtain ⟨a1, a2⟩ := Client.filterCommands_disconnected _ _ _ _ _ h hg
      exact ⟨a1, by rw [a2]⟩

theorem Client.calls_disconnected : ∀ (ks : List ClientCall) (c c2 : Client),
    c.myConnected = false → Client.calls c ks = some c2 →
    c2.myConnected = false ∧ c2.mySocket.sent = c.mySocket.sent := by
  intro ks
  induction ks with
  | nil =>
    intro c c2 h hk
    simp only [Client.calls] at hk
    injection hk with hk
    subst hk
    exact ⟨h, rfl⟩
  | cons k ks ih =>
    intro c c2 h hk
    simp only [Client.calls] at hk
    cases hc : c.call k with
    | none => rw [hc] at hk; cases hk
    | some c1 =>
      rw [hc] at hk
      have key : c1.myConnected = false ∧ c1.mySocket.sent = c.mySocket.sent := by
        cases k with
        | sendAnswers =>
          simp only [Client.call, Client.sendAnswers_disconnected c h] at hc
          injection hc with hc
          subst hc
          exact ⟨h, rfl⟩
        | putAnswers answers =>
          simp only [Client.call, Client.putAnswers_disconnected c answers h] at hc
          injection hc with hc
          subst hc
          exact ⟨h, rfl⟩
        | getCommands message now =>
          simp only [Client.call] at hc
          cases hg : c.getCommands message now with
          | error e => rw [hg] at hc; cases hc
          | ok w =>
            obtain ⟨r, c3, out⟩ := w
            rw [hg] at hc
            injection hc with hc
            subst hc
            exact Client.getCommands_disconnected c c3 message out now r h hg
        | handleStepResult now success raw =>
          simp only [Client.call] at hc
          injection hc with hc
          subst hc
          obtain ⟨a1, a2⟩ := Client.handleStepResult_disconnected c now success raw h
          exact ⟨a1, by rw [a2]⟩
      obtain ⟨b1, b2⟩ := ih c1 c2 key.1 hk
      exact ⟨b1, b2.trans key.2⟩


theorem Client.sendAnswers_goodbye (c : Client) (hconn : c.myConnected = true)
    (hdisc : c.myDisconnecting = true) (hsend : c.mySocket.sendFaults.head? ≠ some true) :
    c.sendAnswers =
      (true,
        { c with
          mySocket :=
            { c.mySocket with
              hasPeer := false, sendFaults := c.mySocket.sendFaults.drop 1,
              sent := c.mySocket.sent ++ [c.myPendingAnswers.store ++ goodbyeFrame] }
          myPendingAnswers := ⟨[], 0⟩
          myConnected := false }) := by
  obtain ⟨sock, pa, pc, disc, conn, wait, tt⟩ := c
  obtain ⟨port, peer, inbox, faults, sent, refused⟩ := sock
  simp only at hconn hdisc hsend
  subst hconn hdisc
  simp only [Client.sendAnswers, Bool.not_true, Bool.false_eq_true, if_false, if_true,
    Client.writeStatusCmd_goodbye]
  match faults, hsend with
  | [], _ => simp [Socket.sendExact, Client.closeConnection, Socket.close, Storage.reset]
  | false :: r, _ => simp [Socket.sendExact, Client.closeConnection, Socket.close, Storage.reset]
  | true :: r, h => simp at h

/-- C12: for every connected session with `disconnecting = true` whose next
send does not fault, `sendAnswers` returns true and transmits one message, the
pending answers followed by the status frame with opcode CLOSE, result OK and
description "Goodbye" as its last bytes; after it `connected` is false and the
socket is closed.  From then on, whatever sequence of `sendAnswers`,
`putAnswers`, `getCommands` and `handleStepResult` calls is made on the session,
the log of what was sent to the client does not change and `connected` stays
false: the client receives the goodbye exactly once. -/
theorem goodbye_exactly_once (c : Client) (hconn : c.myConnected = true)
    (hdisc : c.myDisconnecting = true) (hsend : c.mySocket.sendFaults.head? ≠ some true) :
    c.sendAnswers.1 = true ∧
    c.sendAnswers.2.mySocket.sent = c.mySocket.sent ++
      [c.myPendingAnswers.store ++
        ([0x0E, CMD_CLOSE, RTYPE_OK, 0x00, 0x00, 0x00, 0x07] ++ stringBytes "Goodbye")] ∧
    c.sendAnswers.2.myConnected = false ∧
    c.sendAnswers.2.mySocket.hasPeer = false ∧
    c.sendAnswers.2.myPendingAnswers.store = [] ∧
    (∀ (ks : List ClientCall) (c2 : Client), Client.calls c.sendAnswers.2 ks = some c2 →
      c2.mySocket.sent = c.sendAnswers.2.mySocket.sent ∧ c2.myConnected = false) := by
  have hs := Client.sendAnswers_goodbye c hconn hdisc hsend
  refine ⟨by rw [hs], ?_, by rw [hs], by rw [hs], by rw [hs], ?_⟩
  · rw [hs, stringBytes_goodbye]
    rfl
  · intro ks c2 hk
    obtain ⟨a1, a2⟩ := Client.calls_disconnected ks _ c2 (by rw [hs]) hk
    exact ⟨a2, a1⟩

/-- A session that has handled a close request after `frameS1`: the stored
answer and the goodbye go out in one message, and a later step result, stored
answer, drain or flush sends nothing more. -/
theorem goodbye_exactly_once_witness :
    closingWithAnswer.sendAnswers.2.mySocket.sent =
      [[0x07, 0xAA, 0x00, 0x00, 0x00, 0x00, 0x00,
        0x0E, 0x7F, 0x00, 0x00, 0x00, 0x00, 0x07, 0x47, 0x6F, 0x6F, 0x64, 0x62, 0x79, 0x65]] ∧
    (∃ c2 : Client,
      Client.calls closingWithAnswer.sendAnswers.2
        [ClientCall.handleStepResult 1000 true stepAnswer, ClientCall.putAnswers stepAnswer,
          ClientCall.getCommands Storage.empty 1000, ClientCall.sendAnswers] = some c2 ∧
      c2.mySocket.sent = closingWithAnswer.sendAnswers.2.mySocket.sent ∧
      c2.myConnected = false) := by
  have h := goodbye_exactly_once closingWithAnswer rfl rfl (by decide)
  refine ⟨by decide, ?_⟩
  have hc : ∃ c2, Client.calls closingWithAnswer.sendAnswers.2
      [ClientCall.handleStepResult 1000 true stepAnswer, ClientCall.putAnswers stepAnswer,
        ClientCall.getCommands Storage.empty 1000, ClientCall.sendAnswers] = some c2 :=
    ⟨_, rfl⟩
  obtain ⟨c2, hc2⟩ := hc
  exact ⟨c2, hc2, h.2.2.2.2.2 _ c2 hc2⟩


/-! ## What a round sends to the engine -/

theorem Socket.sendExact_sent {k k1 : Socket} {b : Storage} (h : k.sendExact b = some k1) :
    k1.sent = k.sent ++ [b.store] := by
  unfold Socket.sendExact at h
  split at h
  · cases h
  · injection h with h; subst h; rfl
  · injection h with h; subst h; rfl

theorem Socket.receiveExact_sent {k k1 : Socket} {b b1 : Storage}
    (h : k.receiveExact b = some (k1, b1)) : k1.sent = k.sent := by
  unfold Socket.receiveExact at h
  split at h
  · cases h
  · injection h with h
    injection h with h1 _
    subst h1
    rfl

theorem Hub.handleClient_sent : ∀ (fuel : Nat) (sumo : Socket) (t : Int) (c : Client)
    (sumo1 : Socket) (c1 : Client),
    Hub.handleClient fuel sumo t c = some (.ok (sumo1, c1)) →
    sumo1.sent = sumo.sent ++ Hub.clientBatches fuel sumo t c := by
  intro fuel
  induction fuel with
  | zero =>
    intro sumo t c sumo1 c1 h
    simp only [Hub.handleClient] at h
    split at h
    · cases h
    · injection h with h
      injection h with h
      injection h with h1 _
      subst h1
      simp [Hub.clientBatches]
  | succ k ih =>
    intro sumo t c sumo1 c1 h
    rw [Hub.handleClient] at h
    rw [Hub.clientBatches]
    by_cases hact : c.canAct t = true
    · simp only [hact, if_true] at h ⊢
      cases hg : c.getCommands Storage.empty t with
      | error e => rw [hg] at h; cases h
      | ok w =>
        obtain ⟨r, c2, message⟩ := w
        rw [hg] at h
        dsimp only at h ⊢
        by_cases hm : message.size > 0
        · simp only [hm, if_true] at h ⊢
          cases hs : sumo.sendExact message with
          | none => rw [hs] at h; cases h
          | some s1 =>
            rw [hs] at h
            dsimp only at h ⊢
            cases hr : s1.receiveExact Storage.empty with
            | none => rw [hr] at h; cases h
            | some w2 =>
              obtain ⟨s2, answer⟩ := w2
              rw [hr] at h
              dsimp only at h ⊢
              rw [ih _ _ _ _ _ h, Socket.receiveExact_sent hr, Socket.sendExact_sent hs]
              simp
        · simp only [hm, if_false] at h ⊢
          exact ih _ _ _ _ _ h
    · simp only [hact, Bool.false_eq_true, if_false] at h ⊢
      injection h with h
      injection h with h
      injection h with h1 _
      subst h1
      simp

theorem Hub.handleClients_sent (fuel : Nat) (t : Int) : ∀ (cs : List Client) (sumo : Socket)
    (sc : Bool) (sumo1 : Socket) (cs1 : List Client) (sc1 : Bool),
    Hub.handleClients fuel t sumo cs sc = some (.ok (sumo1, cs1, sc1)) →
    sumo1.sent = sumo.sent ++ (Hub.roundBatches fuel t sumo cs).flatten ∧
      (Hub.roundBatches fuel t sumo cs).length = cs.length := by
  intro cs
  induction cs with
  | nil =>
    intro sumo sc sumo1 cs1 sc1 h
    simp only [Hub.handleClients] at h
    injection h with h
    injection h with h
    injection h with h1 _
    subst h1
    simp [Hub.roundBatches]
  | cons c rest ih =>
    intro sumo sc sumo1 cs1 sc1 h
    rw [Hub.handleClients] at h
    rw [Hub.roundBatches]
    by_cases hc : c.isConnected = true
    · simp only [hc, if_true] at h ⊢
      cases hh : Hub.handleClient fuel sumo t c with
      | none => rw [hh] at h; cases h
      | some w =>
        cases w with
        | error e => rw [hh] at h; cases h
        | ok w2 =>
          obtain ⟨s1, c1⟩ := w2
          rw [hh] at h
          dsimp only at h ⊢
          cases hr : Hub.handleClients fuel t s1 rest (sc || c1.isConnected) with
          | none => rw [hr] at h; cases h
          | some w3 =>
            cases w3 with
            | error e => rw [hr] at h; cases h
            | ok w4 =>
              obtain ⟨s2, r1, sc2⟩ := w4
              rw [hr] at h
              injection h with h
              injection h with h
              injection h with h1 _
              subst h1
              obtain ⟨a1, a2⟩ := ih _ _ _ _ _ hr
              rw [a1, Hub.handleClient_sent _ _ _ _ _ _ hh]
              simp [a2]
    · simp only [hc, Bool.false_eq_true, if_false] at h ⊢
      cases hr : Hub.handleClients fuel t sumo rest sc with
      | none => rw [hr] at h; cases h
      | some w3 =>
        cases w3 with
        | error e => rw [hr] at h; cases h
        | ok w4 =>
          obtain ⟨s2, r1, sc2⟩ := w4
          rw [hr] at h
          injection h with h
          injection h with h
          injection h with h1 _
          subst h1
          obtain ⟨a1, a2⟩ := ih _ _ _ _ _ hr
          rw [a1]
          simp [a2]

theorem Hub.stepMessage_store : Hub.stepMessage.store = [0x06, 0x02, 0x00, 0x00, 0x00, 0x00] := by
  decide

theorem Hub.runStep_sent {h h1 : Hub} (hr : h.runStep = .ok h1) :
    h1.mySumoSocket.sent = h.mySumoSocket.sent ++ [Hub.stepMessage.store] := by
  unfold Hub.runStep at hr
  cases hs : h.mySumoSocket.sendExact Hub.stepMessage with
  | none => rw [hs] at hr; cases hr
  | some s1 =>
    rw [hs] at hr
    dsimp only at hr
    cases hrc : s1.receiveExact Storage.empty with
    | none => rw [hrc] at hr; cases hr
    | some w =>
      obtain ⟨s2, answer⟩ := w
      rw [hrc] at hr
      dsimp only at hr
      split at hr
      · cases hr
      · injection hr with hr
        subst hr
        simp only
        rw [Socket.receiveExact_sent hrc, Socket.sendExact_sent hs]


theorem Hub.handleStep_sent (fuel : Nat) (h h1 : Hub) (b : Bool)
    (hok : Hub.handleStep fuel h = some (.ok (b, h1))) :
    h1.mySumoSocket.sent =
        h.mySumoSocket.sent ++
          (Hub.roundBatches fuel h.myCurrentTime h.mySumoSocket h.myClients).flatten ++
          [Hub.stepMessage.store] ∧
      (Hub.roundBatches fuel h.myCurrentTime h.mySumoSocket h.myClients).length =
        h.myClients.length := by
  unfold Hub.handleStep at hok
  cases hc : Hub.handleClients fuel h.myCurrentTime h.mySumoSocket h.myClients false with
  | none => rw [hc] at hok; cases hok
  | some w =>
    cases w with
    | error e => rw [hc] at hok; cases hok
    | ok w2 =>
      obtain ⟨s1, cs1, sc⟩ := w2
      rw [hc] at hok
      dsimp only at hok
      obtain ⟨a1, a2⟩ := Hub.handleClients_sent fuel _ _ _ _ _ _ _ hc
      cases hr : Hub.runStep { h with mySumoSocket := s1, myClients := cs1 } with
      | error e => rw [hr] at hok; cases hok
      | ok h2 =>
        rw [hr] at hok
        injection hok with hok
        injection hok with hok
        injection hok with _ hok
        subst hok
        refine ⟨?_, a2⟩
        rw [Hub.runStep_sent hr]
        simp only
        rw [a1]

/-- C13: for every invocation of `handleStep` that completes without a fault,
the messages sent on the engine socket during it are, in this order: for each
session in configured order the command batches that session forwarded (one
list of batches per session, so nothing of a later session precedes anything
of an earlier one), followed by exactly one SIMSTEP2 frame
`[0x06, 0x02, 0x00,0x00,0x00,0x00]`, which is the last message sent. -/
theorem handleStep_engine_traffic (fuel : Nat) (h h1 : Hub) (b : Bool)
    (hok : Hub.handleStep fuel h = some (.ok (b, h1))) :
    h1.mySumoSocket.sent =
        h.mySumoSocket.sent ++
          (Hub.roundBatches fuel h.myCurrentTime h.mySumoSocket h.myClients).flatten ++
          [[0x06, 0x02, 0x00, 0x00, 0x00, 0x00]] ∧
    (Hub.roundBatches fuel h.myCurrentTime h.mySumoSocket h.myClients).length =
      h.myClients.length ∧
    h1.mySumoSocket.sent.getLast? = some [0x06, 0x02, 0x00, 0x00, 0x00, 0x00] ∧
    Hub.stepMessage.store = [0x06, 0x02, 0x00, 0x00, 0x00, 0x00] := by
  obtain ⟨a1, a2⟩ := Hub.handleStep_sent fuel h h1 b hok
  rw [Hub.stepMessage_store] at a1
  refine ⟨a1, a2, ?_, Hub.stepMessage_store⟩
  rw [a1]
  simp

/-- The round of scenario S1: the engine receives the seven bytes of the S1
frame, then the step request. -/
theorem handleStep_engine_traffic_witness :
    ∃ (b : Bool) (h1 : Hub), Hub.handleStep 3 hubS1 = some (.ok (b, h1)) ∧
      h1.mySumoSocket.sent =
        hubS1.mySumoSocket.sent ++
          (Hub.roundBatches 3 hubS1.myCurrentTime hubS1.mySumoSocket hubS1.myClients).flatten ++
          [[0x06, 0x02, 0x00, 0x00, 0x00, 0x00]] ∧
      Hub.roundBatches 3 hubS1.myCurrentTime hubS1.mySumoSocket hubS1.myClients = [[frameS1]] ∧
      h1.mySumoSocket.sent = [frameS1, [0x06, 0x02, 0x00, 0x00, 0x00, 0x00]] := by
  have hex : ∃ (b : Bool) (h1 : Hub), Hub.handleStep 3 hubS1 = some (.ok (b, h1)) :=
    ⟨_, _, rfl⟩
  obtain ⟨b, h1, hok⟩ := hex
  have hb : Hub.roundBatches 3 hubS1.myCurrentTime hubS1.mySumoSocket hubS1.myClients =
      [[frameS1]] := by rfl
  have ht := (handleStep_engine_traffic 3 hubS1 h1 b hok).1
  refine ⟨b, h1, hok, ht, hb, ?_⟩
  rw [ht, hb]
  rfl


/-! ## The current time -/

theorem Hub.runStep_time {h h1 : Hub} (hr : h.runStep = .ok h1) :
    h1.myCurrentTime = wrapInt32 (h.myCurrentTime + h.myTimestepLength) ∧
      h1.myTimestepLength = h.myTimestepLength := by
  unfold Hub.runStep at hr
  cases hs : h.mySumoSocket.sendExact Hub.stepMessage with
  | none => rw [hs] at hr; cases hr
  | some s1 =>
    rw [hs] at hr
    dsimp only at hr
    cases hrc : s1.receiveExact Storage.empty with
    | none => rw [hrc] at hr; cases hr
    | some w =>
      obtain ⟨s2, answer⟩ := w
      rw [hrc] at hr
      dsimp only at hr
      split at hr
      · cases hr
      · injection hr with hr
        subst hr
        exact ⟨rfl, rfl⟩

theorem Hub.runStep_abort_time {h : Hub} {a : Abort} (hr : h.runStep = .error a) :
    (a.fault = Fault.socket ∧ a.currentTime = h.myCurrentTime) ∨
    (∃ e, a.fault = Fault.protocol e ∧
      a.currentTime = wrapInt32 (h.myCurrentTime + h.myTimestepLength)) := by
  unfold Hub.runStep at hr
  cases hs : h.mySumoSocket.sendExact Hub.stepMessage with
  | none =>
    rw [hs] at hr
    injection hr with hr
    subst hr
    exact Or.inl ⟨rfl, rfl⟩
  | some s1 =>
    rw [hs] at hr
    dsimp only at hr
    cases hrc : s1.receiveExact Storage.empty with
    | none =>
      rw [hrc] at hr
      injection hr with hr
      subst hr
      exact Or.inl ⟨rfl, rfl⟩
    | some w =>
      obtain ⟨s2, answer⟩ := w
      rw [hrc] at hr
      dsimp only at hr
      split at hr
      · injection hr with hr
        subst hr
        exact Or.inr ⟨_, rfl, rfl⟩
      · cases hr

theorem Hub.handleStep_time {fuel : Nat} {h h1 : Hub} {b : Bool}
    (hok : Hub.handleStep fuel h = some (.ok (b, h1))) :
    h1.myCurrentTime = wrapInt32 (h.myCurrentTime + h.myTimestepLength) ∧
      h1.myTimestepLength = h.myTimestepLength := by
  unfold Hub.handleStep at hok
  cases hc : Hub.handleClients fuel h.myCurrentTime h.mySumoSocket h.myClients false with
  | none => rw [hc] at hok; cases hok
  | some w =>
    cases w with
    | error e => rw [hc] at hok; cases hok
    | ok w2 =>
      obtain ⟨s1, cs1, sc⟩ := w2
      rw [hc] at hok
      dsimp only at hok
      cases hr : Hub.runStep { h with mySumoSocket := s1, myClients := cs1 } with
      | error e => rw [hr] at hok; cases hok
      | ok h2 =>
        rw [hr] at hok
        injection hok with hok
        injection hok with hok
        injection hok with _ hok
        subst hok
        exact Hub.runStep_time (h := { h with mySumoSocket := s1, myClients := cs1 }) hr

theorem Hub.reachableIn_time {h0 h : Hub} {k : Nat} (h00 : h0.myCurrentTime = 0)
    (hr : Hub.ReachableIn h0 k h) :
    h.myCurrentTime = wrapInt32 ((k : Int) * h0.myTimestepLength) ∧
      h.myTimestepLength = h0.myTimestepLength := by
  induction hr with
  | start => exact ⟨by rw [h00]; simp [wrapInt32], rfl⟩
  | round _ hstep ih =>
    obtain ⟨hk, hl⟩ := ih
    obtain ⟨a1, a2⟩ := Hub.handleStep_time hstep
    refine ⟨?_, a2.trans hl⟩
    rw [a1, hk, hl, wrapInt32_add]
    congr 1
    push_cast
    ring

theorem Hub.reachable_reachableIn {h0 h : Hub} (hr : Hub.Reachable h0 h) :
    ∃ k : Nat, Hub.ReachableIn h0 k h := by
  induction hr with
  | start => exact ⟨0, Hub.ReachableIn.start⟩
  | round _ hstep ih =>
    obtain ⟨k, hk⟩ := ih
    exact ⟨k + 1, Hub.ReachableIn.round hk hstep⟩

theorem Hub.connect_accept_time (h : Hub) :
    h.connectToSUMO.2.myCurrentTime = h.myCurrentTime ∧
      h.acceptClients.2.myCurrentTime = h.myCurrentTime := by
  constructor
  · unfold Hub.connectToSUMO
    split <;> rfl
  · rfl

/-- C14 (amended): the current time is a 32-bit `int`.  It is 0 at
construction; `connectToSUMO` and `acceptClients` leave it alone; a `runStep`
that completes stores the sum of the current time and the step length reduced
to 32 bits, which is the sum itself whenever that is an `int`; one that is
left by a fault has done so when the fault is a protocol error (the engine's
answer was received) and has left the time alone when it is a transport fault;
a completed round (`handleStep`: the servicing of all sessions, then
`runStep`) does the same as a completed `runStep`, so servicing the sessions
does not change the time; after `k` completed rounds from a state with time 0
the current time is `k` times the step length reduced to 32 bits, hence the
multiple `k * stepLength` itself whenever that is an `int`; and the value after
a round is not smaller than before the round when the step length is not
negative and the sum is an `int`. -/
theorem currentTime_multiple_of_step :
    (∀ (host : String) (port : Int) (ports : List Int) (L : Int) (engine : Peer)
      (clientPeers : Int → Peer),
      (Hub.new host port ports L engine clientPeers).myCurrentTime = 0 ∧
      (Hub.new host port ports L engine clientPeers).myTimestepLength = L) ∧
    (∀ h : Hub, h.connectToSUMO.2.myCurrentTime = h.myCurrentTime ∧
      h.acceptClients.2.myCurrentTime = h.myCurrentTime) ∧
    (∀ h h1 : Hub, h.runStep = .ok h1 →
      h1.myCurrentTime = wrapInt32 (h.myCurrentTime + h.myTimestepLength) ∧
      h1.myTimestepLength = h.myTimestepLength ∧
      (-2147483648 ≤ h.myCurrentTime + h.myTimestepLength →
        h.myCurrentTime + h.myTimestepLength < 2147483648 →
        h1.myCurrentTime = h.myCurrentTime + h.myTimestepLength)) ∧
    (∀ (h : Hub) (a : Abort), h.runStep = .error a →
      (a.fault = Fault.socket ∧ a.currentTime = h.myCurrentTime) ∨
      (∃ e, a.fault = Fault.protocol e ∧
        a.currentTime = wrapInt32 (h.myCurrentTime + h.myTimestepLength))) ∧
    (∀ (fuel : Nat) (h h1 : Hub) (b : Bool), Hub.handleStep fuel h = some (.ok (b, h1)) →
      h1.myCurrentTime = wrapInt32 (h.myCurrentTime + h.myTimestepLength) ∧
      h1.myTimestepLength = h.myTimestepLength ∧
      (-2147483648 ≤ h.myCurrentTime + h.myTimestepLength →
        h.myCurrentTime + h.myTimestepLength < 2147483648 →
        h1.myCurrentTime = h.myCurrentTime + h.myTimestepLength)) ∧
    (∀ (h0 h : Hub) (k : Nat), h0.myCurrentTime = 0 → Hub.ReachableIn h0 k h →
      h.myCurrentTime = wrapInt32 ((k : Int) * h0.myTimestepLength) ∧
      h.myTimestepLength = h0.myTimestepLength ∧
      -2147483648 ≤ h.myCurrentTime ∧ h.myCurrentTime < 2147483648 ∧
      (-2147483648 ≤ (k : Int) * h0.myTimestepLength →
        (k : Int) * h0.myTimestepLength < 2147483648 →
        h.myCurrentTime = (k : Int) * h0.myTimestepLength)) ∧
    (∀ h0 h : Hub, Hub.Reachable h0 h → ∃ k : Nat, Hub.ReachableIn h0 k h) ∧
    (∀ (fuel : Nat) (h h1 : Hub) (b : Bool), 0 ≤ h.myTimestepLength →
      -2147483648 ≤ h.myCurrentTime →
      h.myCurrentTime + h.myTimestepLength < 2147483648 →
      Hub.handleStep fuel h = some (.ok (b, h1)) → h.myCurrentTime ≤ h1.myCurrentTime) := by
  refine ⟨fun _ _ _ _ _ _ => ⟨rfl, rfl⟩, Hub.connect_accept_time, ?_,
    fun h a hr => Hub.runStep_abort_time hr, ?_, ?_,
    fun h0 h hr => Hub.reachable_reachableIn hr, ?_⟩
  · intro h h1 hr
    obtain ⟨a1, a2⟩ := Hub.runStep_time hr
    exact ⟨a1, a2, fun k0 k1 => by rw [a1, wrapInt32_of_range _ k0 k1]⟩
  · intro fuel h h1 b hok
    obtain ⟨a1, a2⟩ := Hub.handleStep_time hok
    exact ⟨a1, a2, fun k0 k1 => by rw [a1, wrapInt32_of_range _ k0 k1]⟩
  · intro h0 h k h00 hr
    obtain ⟨a1, a2⟩ := Hub.reachableIn_time h00 hr
    have hrange := wrapInt32_range ((k : Int) * h0.myTimestepLength)
    refine ⟨a1, a2, by rw [a1]; exact hrange.1, by rw [a1]; exact hrange.2,
      fun k0 k1 => by rw [a1, wrapInt32_of_range _ k0 k1]⟩
  · intro fuel h h1 b hL h0 hs hok
    have := (Hub.handleStep_time hok).1
    rw [wrapInt32_of_range _ (by omega) hs] at this
    omega

/-- A hub constructed for an engine and a client that play scenario S1 is
`hubS1` once the connections are made; its first round takes the time from 0
to 1000, one times the step length. -/
theorem currentTime_multiple_of_step_witness :
    Hub.acceptClients (Hub.connectToSUMO
      (Hub.new "localhost" 8813 [4001] 1000 enginePeerS1 (fun _ => clientPeerS1))).2 =
      (true, hubS1) ∧
    (∃ (b : Bool) (h1 : Hub), Hub.handleStep 3 hubS1 = some (.ok (b, h1)) ∧
      Hub.ReachableIn hubS1 1 h1 ∧
      h1.myCurrentTime = ((1 : Nat) : Int) * hubS1.myTimestepLength ∧
      h1.myCurrentTime = 1000 ∧
      hubS1.myCurrentTime ≤ h1.myCurrentTime) := by
  refine ⟨rfl, ?_⟩
  have hex : ∃ (b : Bool) (h1 : Hub), Hub.handleStep 3 hubS1 = some (.ok (b, h1)) :=
    ⟨_, _, rfl⟩
  obtain ⟨b, h1, hok⟩ := hex
  have hr : Hub.ReachableIn hubS1 1 h1 := Hub.ReachableIn.round Hub.ReachableIn.start hok
  have ht := (currentTime_multiple_of_step.2.2.2.2.2.1 hubS1 h1 1 rfl hr).2.2.2.2
    (by decide) (by decide)
  refine ⟨b, h1, hok, hr, ht, ?_, ?_⟩
  · rw [ht]; rfl
  · rw [ht]; decide

/-- C14 fails as stated, in two ways.  A hub constructed with step length -1000
completes a round that takes the current time from 0 to -1000; the value after
the round is smaller than before it.  And a hub with step length 2000000000
completes two rounds that take the current time from 0 to 2000000000 and then,
the sum 4000000000 not being a 32-bit `int`, to -294967296: smaller than before
the round, and not a multiple of the step length. -/
theorem currentTime_backwards_counterexample :
    (hubBackwards.myCurrentTime = 0 ∧
      (∃ h1 : Hub, Hub.handleStep 0 hubBackwards = some (.ok (false, h1)) ∧
        Hub.Reachable hubBackwards h1 ∧
        h1.myCurrentTime = -1000 ∧ h1.myCurrentTime < hubBackwards.myCurrentTime)) ∧
    (hubLongStep.myCurrentTime = 0 ∧ hubLongStep.myTimestepLength = 2000000000 ∧
      (∃ h1 h2 : Hub, Hub.handleStep 0 hubLongStep = some (.ok (true, h1)) ∧
        Hub.handleStep 0 h1 = some (.ok (true, h2)) ∧
        Hub.Reachable hubLongStep h2 ∧
        h1.myCurrentTime = 2000000000 ∧ h2.myCurrentTime = -294967296 ∧
        h2.myCurrentTime < h1.myCurrentTime ∧
        ¬ (∃ m : Int, h2.myCurrentTime = m * hubLongStep.myTimestepLength))) := by
  constructor
  · refine ⟨rfl, ?_⟩
    have hex : ∃ h1 : Hub, Hub.handleStep 0 hubBackwards = some (.ok (false, h1)) := ⟨_, rfl⟩
    obtain ⟨h1, hok⟩ := hex
    have ht := (Hub.handleStep_time hok).1
    have e1 : hubBackwards.myCurrentTime = 0 := rfl
    have e2 : hubBackwards.myTimestepLength = -1000 := rfl
    rw [e1, e2] at ht
    have e3 : wrapInt32 (0 + -1000) = -1000 := by decide
    rw [e3] at ht
    refine ⟨h1, hok, Hub.Reachable.round Hub.Reachable.start hok, ht, ?_⟩
    rw [ht, e1]; decide
  · refine ⟨rfl, rfl, ?_⟩
    have hex1 : ∃ h1 : Hub, Hub.handleStep 0 hubLongStep = some (.ok (true, h1)) ∧
        h1.myCurrentTime = 2000000000 ∧
        ∃ h2 : Hub, Hub.handleStep 0 h1 = some (.ok (true, h2)) ∧
          h2.myCurrentTime = -294967296 := ⟨_, rfl, by decide, _, rfl, by decide⟩
    obtain ⟨h1, hok1, t1, h2, hok2, t2⟩ := hex1
    refine ⟨h1, h2, hok1, hok2,
      Hub.Reachable.round (Hub.Reachable.round Hub.Reachable.start hok1) hok2, t1, t2, ?_, ?_⟩
    · rw [t1, t2]; decide
    · rintro ⟨m, hm⟩
      have e2 : hubLongStep.myTimestepLength = 2000000000 := rfl
      rw [t2, e2] at hm
      omega


/-! ## Truncated client commands -/

theorem Client.handleCommand_truncated (c : Client) (inS out : Storage)
    (h : readCommandSize inS = none ∨
      (∃ size in1, readCommandSize inS = some (size, in1) ∧ in1.unread = []) ∨
      (∃ size in1 t, readCommandSize inS = some (size, in1) ∧
        in1.unread = CMD_SIMSTEP2 :: t ∧ t.length < 4) ∨
      (∃ size in1 op t, readCommandSize inS = some (size, in1) ∧ in1.unread = op :: t ∧
        op ≠ CMD_SIMSTEP2 ∧ op ≠ CMD_CLOSE ∧ (t.length : Int) < size - 1)) :
    ∃ e : ProtocolException,
      c.handleCommand inS out = .error e ∧ e.isFromClient = true ∧ e.myPort = c.port := by
  unfold Client.handleCommand
  rcases h with h | ⟨size, in1, hs, hu⟩ | ⟨size, in1, t, hs, hu, ht⟩ |
    ⟨size, in1, op, t, hs, hu, h1, h2, ht⟩
  · rw [h]
    exact ⟨_, rfl, rfl, rfl⟩
  · rw [hs]
    dsimp only
    rw [Storage.readChar_eq_none hu]
    exact ⟨_, rfl, rfl, rfl⟩
  · obtain ⟨r, u⟩ := Storage.readChar_of_unread hu
    rw [hs]
    dsimp only
    rw [r]
    dsimp only
    rw [if_pos rfl, Storage.readInt_eq_none (by rw [u]; exact ht)]
    exact ⟨_, rfl, rfl, rfl⟩
  · obtain ⟨r, u⟩ := Storage.readChar_of_unread hu
    rw [hs]
    dsimp only
    rw [r]
    dsimp only
    rw [if_neg h1, if_neg h2, Client.copyChars_short _ _ _ (by rw [u]; omega)]
    exact ⟨_, rfl, rfl, rfl⟩

/-- C15: for every inbound buffer that is exhausted before the size field can be
read, or after the size field and before the opcode byte, or after the opcode
SIMSTEP2 and before its four bytes of target time, or after the opcode of an
application command and before its `size - 1` payload bytes, `handleCommand`
returns no opcode: it raises a protocol error whose origin is the client
(`isFromClient() = true`) and whose port is the port of the session. -/
theorem handleCommand_short_read (c : Client) (inS out : Storage)
    (h : readCommandSize inS = none ∨
      (∃ size in1, readCommandSize inS = some (size, in1) ∧ in1.unread = []) ∨
      (∃ size in1 t, readCommandSize inS = some (size, in1) ∧
        in1.unread = CMD_SIMSTEP2 :: t ∧ t.length < 4) ∨
      (∃ size in1 op t, readCommandSize inS = some (size, in1) ∧ in1.unread = op :: t ∧
        op ≠ CMD_SIMSTEP2 ∧ op ≠ CMD_CLOSE ∧ (t.length : Int) < size - 1)) :
    (∃ e : ProtocolException,
      c.handleCommand inS out = .error e ∧ e.isFromClient = true ∧ e.myPort = c.port) ∧
    (readCommandSize inS = none ↔
      (inS.store.length ≤ inS.pos ∨
        (inS.store[inS.pos]? = some 0 ∧ inS.store.length < inS.pos + 5))) :=
  ⟨Client.handleCommand_truncated c inS out h, readCommandSize_eq_none_iff inS⟩

/-- The frame of scenario S1 cut after its first payload byte: the payload
cannot be read, and the error carries the port 4001 of the session. -/
theorem handleCommand_short_read_witness :
    ∃ e : ProtocolException,
      (readySession [0x07, 0xAA, 0x04]).handleCommand ⟨[0x07, 0xAA, 0x04], 0⟩ Storage.empty =
        .error e ∧
      e.isFromClient = true ∧ e.myPort = (readySession [0x07, 0xAA, 0x04]).port :=
  (handleCommand_short_read (readySession [0x07, 0xAA, 0x04]) ⟨[0x07, 0xAA, 0x04], 0⟩
    Storage.empty
    (Or.inr (Or.inr (Or.inr ⟨6, ⟨[0x07, 0xAA, 0x04], 1⟩, 0xAA, [0x04], rfl, rfl, by decide,
      by decide, by decide⟩)))).1


/-! ## Status responses of the engine -/

theorem Hub.checkStatusSize_ok (h : Hub) (answer a1 : Storage) (cmdCode size : Int)
    (hs : readCommandSize answer = some (size, a1)) (h6 : 6 ≤ size) :
    h.checkStatusSize answer cmdCode = .ok a1 := by
  unfold Hub.checkStatusSize
  rw [hs]
  dsimp only
  rw [if_neg (by omega)]

theorem Hub.checkStatusSize_small (h : Hub) (answer a1 : Storage) (cmdCode size : Int)
    (hs : readCommandSize answer = some (size, a1)) (h6 : size < 6) :
    ∃ e : ProtocolException, h.checkStatusSize answer cmdCode = .error e ∧
      e.isFromClient = false ∧ e.myPort = h.mySumoSocket.port ∧
      h.verifyStatusResponse answer cmdCode = .error e := by
  unfold Hub.verifyStatusResponse Hub.checkStatusSize
  rw [hs]
  dsimp only
  rw [if_pos h6]
  exact ⟨_, rfl, rfl, rfl, rfl⟩

theorem Hub.checkStatusSize_short_form (h : Hub) (answer : Storage) (cmdCode : Int)
    (b : Byte) (t : List Byte) (hu : answer.unread = b :: t) (hb : b ≠ 0) :
    (7 ≤ b.val → h.checkStatusSize answer cmdCode = .ok ⟨answer.store, answer.pos + 1⟩) ∧
    (b.val < 7 → ∃ e : ProtocolException, h.checkStatusSize answer cmdCode = .error e ∧
      e.isFromClient = false ∧ e.myPort = h.mySumoSocket.port ∧
      h.verifyStatusResponse answer cmdCode = .error e) := by
  have hs := readCommandSize_short hu hb
  constructor
  · intro h7
    exact Hub.checkStatusSize_ok h answer _ cmdCode _ hs (by omega)
  · intro h7
    exact Hub.checkStatusSize_small h answer _ cmdCode _ hs (by omega)

theorem Storage.readBytes_of_unread (xs : List Byte) :
    ∀ (s : Storage) (t : List Byte), s.unread = xs ++ t →
      Storage.readBytes xs.length s = some (xs, ⟨s.store, s.pos + xs.length⟩) := by
  induction xs with
  | nil => intro s t _; rfl
  | cons x xs ih =>
    intro s t hu
    obtain ⟨r, u⟩ := Storage.readChar_of_unread (s := s) (b := x) (t := xs ++ t) hu
    have hrec := ih ⟨s.store, s.pos + 1⟩ t u
    simp only [List.length_cons, Storage.readBytes, r, hrec]
    have e : s.pos + 1 + xs.length = s.pos + (xs.length + 1) := by omega
    rw [e]

theorem Storage.readString_of_unread {s : Storage} {l0 l1 l2 l3 : Byte} {d t : List Byte}
    (hu : s.unread = l0 :: l1 :: l2 :: l3 :: (d ++ t))
    (hl : beInt32 l0 l1 l2 l3 = (d.length : Int)) :
    s.readString = some (d, ⟨s.store, s.pos + 4 + d.length⟩) := by
  obtain ⟨r, u⟩ := Storage.readInt_of_unread hu
  unfold Storage.readString
  rw [r]
  dsimp only
  rw [hl, Int.toNat_ofNat]
  exact Storage.readBytes_of_unread d ⟨s.store, s.pos + 4⟩ t u

theorem Hub.verifyStatusResponse_opcode_mismatch (h : Hub) (answer a1 a2 : Storage)
    (cmdCode : Int) (op : Byte)
    (hsz : h.checkStatusSize answer cmdCode = .ok a1)
    (hop : a1.readChar = some (op, a2)) (hne : (op.val : Int) ≠ cmdCode) :
    ∃ e : ProtocolException, h.verifyStatusResponse answer cmdCode = .error e ∧
      e.isFromClient = false ∧ e.myPort = h.mySumoSocket.port := by
  unfold Hub.verifyStatusResponse
  rw [hsz]
  dsimp only
  rw [hop]
  dsimp only
  rw [if_pos hne]
  exact ⟨_, rfl, rfl, rfl⟩

theorem Hub.verifyStatusResponse_result (h : Hub) (answer a1 a2 a3 a4 : Storage)
    (cmdCode resultCode : Int) (op : Byte) (description : List Byte)
    (hsz : h.checkStatusSize answer cmdCode = .ok a1)
    (hop : a1.readChar = some (op, a2)) (heq : (op.val : Int) = cmdCode)
    (hrc : a2.readUnsignedByte = some (resultCode, a3))
    (hd : a3.readString = some (description, a4)) :
    h.verifyStatusResponse answer cmdCode = .ok (decide (resultCode = 0), description, a4) := by
  unfold Hub.verifyStatusResponse
  rw [hsz]
  dsimp only
  rw [hop]
  dsimp only
  rw [if_neg (not_not.mpr heq), hrc]
  dsimp only
  rw [hd]
  rfl

theorem Hub.verifyStatusResponse_bytes (h : Hub) (answer a1 : Storage) (cmdCode : Int)
    (op rc l0 l1 l2 l3 : Byte) (d t : List Byte)
    (hsz : h.checkStatusSize answer cmdCode = .ok a1)
    (hu : a1.unread = op :: rc :: l0 :: l1 :: l2 :: l3 :: (d ++ t))
    (hl : beInt32 l0 l1 l2 l3 = (d.length : Int)) :
    ((op.val : Int) ≠ cmdCode →
      ∃ e : ProtocolException, h.verifyStatusResponse answer cmdCode = .error e ∧
        e.isFromClient = false ∧ e.myPort = h.mySumoSocket.port) ∧
    ((op.val : Int) = cmdCode →
      h.verifyStatusResponse answer cmdCode =
        .ok (decide (rc = 0), d, ⟨a1.store, a1.pos + 6 + d.length⟩)) := by
  obtain ⟨r0, u0⟩ := Storage.readChar_of_unread hu
  obtain ⟨r1, u1⟩ := Storage.readChar_of_unread u0
  have hrc : (⟨a1.store, a1.pos + 1⟩ : Storage).readUnsignedByte =
      some ((rc.val : Int), ⟨a1.store, a1.pos + 1 + 1⟩) := by
    unfold Storage.readUnsignedByte
    rw [r1]
  have hd := Storage.readString_of_unread u1 hl
  constructor
  · intro hne
    exact Hub.verifyStatusResponse_opcode_mismatch h answer a1 _ cmdCode op hsz r0 hne
  · intro heq
    rw [Hub.verifyStatusResponse_result h answer a1 _ _ _ cmdCode _ op d hsz r0 heq hrc hd]
    have e1 : decide ((rc.val : Int) = 0) = decide (rc = 0) := by
      apply Bool.decide_congr
      constructor
      · intro h0
        apply Fin.ext
        simpa using h0
      · intro h0
        rw [h0]
        rfl
    rw [e1]

/-- C17: for every engine answer that passes the size check of
`verifyStatusResponse(answer, cmdCode, description)` (the storage after the
check being `a1`): if the opcode byte read next differs from `cmdCode`, a
protocol error with `isFromClient() = false` and the port of the engine socket
is raised; if the opcode matches and the result code and the length-prefixed
description can be read, the function returns true exactly when the result
code is 0 and `description` is the string that follows.  The last part states
the same on the bytes that follow the size field: opcode `op`, result-code byte
`rc`, a four-byte length equal to the length of `d`, then `d`. -/
theorem status_opcode_and_result (h : Hub) (answer a1 : Storage) (cmdCode : Int)
    (hsz : h.checkStatusSize answer cmdCode = .ok a1) :
    (∀ (op : Byte) (a2 : Storage), a1.readChar = some (op, a2) → (op.val : Int) ≠ cmdCode →
      ∃ e : ProtocolException, h.verifyStatusResponse answer cmdCode = .error e ∧
        e.isFromClient = false ∧ e.myPort = h.mySumoSocket.port) ∧
    (∀ (op : Byte) (a2 a3 a4 : Storage) (resultCode : Int) (description : List Byte),
      a1.readChar = some (op, a2) → (op.val : Int) = cmdCode →
      a2.readUnsignedByte = some (resultCode, a3) →
      a3.readString = some (description, a4) →
      h.verifyStatusResponse answer cmdCode =
        .ok (decide (resultCode = 0), description, a4)) ∧
    (∀ (op rc l0 l1 l2 l3 : Byte) (d t : List Byte),
      a1.unread = op :: rc :: l0 :: l1 :: l2 :: l3 :: (d ++ t) →
      beInt32 l0 l1 l2 l3 = (d.length : Int) →
      ((op.val : Int) ≠ cmdCode →
        ∃ e : ProtocolException, h.verifyStatusResponse answer cmdCode = .error e ∧
          e.isFromClient = false ∧ e.myPort = h.mySumoSocket.port) ∧
      ((op.val : Int) = cmdCode →
        h.verifyStatusResponse answer cmdCode =
          .ok (decide (rc = 0), d, ⟨a1.store, a1.pos + 6 + d.length⟩))) :=
  ⟨fun op a2 hop hne => Hub.verifyStatusResponse_opcode_mismatch h answer a1 a2 cmdCode op hsz hop hne,
   fun op a2 a3 a4 resultCode description hop heq hrc hd =>
     Hub.verifyStatusResponse_result h answer a1 a2 a3 a4 cmdCode resultCode op description
       hsz hop heq hrc hd,
   fun op rc l0 l1 l2 l3 d t hu hl =>
     Hub.verifyStatusResponse_bytes h answer a1 cmdCode op rc l0 l1 l2 l3 d t hsz hu hl⟩

/-- The status frame `[0x0A, 0x02, 0xFF, 0,0,0,3, 'e','r','r']` passes the size
check; expecting SIMSTEP2 the result is false (result code `0xFF`) with the
description "err", and expecting the opcode `0xAA` it is a protocol error of
the engine. -/
theorem status_opcode_and_result_witness :
    hubS1.checkStatusSize ⟨[0x0A, 0x02, 0xFF, 0x00, 0x00, 0x00, 0x03, 0x65, 0x72, 0x72], 0⟩ 2 =
      .ok ⟨[0x0A, 0x02, 0xFF, 0x00, 0x00, 0x00, 0x03, 0x65, 0x72, 0x72], 1⟩ ∧
    hubS1.verifyStatusResponse ⟨[0x0A, 0x02, 0xFF, 0x00, 0x00, 0x00, 0x03, 0x65, 0x72, 0x72], 0⟩ 2 =
      .ok (false, [0x65, 0x72, 0x72],
        ⟨[0x0A, 0x02, 0xFF, 0x00, 0x00, 0x00, 0x03, 0x65, 0x72, 0x72], 10⟩) :=
  ⟨rfl,
   ((status_opcode_and_result hubS1
      ⟨[0x0A, 0x02, 0xFF, 0x00, 0x00, 0x00, 0x03, 0x65, 0x72, 0x72], 0⟩
      ⟨[0x0A, 0x02, 0xFF, 0x00, 0x00, 0x00, 0x03, 0x65, 0x72, 0x72], 1⟩ 2 rfl).2.2
      0x02 0xFF 0x00 0x00 0x00 0x03 [0x65, 0x72, 0x72] [] rfl (by decide)).2 (by decide)⟩


/-! ## The exit status of `execute` -/

theorem Client.handleCommand_error_fromClient {c : Client} {inS out : Storage}
    {e : ProtocolException} (h : c.handleCommand inS out = .error e) :
    e.isFromClient = true ∧ e.myPort = c.port := by
  unfold Client.handleCommand at h
  split at h
  · injection h with h; subst h; exact ⟨rfl, rfl⟩
  · split at h
    · injection h with h; subst h; exact ⟨rfl, rfl⟩
    · split at h
      · split at h
        · injection h with h; subst h; exact ⟨rfl, rfl⟩
        · cases h
      · split at h
        · cases h
        · dsimp only at h
          split at h
          · injection h with h; subst h; exact ⟨rfl, rfl⟩
          · cases h

theorem Client.drainLoop_error_fromClient : ∀ (fuel : Nat) (c : Client) (message : Storage)
    (cmd : Option Byte) (n : Nat) (e : ProtocolException),
    Client.drainLoop fuel c message cmd n = .error e → e.isFromClient = true := by
  intro fuel
  induction fuel with
  | zero => intro c message cmd n e h; cases h
  | succ fuel ih =>
    intro c message cmd n e h
    unfold Client.drainLoop at h
    split at h
    · split at h
      · injection h with h
        subst h
        rename_i heq
        exact (Client.handleCommand_error_fromClient heq).1
      · dsimp only at h
        split at h
        · cases h
        · exact ih _ _ _ _ _ h
    · cases h

theorem Client.filterCommands_error_fromClient {c : Client} {message : Storage}
    {e : ProtocolException} (h : c.filterCommands message = .error e) :
    e.isFromClient = true := by
  unfold Client.filterCommands at h
  split at h
  · injection h with h
    subst h
    rename_i heq
    exact Client.drainLoop_error_fromClient _ _ _ _ _ _ heq
  · split at h <;> cases h

theorem Client.getCommands_error_fromClient {c : Client} {message : Storage} {now : Int}
    {e : ProtocolException} (h : c.getCommands message now = .error e) :
    e.isFromClient = true := by
  unfold Client.getCommands at h
  split at h
  · cases h
  · split at h
    · split at h
      · cases h
      · exact Client.filterCommands_error_fromClient h
    · exact Client.filterCommands_error_fromClient h

theorem Hub.checkStatusSize_error_engine {h : Hub} {answer : Storage} {cmdCode : Int}
    {e : ProtocolException} (he : h.checkStatusSize answer cmdCode = .error e) :
    e.isFromClient = false := by
  unfold Hub.checkStatusSize at he
  split at he
  · injection he with he; subst he; rfl
  · split at he
    · injection he with he; subst he; rfl
    · cases he

theorem Hub.verifyStatusResponse_error_engine {h : Hub} {answer : Storage} {cmdCode : Int}
    {e : ProtocolException} (he : h.verifyStatusResponse answer cmdCode = .error e) :
    e.isFromClient = false := by
  unfold Hub.verifyStatusResponse at he
  split at he
  · injection he with he
    subst he
    rename_i heq
    exact Hub.checkStatusSize_error_engine heq
  · split at he
    · injection he with he; subst he; rfl
    · split at he
      · injection he with he; subst he; rfl
      · split at he
        · injection he with he; subst he; rfl
        · split at he
          · injection he with he; subst he; rfl
          · cases he

theorem Hub.runStep_fault {h : Hub} {a : Abort} (hr : h.runStep = .error a) :
    a.fault = Fault.socket ∨ ∃ e, a.fault = Fault.protocol e ∧ e.isFromClient = false := by
  unfold Hub.runStep at hr
  split at hr
  · injection hr with hr; subst hr; exact Or.inl rfl
  · split at hr
    · injection hr with hr; subst hr; exact Or.inl rfl
    · dsimp only at hr
      split at hr
      · injection hr with hr
        subst hr
        rename_i heq
        exact Or.inr ⟨_, rfl, Hub.verifyStatusResponse_error_engine heq⟩
      · cases hr

theorem Hub.runStep_fault_result {h : Hub} {a : Abort} (hr : h.runStep = .error a) :
    Hub.faultResult a.fault = 1 := by
  rcases Hub.runStep_fault hr with hs | ⟨e, he, hf⟩
  · rw [hs]; rfl
  · rw [he]
    unfold Hub.faultResult
    simp only [hf, Bool.false_eq_true, if_false]

theorem Socket.sendExact_port {k k1 : Socket} {b : Storage} (h : k.sendExact b = some k1) :
    k1.port = k.port := by
  unfold Socket.sendExact at h
  split at h
  · cases h
  · injection h with h; subst h; rfl
  · injection h with h; subst h; rfl

theorem Socket.receiveExact_port {k k1 : Socket} {b b1 : Storage}
    (h : k.receiveExact b = some (k1, b1)) : k1.port = k.port := by
  unfold Socket.receiveExact at h
  split at h
  · cases h
  · injection h with h
    injection h with h1 h2
    subst h1
    rfl


theorem Hub.runStep_wrong_opcode (g : Hub) (s1 s2 : Socket) (answer a1 a2 : Storage) (op : Byte)
    (hs : g.mySumoSocket.sendExact Hub.stepMessage = some s1)
    (hr : s1.receiveExact Storage.empty = some (s2, answer))
    (hsz : g.checkStatusSize (Storage.empty.writeStorage answer) (CMD_SIMSTEP2.val : Int) = .ok a1)
    (hop : a1.readChar = some (op, a2)) (hne : op ≠ CMD_SIMSTEP2) :
    ∃ e : ProtocolException,
      g.runStep =
        .error ⟨Fault.protocol e, s2, wrapInt32 (g.myCurrentTime + g.myTimestepLength)⟩ ∧
      e.isFromClient = false ∧ e.myPort = g.mySumoSocket.port ∧
      Hub.faultResult (Fault.protocol e) = 1 := by
  have hne1 : (op.val : Int) ≠ (CMD_SIMSTEP2.val : Int) := by
    intro h0
    apply hne
    apply Fin.ext
    exact_mod_cast h0
  obtain ⟨e, hv, hf, hp⟩ :=
    Hub.verifyStatusResponse_opcode_mismatch g _ a1 a2 _ op hsz hop hne1
  refine ⟨e, ?_, hf, hp, ?_⟩
  · unfold Hub.runStep
    rw [hs]
    dsimp only
    rw [hr]
    dsimp only
    rw [Hub.verifyStatusResponse_congr g, hv]
    exact (Socket.receiveExact_port hr).trans (Socket.sendExact_port hs)
  · unfold Hub.faultResult
    simp only [hf, Bool.false_eq_true, if_false]

theorem Hub.handleClient_malformed (fuel : Nat) (sumo : Socket) (now : Int) (c : Client)
    (e : ProtocolException) (hact : c.canAct now = true)
    (hg : c.getCommands Storage.empty now = .error e) :
    Hub.handleClient (fuel + 1) sumo now c = some (.error ⟨Fault.protocol e, sumo, now⟩) ∧
    e.isFromClient = true ∧ Hub.faultResult (Fault.protocol e) = 2 := by
  have hf := Client.getCommands_error_fromClient hg
  refine ⟨?_, hf, ?_⟩
  · unfold Hub.handleClient
    rw [if_pos hact, hg]
  · unfold Hub.faultResult
    simp only [hf, if_true]

theorem Hub.disconnectSUMO_returns (g : Hub)
    (hs : g.mySumoSocket.hasPeer = false ∨ g.mySumoSocket.sendFaults.head? ≠ some true) :
    ∃ g1 : Hub, g.disconnectSUMO = some g1 ∧ g1.mySumoSocket.hasPeer = false := by
  unfold Hub.disconnectSUMO Socket.has_client_connection
  cases hp : g.mySumoSocket.hasPeer with
  | false => exact ⟨g, rfl, hp⟩
  | true =>
    rcases hs with hs | hs
    · rw [hp] at hs; cases hs
    · unfold Socket.sendExact
      rcases hf : g.mySumoSocket.sendFaults with _ | ⟨b, rest⟩
      · exact ⟨_, rfl, rfl⟩
      · cases b with
        | false => exact ⟨_, rfl, rfl⟩
        | true => rw [hf] at hs; exact absurd rfl hs

theorem Hub.execute_finished (rounds fuel : Nat) (h h1 h2 h3 h4 : Hub)
    (hc : h.connectToSUMO = (true, h1)) (ha : h1.acceptClients = (true, h2))
    (hl : Hub.stepLoop rounds fuel h2 = some (.ok h3)) (hd : h3.disconnectSUMO = some h4) :
    h.execute rounds fuel = some (.ok (0, h4.mySumoSocket)) := by
  unfold Hub.execute
  rw [hc]
  dsimp only
  rw [ha]
  dsimp only
  rw [hl]
  dsimp only
  rw [hd]

theorem Hub.execute_fault (rounds fuel : Nat) (h h1 h2 h4 : Hub) (a : Abort)
    (hc : h.connectToSUMO = (true, h1)) (ha : h1.acceptClients = (true, h2))
    (hl : Hub.stepLoop rounds fuel h2 = some (.error a))
    (hd : ({ h2 with mySumoSocket := a.sumo, myCurrentTime := a.currentTime } : Hub).disconnectSUMO
      = some h4) :
    h.execute rounds fuel = some (.ok (Hub.faultResult a.fault, h4.mySumoSocket)) ∧
    (a.fault = Fault.socket → Hub.faultResult a.fault = 1) ∧
    (∀ e : ProtocolException, a.fault = Fault.protocol e → e.isFromClient = false →
      Hub.faultResult a.fault = 1) ∧
    (∀ e : ProtocolException, a.fault = Fault.protocol e → e.isFromClient = true →
      Hub.faultResult a.fault = 2) := by
  refine ⟨?_, ?_, ?_, ?_⟩
  · unfold Hub.execute
    rw [hc]
    dsimp only
    rw [ha]
    dsimp only
    rw [hl]
    dsimp only
    rw [hd]
  · intro hf
    rw [hf]
    rfl
  · intro e hf he
    rw [hf]
    unfold Hub.faultResult
    simp only [he, Bool.false_eq_true, if_false]
  · intro e hf he
    rw [hf]
    unfold Hub.faultResult
    simp only [he, if_true]

theorem Hub.stepLoop_round_fault (rounds fuel : Nat) (g : Hub) (a : Abort)
    (hs : Hub.handleStep fuel g = some (.error a)) :
    Hub.stepLoop (rounds + 1) fuel g = some (.error a) := by
  unfold Hub.stepLoop
  rw [hs]

theorem Hub.handleStep_runStep_fault (fuel : Nat) (g : Hub) (sumo1 : Socket)
    (clients1 : List Client) (sc : Bool) (a : Abort)
    (hcs : Hub.handleClients fuel g.myCurrentTime g.mySumoSocket g.myClients false =
      some (.ok (sumo1, clients1, sc)))
    (hr : Hub.runStep { g with mySumoSocket := sumo1, myClients := clients1 } = .error a) :
    Hub.handleStep fuel g = some (.error a) := by
  unfold Hub.handleStep
  rw [hcs]
  dsimp only
  rw [hr]


/-- C18, evaluated at the run `hubEngineLost`: the engine connects and the
client is accepted, the step loop raises an engine transport fault (the step
request is sent and no answer arrives), for which the handler of `execute`
sets the result 1; but `execute` does not return 1: the CLOSE message that
`disconnectSUMO()` sends in the cleanup, outside any handler, faults as well,
and that exception leaves `execute`. -/
theorem execute_cleanup_fault_escapes :
    hubEngineLost.connectToSUMO.1 = true ∧
    (Hub.acceptClients hubEngineLost.connectToSUMO.2).1 = true ∧
    Hub.stepLoop 1 1 (Hub.acceptClients hubEngineLost.connectToSUMO.2).2 =
      some (.error ⟨Fault.socket,
        { port := 8813, hasPeer := true, inbox := [], sendFaults := [true],
          sent := [[0x06, 0x02, 0x00, 0x00, 0x00, 0x00]] }, 0⟩) ∧
    Hub.faultResult Fault.socket = 1 ∧
    Hub.execute 1 1 hubEngineLost = some (.error Fault.socket) ∧
    ¬ (∃ sock : Socket, Hub.execute 1 1 hubEngineLost = some (.ok (1, sock))) := by
  refine ⟨rfl, rfl, rfl, rfl, rfl, ?_⟩
  have e : Hub.execute 1 1 hubEngineLost = some (.error Fault.socket) := rfl
  rw [e]
  rintro ⟨sock, h0⟩
  cases h0


/-! ## The protocol error value and the result of `getCommands` -/

/-- C19, evaluated at the error that `handleCommand` constructs on port 4001:
`isFromClient()` and the port are those given to the constructor (and the flag
is false for an engine error), but the text returned by `what()` is
"(on client through port 4001", which is shorter than the message and so does
not contain it; the text is the same for any other message. -/
theorem protocolException_what_omits_message :
    (ProtocolException.new "Message too short: cannot read the size of a command" 4001
      true).what = "(on client through port 4001" ∧
    (ProtocolException.new "Message too short: cannot read the size of a command" 4001
      true).what.length < "Message too short: cannot read the size of a command".length ∧
    (ProtocolException.new "Message too short: cannot read the size of a command" 4001
      true).what = (ProtocolException.new "" 4001 true).what ∧
    (ProtocolException.new "Message too short: cannot read the size of a command" 4001
      true).isFromClient = true ∧
    (ProtocolException.new "Message too short: cannot read the size of a command" 4001
      true).myPort = 4001 ∧
    (ProtocolException.new "Invalid status response" 8813 false).isFromClient = false ∧
    (ProtocolException.new "Invalid status response" 8813 false).what =
      "(on SUMO through port 8813" := by
  refine ⟨by decide, by decide, rfl, rfl, rfl, rfl, by decide⟩

/-- C20, evaluated at a ready session whose pendingIn holds the single frame
`SIMSTEP2(0)`: `getCommands` on an empty `message` returns true, the session
is then waiting with the frame consumed, and `message` is still empty: nothing
was written to it. -/
theorem getCommands_true_nothing_written :
    (readySession frameStep0).getCommands Storage.empty 0 =
      .ok (true,
        { mySocket := { port := 4001, hasPeer := true, inbox := [], sendFaults := [], sent := [] }
          myPendingAnswers := Storage.empty
          myPendingCommands := ⟨frameStep0, 6⟩
          myDisconnecting := false
          myConnected := true
          myWaiting := true
          myTargetTime := -1 },
        Storage.empty) ∧
    Storage.empty.size = 0 := by
  refine ⟨rfl, rfl⟩


/-! ## Status frames written by the session and read by the hub -/

theorem Client.writeStatusCmd_store (cmdCode status : Int) (d : List Byte) (out : Storage) :
    (Client.writeStatusCmd cmdCode status d out).store =
      out.store ++ (intToByte (1 + 1 + 1 + 4 + (d.length : Int)) :: intToByte cmdCode ::
        intToByte status :: (int32Bytes (d.length : Int) ++ d)) ∧
    (Client.writeStatusCmd cmdCode status d out).pos = out.pos := by
  constructor
  · simp [Client.writeStatusCmd, Storage.writeUnsignedByte, Storage.writeChar,
      Storage.writeString, Storage.writeInt]
  · rfl

theorem Hub.verifyStatusResponse_writeStatusCmd (h : Hub) (c s : Int) (d : List Byte)
    (hc0 : 0 ≤ c) (hc1 : c < 256) (hs0 : 0 ≤ s) (hs1 : s < 256) (hd : d.length ≤ 248) :
    ∃ (b : Byte) (rest : List Byte),
      (Client.writeStatusCmd c s d Storage.empty).store = b :: rest ∧
      b.val = 7 + d.length ∧ (b :: rest).length = 7 + d.length ∧
      (Client.writeStatusCmd c s d Storage.empty).pos = 0 ∧
      h.verifyStatusResponse (Client.writeStatusCmd c s d Storage.empty) c =
        .ok (decide (s = 0), d,
          ⟨(Client.writeStatusCmd c s d Storage.empty).store, 7 + d.length⟩) := by
  obtain ⟨hst, hpos⟩ := Client.writeStatusCmd_store c s d Storage.empty
  obtain ⟨l0, l1, l2, l3, hb, hbe⟩ :=
    beInt32_int32Bytes (d.length : Int) (by omega) (by omega)
  have hbv : ((intToByte (1 + 1 + 1 + 4 + (d.length : Int))).val : Int) =
      1 + 1 + 1 + 4 + (d.length : Int) := intToByte_val _ (by omega) (by omega)
  have hbn : (intToByte (1 + 1 + 1 + 4 + (d.length : Int))).val = 7 + d.length := by omega
  rw [hb] at hst
  have hst : (Client.writeStatusCmd c s d Storage.empty).store =
      intToByte (1 + 1 + 1 + 4 + (d.length : Int)) :: intToByte c :: intToByte s ::
        l0 :: l1 :: l2 :: l3 :: d := hst
  have hp0 : (Client.writeStatusCmd c s d Storage.empty).pos = 0 := hpos
  refine ⟨_, _, hst, hbn, ?_, hp0, ?_⟩
  · simp only [List.length_cons, List.length_append, List.length_nil]
    omega
  · have hu : (Client.writeStatusCmd c s d Storage.empty).unread =
        intToByte (1 + 1 + 1 + 4 + (d.length : Int)) ::
          (intToByte c :: intToByte s :: l0 :: l1 :: l2 :: l3 :: (d ++ [])) := by
      unfold Storage.unread
      rw [hp0, hst]
      simp
    have hb0 : intToByte (1 + 1 + 1 + 4 + (d.length : Int)) ≠ 0 := by
      intro h0
      rw [h0] at hbn
      have h00 : ((0 : Byte) : Nat) = 0 := rfl
      omega
    have hsz := (Hub.checkStatusSize_short_form h _ c _ _ hu hb0).1 (by omega)
    have hu1 : (⟨(Client.writeStatusCmd c s d Storage.empty).store,
        (Client.writeStatusCmd c s d Storage.empty).pos + 1⟩ : Storage).unread =
        intToByte c :: intToByte s :: l0 :: l1 :: l2 :: l3 :: (d ++ []) :=
      (Storage.readChar_of_unread hu).2
    have hv := (Hub.verifyStatusResponse_bytes h _ _ c _ _ l0 l1 l2 l3 d [] hsz hu1 hbe).2
      (intToByte_val c hc0 hc1)
    rw [hv]
    have e1 : decide (intToByte s = 0) = decide (s = 0) := by
      apply Bool.decide_congr
      constructor
      · intro h0
        have := intToByte_val s hs0 hs1
        rw [h0] at this
        simpa using this.symm
      · intro h0
        rw [h0]
        rfl
    rw [e1, hp0]

/-- C21: for every opcode `c` in 0..255, every status byte `s` in 0..255 and
every description `d` of at most 248 bytes, the frame that
`Client::writeStatusCmd(c, s, d)` appends to an empty buffer starts with a size
byte equal to its total byte count `7 + |d|`, and
`TraCIHub::verifyStatusResponse` applied to it with the expected opcode `c`
raises no error, returns `(s = 0)`, yields the description `d` and leaves the
read cursor at the end of the frame. -/
theorem status_frame_roundtrip (h : Hub) (c s : Int) (d : List Byte)
    (hc0 : 0 ≤ c) (hc1 : c < 256) (hs0 : 0 ≤ s) (hs1 : s < 256) (hd : d.length ≤ 248) :
    ∃ (b : Byte) (rest : List Byte),
      (Client.writeStatusCmd c s d Storage.empty).store = b :: rest ∧
      b.val = 7 + d.length ∧ (b :: rest).length = 7 + d.length ∧
      (Client.writeStatusCmd c s d Storage.empty).pos = 0 ∧
      h.verifyStatusResponse (Client.writeStatusCmd c s d Storage.empty) c =
        .ok (decide (s = 0), d,
          ⟨(Client.writeStatusCmd c s d Storage.empty).store, 7 + d.length⟩) :=
  Hub.verifyStatusResponse_writeStatusCmd h c s d hc0 hc1 hs0 hs1 hd

/-- The goodbye frame of the session (`CLOSE`, status 0, "Goodbye") is accepted
by the hub's check with the result true. -/
theorem status_frame_roundtrip_witness :
    ∃ (b : Byte) (rest : List Byte),
      (Client.writeStatusCmd 0x7F 0 [0x47, 0x6F, 0x6F, 0x64, 0x62, 0x79, 0x65]
        Storage.empty).store = b :: rest ∧
      b.val = 7 + 7 ∧ (b :: rest).length = 7 + 7 ∧
      (Client.writeStatusCmd 0x7F 0 [0x47, 0x6F, 0x6F, 0x64, 0x62, 0x79, 0x65]
        Storage.empty).pos = 0 ∧
      hubS1.verifyStatusResponse
        (Client.writeStatusCmd 0x7F 0 [0x47, 0x6F, 0x6F, 0x64, 0x62, 0x79, 0x65]
          Storage.empty) 0x7F =
        .ok (decide ((0 : Int) = 0), [0x47, 0x6F, 0x6F, 0x64, 0x62, 0x79, 0x65],
          ⟨(Client.writeStatusCmd 0x7F 0 [0x47, 0x6F, 0x6F, 0x64, 0x62, 0x79, 0x65]
            Storage.empty).store, 7 + 7⟩) :=
  status_frame_roundtrip hubS1 0x7F 0 [0x47, 0x6F, 0x6F, 0x64, 0x62, 0x79, 0x65]
    (by decide) (by decide) (by decide) (by decide) (by decide)


/-! ## Re-encoding of forwarded commands -/

theorem beInt32_range (b0 b1 b2 b3 : Byte) :
    -2147483648 ≤ beInt32 b0 b1 b2 b3 ∧ beInt32 b0 b1 b2 b3 < 2147483648 := by
  have h0 := b0.isLt
  have h1 := b1.isLt
  have h2 := b2.isLt
  have h3 := b3.isLt
  unfold beInt32 beNat
  split <;> omega

theorem Storage.readInt_range {s s1 : Storage} {v : Int} (h : s.readInt = some (v, s1)) :
    -2147483648 ≤ v ∧ v < 2147483648 := by
  by_cases hl : s.unread.length < 4
  · rw [Storage.readInt_eq_none hl] at h; cases h
  · rcases hu : s.unread with _ | ⟨b0, _ | ⟨b1, _ | ⟨b2, _ | ⟨b3, t⟩⟩⟩⟩
    · rw [hu] at hl; simp at hl
    · rw [hu] at hl; simp at hl
    · rw [hu] at hl; simp at hl
    · rw [hu] at hl; simp at hl
    · rw [(Storage.readInt_of_unread hu).1] at h
      injection h with h
      injection h with h1 _
      rw [← h1]
      exact beInt32_range b0 b1 b2 b3

theorem readCommandSize_range {s s1 : Storage} {size : Int}
    (h : readCommandSize s = some (size, s1)) :
    -2147483648 - 5 ≤ size ∧ size < 2147483648 - 5 := by
  unfold readCommandSize Storage.readUnsignedByte at h
  cases hr : s.readChar with
  | none => rw [hr] at h; cases h
  | some p =>
    obtain ⟨b, s2⟩ := p
    rw [hr] at h
    dsimp only at h
    have hb := b.isLt
    split at h
    · injection h with h
      injection h with h1 _
      omega
    · cases hi : s2.readInt with
      | none => rw [hi] at h; cases h
      | some q =>
        obtain ⟨v, s3⟩ := q
        rw [hi] at h
        dsimp only at h
        injection h with h
        injection h with h1 _
        have hv := Storage.readInt_range hi
        omega

theorem writeCommandSize_short (out : Storage) (size : Int) (h : size + 1 < 256) :
    writeCommandSize out size = ⟨out.store ++ [intToByte (size + 1)], out.pos⟩ := by
  simp [writeCommandSize, h, Storage.writeUnsignedByte, Storage.writeChar]

theorem writeCommandSize_long (out : Storage) (size : Int) (h : ¬ size + 1 < 256) :
    writeCommandSize out size = ⟨out.store ++ 0 :: int32Bytes (size + 1 + 4), out.pos⟩ := by
  simp only [writeCommandSize, h, if_false, Storage.writeUnsignedByte, Storage.writeChar,
    Storage.writeInt, List.append_assoc, List.singleton_append]
  rfl

theorem writeCommandSize_append (out : Storage) (size : Int) :
    writeCommandSize out size =
      ⟨out.store ++ (writeCommandSize Storage.empty size).store, out.pos⟩ := by
  by_cases h : size + 1 < 256
  · rw [writeCommandSize_short out size h, writeCommandSize_short Storage.empty size h]
    rfl
  · rw [writeCommandSize_long out size h, writeCommandSize_long Storage.empty size h]
    rfl

theorem readCommandSize_written (s : Storage) (size : Int) (t : List Byte)
    (h0 : 0 ≤ size) (h1 : size < 2147483648 - 5)
    (hu : s.unread = (writeCommandSize Storage.empty size).store ++ t) :
    readCommandSize s =
      some (size, ⟨s.store, s.pos + (writeCommandSize Storage.empty size).store.length⟩) ∧
    (⟨s.store, s.pos + (writeCommandSize Storage.empty size).store.length⟩ : Storage).unread
      = t := by
  refine ⟨?_, Storage.unread_advance hu⟩
  by_cases hs : size + 1 < 256
  · rw [writeCommandSize_short Storage.empty size hs] at hu ⊢
    have hv := intToByte_val (size + 1) (by omega) hs
    have hne : intToByte (size + 1) ≠ 0 := by
      intro h
      rw [h] at hv
      have h00 : (((0 : Byte) : Nat) : Int) = 0 := rfl
      omega
    have hu1 : s.unread = intToByte (size + 1) :: t := hu
    rw [readCommandSize_short hu1 hne, hv]
    have e : size + 1 - 1 = size := by omega
    rw [e]
    rfl
  · obtain ⟨b0, b1, b2, b3, hb, hv⟩ := beInt32_int32Bytes (size + 1 + 4) (by omega) (by omega)
    rw [writeCommandSize_long Storage.empty size hs, hb] at hu ⊢
    have hu1 : s.unread = 0 :: b0 :: b1 :: b2 :: b3 :: t := hu
    rw [readCommandSize_long hu1, hv]
    have e : size + 1 + 4 - 5 = size := by omega
    rw [e]
    rfl


theorem Client.handleCommand_reencode (c : Client) (inS out in1 : Storage) (size : Int)
    (op : Byte) (payload t : List Byte)
    (hsize : readCommandSize inS = some (size, in1)) (h1 : 1 ≤ size)
    (hun : in1.unread = op :: (payload ++ t))
    (hlen : (payload.length : Int) = size - 1)
    (hs : op ≠ CMD_SIMSTEP2) (hc : op ≠ CMD_CLOSE) :
    c.handleCommand inS out =
      .ok (op, c, ⟨in1.store, in1.pos + 1 + payload.length⟩,
        ⟨out.store ++ ((writeCommandSize Storage.empty size).store ++ op :: payload),
          out.pos⟩) := by
  rw [Client.handleCommand_forward c inS out in1 size op payload t hsize hun hs hc (by omega),
    writeCommandSize_append out size]
  simp only [List.append_assoc]

theorem Client.handleCommand_decodes (size : Int) (op : Byte) (payload : List Byte)
    (h1 : 1 ≤ size) (h2 : size < 2147483648 - 5) (hlen : (payload.length : Int) = size - 1) :
    readCommandSize ⟨(writeCommandSize Storage.empty size).store ++ op :: payload, 0⟩ =
      some (size, ⟨(writeCommandSize Storage.empty size).store ++ op :: payload,
        (writeCommandSize Storage.empty size).store.length⟩) ∧
    (⟨(writeCommandSize Storage.empty size).store ++ op :: payload,
        (writeCommandSize Storage.empty size).store.length⟩ : Storage).readChar =
      some (op, ⟨(writeCommandSize Storage.empty size).store ++ op :: payload,
        (writeCommandSize Storage.empty size).store.length + 1⟩) ∧
    Storage.readBytes (size - 1).toNat
        ⟨(writeCommandSize Storage.empty size).store ++ op :: payload,
          (writeCommandSize Storage.empty size).store.length + 1⟩ =
      some (payload, ⟨(writeCommandSize Storage.empty size).store ++ op :: payload,
        ((writeCommandSize Storage.empty size).store ++ op :: payload).length⟩) := by
  have hu0 : (⟨(writeCommandSize Storage.empty size).store ++ op :: payload, 0⟩ :
      Storage).unread = (writeCommandSize Storage.empty size).store ++ op :: payload := rfl
  obtain ⟨hr, hu1⟩ := readCommandSize_written _ size (op :: payload) (by omega) h2 hu0
  simp only [Nat.zero_add] at hr hu1
  obtain ⟨hr2, hu2⟩ := Storage.readChar_of_unread hu1
  refine ⟨hr, hr2, ?_⟩
  have hn : (size - 1).toNat = payload.length := by omega
  have hu3 : (⟨(writeCommandSize Storage.empty size).store ++ op :: payload,
      (writeCommandSize Storage.empty size).store.length + 1⟩ : Storage).unread =
      payload ++ [] := by
    rw [List.append_nil]
    exact hu2
  rw [hn, Storage.readBytes_of_unread payload _ [] hu3]
  simp only [List.length_append, List.length_cons]
  have e : (writeCommandSize Storage.empty size).store.length + 1 + payload.length =
      (writeCommandSize Storage.empty size).store.length + (payload.length + 1) := by omega
  rw [e]

theorem writeCommandSize_prefix (size : Int) (h1 : 1 ≤ size) (h2 : size < 2147483648 - 5) :
    (size + 1 < 256 →
      ∃ b : Byte, (writeCommandSize Storage.empty size).store = [b] ∧
        (b.val : Int) = size + 1) ∧
    (256 ≤ size + 1 →
      ∃ b0 b1 b2 b3 : Byte,
        (writeCommandSize Storage.empty size).store = [0, b0, b1, b2, b3] ∧
        beInt32 b0 b1 b2 b3 = size + 5) := by
  constructor
  · intro hs
    rw [writeCommandSize_short Storage.empty size hs]
    exact ⟨_, rfl, intToByte_val (size + 1) (by omega) hs⟩
  · intro hs
    obtain ⟨b0, b1, b2, b3, hb, hv⟩ := beInt32_int32Bytes (size + 1 + 4) (by omega) (by omega)
    rw [writeCommandSize_long Storage.empty size (by omega), hb]
    exact ⟨b0, b1, b2, b3, rfl, by rw [hv]; omega⟩

theorem Client.handleCommand_idempotent (c2 : Client) (out2 : Storage) (size : Int) (op : Byte)
    (payload : List Byte) (h1 : 1 ≤ size) (h2 : size < 2147483648 - 5)
    (hlen : (payload.length : Int) = size - 1)
    (hs : op ≠ CMD_SIMSTEP2) (hc : op ≠ CMD_CLOSE) :
    c2.handleCommand ⟨(writeCommandSize Storage.empty size).store ++ op :: payload, 0⟩ out2 =
      .ok (op, c2,
        ⟨(writeCommandSize Storage.empty size).store ++ op :: payload,
          ((writeCommandSize Storage.empty size).store ++ op :: payload).length⟩,
        ⟨out2.store ++ ((writeCommandSize Storage.empty size).store ++ op :: payload),
          out2.pos⟩) := by
  have hu0 : (⟨(writeCommandSize Storage.empty size).store ++ op :: payload, 0⟩ :
      Storage).unread = (writeCommandSize Storage.empty size).store ++ op :: payload := rfl
  obtain ⟨hr, hu1⟩ := readCommandSize_written _ size (op :: payload) (by omega) h2 hu0
  simp only [Nat.zero_add] at hr hu1
  have hu2 : (⟨(writeCommandSize Storage.empty size).store ++ op :: payload,
      (writeCommandSize Storage.empty size).store.length⟩ : Storage).unread =
      op :: (payload ++ []) := by
    rw [List.append_nil]
    exact hu1
  rw [Client.handleCommand_reencode c2 _ out2 _ size op payload [] hr h1 hu2 hlen hs hc]
  simp only [List.length_append, List.length_cons]
  have e : (writeCommandSize Storage.empty size).store.length + 1 + payload.length =
      (writeCommandSize Storage.empty size).store.length + (payload.length + 1) := by omega
  rw [e]


/-- C22: for every complete inbound frame with a non-control opcode whose
decoded size is at least 1, in either form of the size prefix (`size` and `in1`
are what `readCommandSize` returns on it, `op` the opcode and `payload` the
`size - 1` bytes that follow): `handleCommand` appends to the outbound buffer
the size prefix that `writeCommandSize` chooses for `size`, the opcode and the
payload; these bytes decode (`readCommandSize`, then the opcode, then
`size - 1` payload bytes) to the same size, opcode and payload, with nothing
left over; the prefix is one byte holding `size + 1` when `size + 1 < 256` and
a zero byte followed by the four bytes of `size + 5` otherwise; and
`handleCommand` applied to these bytes appends the same bytes again. -/
theorem handleCommand_reencoding (c : Client) (inS out in1 : Storage) (size : Int)
    (op : Byte) (payload t : List Byte)
    (hsize : readCommandSize inS = some (size, in1)) (h1 : 1 ≤ size)
    (hun : in1.unread = op :: (payload ++ t))
    (hlen : (payload.length : Int) = size - 1)
    (hs : op ≠ CMD_SIMSTEP2) (hc : op ≠ CMD_CLOSE) :
    c.handleCommand inS out =
      .ok (op, c, ⟨in1.store, in1.pos + 1 + payload.length⟩,
        ⟨out.store ++ ((writeCommandSize Storage.empty size).store ++ op :: payload),
          out.pos⟩) ∧
    (readCommandSize ⟨(writeCommandSize Storage.empty size).store ++ op :: payload, 0⟩ =
        some (size, ⟨(writeCommandSize Storage.empty size).store ++ op :: payload,
          (writeCommandSize Storage.empty size).store.length⟩) ∧
      (⟨(writeCommandSize Storage.empty size).store ++ op :: payload,
          (writeCommandSize Storage.empty size).store.length⟩ : Storage).readChar =
        some (op, ⟨(writeCommandSize Storage.empty size).store ++ op :: payload,
          (writeCommandSize Storage.empty size).store.length + 1⟩) ∧
      Storage.readBytes (size - 1).toNat
          ⟨(writeCommandSize Storage.empty size).store ++ op :: payload,
            (writeCommandSize Storage.empty size).store.length + 1⟩ =
        some (payload, ⟨(writeCommandSize Storage.empty size).store ++ op :: payload,
          ((writeCommandSize Storage.empty size).store ++ op :: payload).length⟩)) ∧
    ((size + 1 < 256 →
        ∃ b : Byte, (writeCommandSize Storage.empty size).store = [b] ∧
          (b.val : Int) = size + 1) ∧
      (256 ≤ size + 1 →
        ∃ b0 b1 b2 b3 : Byte,
          (writeCommandSize Storage.empty size).store = [0, b0, b1, b2, b3] ∧
          beInt32 b0 b1 b2 b3 = size + 5)) ∧
    (∀ (c2 : Client) (out2 : Storage),
      c2.handleCommand ⟨(writeCommandSize Storage.empty size).store ++ op :: payload, 0⟩ out2 =
        .ok (op, c2,
          ⟨(writeCommandSize Storage.empty size).store ++ op :: payload,
            ((writeCommandSize Storage.empty size).store ++ op :: payload).length⟩,
          ⟨out2.store ++ ((writeCommandSize Storage.empty size).store ++ op :: payload),
            out2.pos⟩)) :=
  ⟨Client.handleCommand_reencode c inS out in1 size op payload t hsize h1 hun hlen hs hc,
   Client.handleCommand_decodes size op payload h1 (readCommandSize_range hsize).2 hlen,
   writeCommandSize_prefix size h1 (readCommandSize_range hsize).2,
   fun c2 out2 => Client.handleCommand_idempotent c2 out2 size op payload h1
     (readCommandSize_range hsize).2 hlen hs hc⟩

/-- A frame sent in the five-byte form with the size field 8 (decoded size 3,
opcode `0xAA`, payload `[0x01, 0x02]`), followed by one more byte: it is
forwarded in the one-byte form `[0x04, 0xAA, 0x01, 0x02]`, and forwarding these
bytes again gives the same bytes. -/
theorem handleCommand_reencoding_witness :
    (readySession [0x00, 0x00, 0x00, 0x00, 0x08, 0xAA, 0x01, 0x02, 0x09]).handleCommand
        ⟨[0x00, 0x00, 0x00, 0x00, 0x08, 0xAA, 0x01, 0x02, 0x09], 0⟩ Storage.empty =
      .ok (0xAA, readySession [0x00, 0x00, 0x00, 0x00, 0x08, 0xAA, 0x01, 0x02, 0x09],
        ⟨[0x00, 0x00, 0x00, 0x00, 0x08, 0xAA, 0x01, 0x02, 0x09], 8⟩,
        ⟨[0x04, 0xAA, 0x01, 0x02], 0⟩) ∧
    (readySession []).handleCommand ⟨[0x04, 0xAA, 0x01, 0x02], 0⟩ Storage.empty =
      .ok (0xAA, readySession [], ⟨[0x04, 0xAA, 0x01, 0x02], 4⟩,
        ⟨[0x04, 0xAA, 0x01, 0x02], 0⟩) :=
  ⟨(handleCommand_reencoding (readySession [0x00, 0x00, 0x00, 0x00, 0x08, 0xAA, 0x01, 0x02, 0x09])
      ⟨[0x00, 0x00, 0x00, 0x00, 0x08, 0xAA, 0x01, 0x02, 0x09], 0⟩ Storage.empty
      ⟨[0x00, 0x00, 0x00, 0x00, 0x08, 0xAA, 0x01, 0x02, 0x09], 5⟩ 3 0xAA [0x01, 0x02] [0x09]
      rfl (by decide) rfl (by decide) (by decide) (by decide)).1,
   (handleCommand_reencoding (readySession [0x00, 0x00, 0x00, 0x00, 0x08, 0xAA, 0x01, 0x02, 0x09])
      ⟨[0x00, 0x00, 0x00, 0x00, 0x08, 0xAA, 0x01, 0x02, 0x09], 0⟩ Storage.empty
      ⟨[0x00, 0x00, 0x00, 0x00, 0x08, 0xAA, 0x01, 0x02, 0x09], 5⟩ 3 0xAA [0x01, 0x02] [0x09]
      rfl (by decide) rfl (by decide) (by decide) (by decide)).2.2.2 (readySession [])
      Storage.empty⟩


/-! ## The state of a session when `handleClient` returns -/

theorem Client.copyChars_out : ∀ (n : Nat) (inS outS in1 out1 : Storage),
    Client.copyChars n inS outS = some (in1, out1) →
    outS.store.length ≤ out1.store.length := by
  intro n
  induction n with
  | zero =>
    intro inS outS in1 out1 h
    simp only [Client.copyChars] at h
    injection h with h
    injection h with _ h2
    subst h2
    exact Nat.le_refl _
  | succ n ih =>
    intro inS outS in1 out1 h
    simp only [Client.copyChars] at h
    split at h
    · cases h
    · have := ih _ _ _ _ h
      simp only [Storage.writeChar, List.length_append, List.length_cons, List.length_nil] at this
      omega

theorem Client.handleCommand_effect {c c1 : Client} {inS outS in1 out1 : Storage}
    {code : Byte} (h : c.handleCommand inS outS = .ok (code, c1, in1, out1)) :
    (code = CMD_SIMSTEP2 ∧ c1.myDisconnecting = c.myDisconnecting ∧ out1 = outS) ∨
    (code = CMD_CLOSE ∧ c1.myDisconnecting = true ∧ c1.myWaiting = c.myWaiting ∧
      out1 = outS) ∨
    (code ≠ CMD_SIMSTEP2 ∧ code ≠ CMD_CLOSE ∧ c1 = c ∧ 0 < out1.size) := by
  unfold Client.handleCommand at h
  cases hs : readCommandSize inS with
  | none => rw [hs] at h; cases h
  | some p =>
    obtain ⟨size, s1⟩ := p
    rw [hs] at h
    dsimp only at h
    cases hr : s1.readChar with
    | none => rw [hr] at h; cases h
    | some q =>
      obtain ⟨op, s2⟩ := q
      rw [hr] at h
      dsimp only at h
      by_cases hstep : op = CMD_SIMSTEP2
      · rw [if_pos hstep] at h
        cases hi : s2.readInt with
        | none => rw [hi] at h; cases h
        | some w =>
          obtain ⟨nextT, s3⟩ := w
          rw [hi] at h
          injection h with h
          injection h with h1 h
          injection h with h2 h
          injection h with _ h3
          subst h1 h2 h3
          exact Or.inl ⟨hstep, rfl, rfl⟩
      · rw [if_neg hstep] at h
        by_cases hclose : op = CMD_CLOSE
        · rw [if_pos hclose] at h
          injection h with h
          injection h with h1 h
          injection h with h2 h
          injection h with _ h3
          subst h1 h2 h3
          exact Or.inr (Or.inl ⟨hclose, rfl, rfl, rfl⟩)
        · rw [if_neg hclose] at h
          cases hc : copyChars (size - 1).toNat s2 ((writeCommandSize outS size).writeChar op) with
          | none => rw [hc] at h; cases h
          | some w =>
            obtain ⟨s3, o3⟩ := w
            rw [hc] at h
            injection h with h
            injection h with h1 h
            injection h with h2 h
            injection h with _ h3
            subst h1 h2 h3
            refine Or.inr (Or.inr ⟨hstep, hclose, rfl, ?_⟩)
            have := Client.copyChars_out _ _ _ _ _ hc
            simp only [Storage.writeChar, List.length_append, List.length_cons,
              List.length_nil] at this
            unfold Storage.size
            omega


theorem Client.drainLoop_effect : ∀ (fuel : Nat) (c : Client) (message : Storage)
    (cmd : Option Byte) (n : Nat) (cmd1 : Option Byte) (n1 : Nat) (c1 : Client) (out : Storage),
    Client.drainLoop fuel c message cmd n = .ok (cmd1, n1, c1, out) →
    c.myDisconnecting = false → c.myWaiting = false → (0 < n → 0 < message.size) →
    c1.myDisconnecting = false ∨
      (c1.myDisconnecting = true ∧ c1.myWaiting = false ∧ cmd1 = some CMD_CLOSE ∧
        (n1 = 1 ∨ 0 < out.size)) := by
  intro fuel
  induction fuel with
  | zero =>
    intro c message cmd n cmd1 n1 c1 out h hd _ _
    simp only [Client.drainLoop] at h
    injection h with h
    injection h with _ h
    injection h with _ h
    injection h with h2 _
    subst h2
    exact Or.inl hd
  | succ k ih =>
    intro c message cmd n cmd1 n1 c1 out h hd hw hn
    rw [Client.drainLoop] at h
    by_cases hv : c.myPendingCommands.valid_pos = true
    · rw [if_pos hv] at h
      cases hh : c.handleCommand c.myPendingCommands message with
      | error e => rw [hh] at h; cases h
      | ok r =>
        obtain ⟨code, c2, in2, out2⟩ := r
        rw [hh] at h
        dsimp only at h
        rcases Client.handleCommand_effect hh with ⟨hc, hdd, _⟩ | ⟨hc, hdd, hww, ho⟩ |
          ⟨hs, hc, hcc, ho⟩
        · subst hc
          rw [if_pos (by decide)] at h
          injection h with h
          injection h with _ h
          injection h with _ h
          injection h with h2 _
          subst h2
          exact Or.inl (hdd.trans hd)
        · subst hc
          rw [if_pos (by decide)] at h
          injection h with h
          injection h with h0 h
          injection h with h1 h
          injection h with h2 h3
          subst h0 h1 h2 h3 ho
          refine Or.inr ⟨hdd, hww.trans hw, rfl, ?_⟩
          by_cases hz : n = 0
          · exact Or.inl (by omega)
          · exact Or.inr (hn (by omega))
        · have hcond : (code = CMD_SIMSTEP2 || code = CMD_CLOSE) = false := by
            simp [hs, hc]
          rw [hcond] at h
          subst hcc
          exact ih _ _ _ _ _ _ _ _ h hd hw (fun _ => ho)
    · rw [if_neg hv] at h
      injection h with h
      injection h with _ h
      injection h with _ h
      injection h with h2 _
      subst h2
      exact Or.inl hd


theorem Socket.sendExact_hasPeer {k k1 : Socket} {b : Storage} (h : k.sendExact b = some k1) :
    k1.hasPeer = k.hasPeer := by
  unfold Socket.sendExact at h
  split at h
  · cases h
  · injection h with h; subst h; rfl
  · injection h with h; subst h; rfl

theorem Socket.receiveExact_hasPeer {k k1 : Socket} {b b1 : Storage}
    (h : k.receiveExact b = some (k1, b1)) : k1.hasPeer = k.hasPeer := by
  unfold Socket.receiveExact at h
  split at h
  · cases h
  · injection h with h
    injection h with h1 h2
    subst h1
    rfl

theorem Client.sendAnswers_effect (c : Client) :
    c.sendAnswers.2.myDisconnecting = c.myDisconnecting ∧
    c.sendAnswers.2.myWaiting = c.myWaiting ∧
    (c.myDisconnecting = true → c.sendAnswers.2.myConnected = false) ∧
    (c.sendAnswers.2.myConnected = true →
      c.myConnected = true ∧ c.sendAnswers.2.mySocket.hasPeer = c.mySocket.hasPeer) := by
  obtain ⟨sock, pa, pc, disc, conn, wait, tt⟩ := c
  cases conn
  · simp [Client.sendAnswers]
  · cases disc
    · simp only [Client.sendAnswers, Bool.not_true, Bool.false_eq_true, if_false]
      cases hs : sock.sendExact pa with
      | none => simp
      | some sock1 =>
        have := Socket.sendExact_hasPeer hs
        simp [this]
    · simp only [Client.sendAnswers, Bool.not_true, Bool.false_eq_true, if_false, if_true]
      cases hs : sock.sendExact (Client.writeStatusCmd (CMD_CLOSE.val : Int) (RTYPE_OK.val : Int)
          (stringBytes "Goodbye") pa) with
      | none => simp
      | some sock1 => simp [Client.closeConnection]


theorem Client.sendAnswers_settled (c : Client)
    (h : c.myConnected = true → c.mySocket.hasPeer = true) : c.sendAnswers.2.settled := by
  obtain ⟨e1, _, e3, e4⟩ := Client.sendAnswers_effect c
  constructor
  · intro hd
    exact e3 (e1 ▸ hd)
  · intro hc
    obtain ⟨hc0, hp⟩ := e4 hc
    rw [hp]
    exact h hc0

theorem Client.putAnswers_effect (c : Client) (answers : Storage) :
    (c.putAnswers answers).2.myDisconnecting = c.myDisconnecting ∧
    (c.putAnswers answers).2.myWaiting = c.myWaiting ∧
    ((c.putAnswers answers).2.myConnected = true →
      c.myConnected = true ∧ (c.putAnswers answers).2.mySocket.hasPeer = c.mySocket.hasPeer) ∧
    (c.myConnected = true → c.myDisconnecting = true → c.myWaiting = false →
      (c.putAnswers answers).2 =
        (Client.sendAnswers
          { c with myPendingAnswers := c.myPendingAnswers.writeStorage answers }).2) := by
  by_cases hc : c.myConnected = true
  · rw [Client.putAnswers_connected c answers hc]
    obtain ⟨e1, e2, _, e4⟩ := Client.sendAnswers_effect
      { c with myPendingAnswers := c.myPendingAnswers.writeStorage answers }
    by_cases hcond : (!c.myWaiting && (!c.hasPendingCommands || c.myDisconnecting)) = true
    · rw [if_pos hcond]
      exact ⟨e1, e2, fun h => ⟨hc, (e4 h).2⟩, fun _ _ _ => rfl⟩
    · rw [if_neg hcond]
      refine ⟨rfl, rfl, fun _ => ⟨hc, rfl⟩, fun _ hd hw => ?_⟩
      exfalso
      apply hcond
      simp [hd, hw]
  · have hc0 : c.myConnected = false := by simpa using hc
    rw [Client.putAnswers_disconnected c answers hc0]
    exact ⟨rfl, rfl, fun h => absurd h hc, fun h => absurd h hc⟩

theorem Client.putAnswers_settled (c : Client) (answers : Storage) (h : c.settled) :
    (c.putAnswers answers).2.settled := by
  obtain ⟨e1, _, e3, _⟩ := Client.putAnswers_effect c answers
  constructor
  · intro hd
    cases hr : (c.putAnswers answers).2.myConnected with
    | false => rfl
    | true =>
      have hc := (e3 hr).1
      have := h.1 (e1 ▸ hd)
      rw [hc] at this
      cases this
  · intro hc
    obtain ⟨hc0, hp⟩ := e3 hc
    rw [hp]
    exact h.2 hc0

theorem Client.handleStepResult_settled (c : Client) (now : Int) (success : Bool)
    (raw : Storage) (h : c.settled) : (c.handleStepResult now success raw).settled := by
  unfold Client.handleStepResult
  split
  · exact h
  · exact Client.putAnswers_settled _ raw h

theorem Client.filterCommands_effect (c c1 : Client) (message out : Storage) (r : Bool)
    (hd : c.myDisconnecting = false) (hw : c.myWaiting = false) (hc : c.myConnected = true)
    (hp : c.mySocket.hasPeer = true)
    (hf : c.filterCommands message = .ok (r, c1, out)) :
    (c1.settled ∧ (c1.myDisconnecting = true →
        ∃ c2 : Client, c2.myConnected = true ∧ c2.myDisconnecting = true ∧
          c1 = c2.sendAnswers.2)) ∨
    (c1.myDisconnecting = true ∧ c1.myConnected = true ∧ c1.myWaiting = false ∧
      0 < out.size ∧ c1.mySocket.hasPeer = true) := by
  unfold Client.filterCommands at hf
  cases hl : Client.drainLoop c.myPendingCommands.unread.length c message none 0 with
  | error e => rw [hl] at hf; cases hf
  | ok w =>
    obtain ⟨cmd, n, c3, out3⟩ := w
    rw [hl] at hf
    dsimp only at hf
    obtain ⟨ks, kc, _⟩ := Client.drainLoop_keeps _ _ _ _ _ _ _ _ _ hl
    have heff := Client.drainLoop_effect _ _ _ _ _ _ _ _ _ hl hd hw (fun h => by omega)
    have hc3 : c3.myConnected = true := kc.trans hc
    have hp3 : c3.mySocket.hasPeer = true := by rw [ks]; exact hp
    by_cases hcond : (cmd = some CMD_CLOSE && n = 1) = true
    · rw [if_pos hcond] at hf
      injection hf with hf
      injection hf with _ hf
      injection hf with h1 h2
      subst h1 h2
      refine Or.inl ⟨Client.sendAnswers_settled c3 (fun _ => hp3), fun hdd => ?_⟩
      exact ⟨c3, hc3, (Client.sendAnswers_effect c3).1 ▸ hdd, rfl⟩
    · rw [if_neg hcond] at hf
      injection hf with hf
      injection hf with _ hf
      injection hf with h1 h2
      subst h1 h2
      rcases heff with h0 | ⟨h1, h2, h3, h4⟩
      · refine Or.inl ⟨⟨fun hdd => ?_, fun _ => hp3⟩, fun hdd => ?_⟩
        · rw [h0] at hdd; cases hdd
        · rw [h0] at hdd; cases hdd
      · refine Or.inr ⟨h1, hc3, h2, ?_, hp3⟩
        rcases h4 with h4 | h4
        · exfalso
          apply hcond
          simp [h3, h4]
        · exact h4


theorem Client.canAct_true {c : Client} {now : Int} (h : c.canAct now = true) :
    c.myConnected = true ∧ c.myWaiting = false ∧ c.myDisconnecting = false := by
  unfold Client.canAct at h
  cases hc : c.myConnected <;> cases hw : c.myWaiting <;> cases hd : c.myDisconnecting <;>
    simp [hc, hw, hd] at h ⊢

theorem Client.canAct_of_disconnected {c : Client} (now : Int) (h : c.myConnected = false) :
    c.canAct now = false := by
  simp [Client.canAct, h]

theorem Client.getCommands_effect (c c1 : Client) (message out : Storage) (now : Int)
    (r : Bool) (hact : c.canAct now = true) (hs : c.settled)
    (hg : c.getCommands message now = .ok (r, c1, out)) :
    (c1.settled ∧ (c1.myDisconnecting = true →
        ∃ c2 : Client, c2.myConnected = true ∧ c2.myDisconnecting = true ∧
          c1 = c2.sendAnswers.2)) ∨
    (c1.myDisconnecting = true ∧ c1.myConnected = true ∧ c1.myWaiting = false ∧
      0 < out.size ∧ c1.mySocket.hasPeer = true) := by
  obtain ⟨hc, hw, hd⟩ := Client.canAct_true hact
  have hp := hs.2 hc
  unfold Client.getCommands at hg
  simp only [hact, Bool.not_true, Bool.false_and, Bool.false_eq_true, if_false] at hg
  by_cases hpc : (!c.hasPendingCommands) = true
  · rw [if_pos hpc] at hg
    cases hr : c.mySocket.receiveExact c.myPendingCommands.reset with
    | none =>
      rw [hr] at hg
      injection hg with hg
      injection hg with _ hg
      injection hg with h1 _
      subst h1
      refine Or.inl ⟨⟨fun _ => rfl, fun h => by cases h⟩, fun h => ?_⟩
      have h0 : c.myDisconnecting = true := h
      rw [hd] at h0
      cases h0
    | some w =>
      obtain ⟨sock, pending⟩ := w
      rw [hr] at hg
      exact Client.filterCommands_effect
        { c with mySocket := sock, myPendingCommands := pending } c1 message out r hd hw hc
        ((Socket.receiveExact_hasPeer hr).trans hp) hg
  · rw [if_neg hpc] at hg
    exact Client.filterCommands_effect c c1 message out r hd hw hc hp hg

theorem Hub.handleClient_settled (now : Int) : ∀ (fuel : Nat) (sumo : Socket) (c : Client)
    (sumo1 : Socket) (c1 : Client), c.settled →
    (c.myDisconnecting = true →
      ∃ c2 : Client, c2.myConnected = true ∧ c2.myDisconnecting = true ∧
        c = c2.sendAnswers.2) →
    Hub.handleClient fuel sumo now c = some (.ok (sumo1, c1)) →
    c1.settled ∧ c1.canAct now = false ∧
      (c1.myDisconnecting = true →
        ∃ c2 : Client, c2.myConnected = true ∧ c2.myDisconnecting = true ∧
          c1 = c2.sendAnswers.2) := by
  intro fuel
  induction fuel with
  | zero =>
    intro sumo c sumo1 c1 hs hf h
    unfold Hub.handleClient at h
    by_cases hact : c.canAct now = true
    · rw [if_pos hact] at h; cases h
    · rw [if_neg hact] at h
      injection h with h
      injection h with h
      injection h with _ h2
      subst h2
      exact ⟨hs, by simpa using hact, hf⟩
  | succ k ih =>
    intro sumo c sumo1 c1 hs hf h
    by_cases hact : c.canAct now = true
    · rw [Hub.handleClient, if_pos hact] at h
      cases hg : c.getCommands Storage.empty now with
      | error e => rw [hg] at h; cases h
      | ok w =>
        obtain ⟨r, c2, msg⟩ := w
        rw [hg] at h
        dsimp only at h
        have heff := Client.getCommands_effect c c2 Storage.empty msg now r hact hs hg
        by_cases hm : msg.size > 0
        · rw [if_pos hm] at h
          cases hse : sumo.sendExact msg with
          | none => rw [hse] at h; cases h
          | some s1 =>
            rw [hse] at h
            dsimp only at h
            cases hre : s1.receiveExact Storage.empty with
            | none => rw [hre] at h; cases h
            | some v =>
              obtain ⟨s2, answer⟩ := v
              rw [hre] at h
              dsimp only at h
              obtain ⟨p1, _, _, p4⟩ := Client.putAnswers_effect c2 answer
              rcases heff with ⟨hs2, hf2⟩ | ⟨hd2, hc2, hw2, _, hp2⟩
              · refine ih _ _ _ _ (Client.putAnswers_settled c2 answer hs2) (fun hd3 => ?_) h
                have hd2 : c2.myDisconnecting = true := p1 ▸ hd3
                rw [Client.putAnswers_disconnected c2 answer (hs2.1 hd2)]
                exact hf2 hd2
              · refine ih _ _ _ _ ?_ (fun _ => ?_) h
                · rw [p4 hc2 hd2 hw2]
                  exact Client.sendAnswers_settled _ (fun _ => hp2)
                · exact ⟨{ c2 with myPendingAnswers := c2.myPendingAnswers.writeStorage answer },
                    hc2, hd2, p4 hc2 hd2 hw2⟩
        · rw [if_neg hm] at h
          rcases heff with ⟨hs2, hf2⟩ | ⟨_, _, _, ho, _⟩
          · exact ih _ _ _ _ hs2 hf2 h
          · exact absurd ho hm
    · have hact0 : c.canAct now = false := by simpa using hact
      rw [Hub.handleClient_cannot_act _ _ _ _ hact0] at h
      injection h with h
      injection h with h
      injection h with _ h2
      subst h2
      exact ⟨hs, hact0, hf⟩


theorem Client.waiting_of_cannot_act {c : Client} {now : Int} (hs : c.settled)
    (h : c.canAct now = false) (hc : c.myConnected = true) : c.myWaiting = true := by
  have hd : c.myDisconnecting = false := by
    cases hdd : c.myDisconnecting with
    | false => rfl
    | true =>
      have := hs.1 hdd
      rw [hc] at this
      cases this
  unfold Client.canAct at h
  rw [hc, hd] at h
  cases hw : c.myWaiting with
  | true => rfl
  | false => rw [hw] at h; cases h

theorem Hub.handleClients_settled (fuel : Nat) (now : Int) : ∀ (cs : List Client)
    (sumo : Socket) (sc : Bool) (sumo1 : Socket) (cs1 : List Client) (sc1 : Bool),
    (∀ c ∈ cs, c.settled) →
    Hub.handleClients fuel now sumo cs sc = some (.ok (sumo1, cs1, sc1)) →
    ∀ c ∈ cs1, c.settled ∧ (c.myConnected = true → c.myWaiting = true) := by
  intro cs
  induction cs with
  | nil =>
    intro sumo sc sumo1 cs1 sc1 _ h
    unfold Hub.handleClients at h
    injection h with h
    injection h with h
    injection h with _ h
    injection h with h2 _
    subst h2
    intro c hc
    cases hc
  | cons client rest ih =>
    intro sumo sc sumo1 cs1 sc1 hall h
    have hcl : client.settled := hall client (List.mem_cons_self _ _)
    have hrest : ∀ c ∈ rest, c.settled := fun c hc => hall c (List.mem_cons_of_mem _ hc)
    rw [Hub.handleClients] at h
    by_cases hconn : client.isConnected = true
    · rw [if_pos hconn] at h
      cases hh : Hub.handleClient fuel sumo now client with
      | none => rw [hh] at h; cases h
      | some res =>
        cases res with
        | error e => rw [hh] at h; cases h
        | ok w =>
          obtain ⟨s1, c1⟩ := w
          rw [hh] at h
          dsimp only at h
          cases hr : Hub.handleClients fuel now s1 rest (sc || c1.isConnected) with
          | none => rw [hr] at h; cases h
          | some res2 =>
            cases res2 with
            | error e => rw [hr] at h; cases h
            | ok w2 =>
              obtain ⟨s2, rest1, sc2⟩ := w2
              rw [hr] at h
              dsimp only at h
              injection h with h
              injection h with h
              injection h with _ h
              injection h with h2 _
              subst h2
              have hc1 : c1.settled ∧ c1.canAct now = false := by
                cases hdd : client.myDisconnecting with
                | false =>
                  have := Hub.handleClient_settled now fuel sumo client s1 c1 hcl
                    (fun h0 => by rw [hdd] at h0; cases h0) hh
                  exact ⟨this.1, this.2.1⟩
                | true =>
                  have hcf := Client.canAct_of_disconnected now (hcl.1 hdd)
                  rw [Hub.handleClient_cannot_act _ _ _ _ hcf] at hh
                  injection hh with hh
                  injection hh with hh
                  injection hh with _ hh2
                  subst hh2
                  exact ⟨hcl, hcf⟩
              intro c hc
              rcases List.mem_cons.mp hc with he | hm
              · subst he
                exact ⟨hc1.1, fun hcc => Client.waiting_of_cannot_act hc1.1 hc1.2 hcc⟩
              · exact ih _ _ _ _ _ hrest hr c hm
    · rw [if_neg hconn] at h
      cases hr : Hub.handleClients fuel now sumo rest sc with
      | none => rw [hr] at h; cases h
      | some res2 =>
        cases res2 with
        | error e => rw [hr] at h; cases h
        | ok w2 =>
          obtain ⟨s2, rest1, sc2⟩ := w2
          rw [hr] at h
          dsimp only at h
          injection h with h
          injection h with h
          injection h with _ h
          injection h with h2 _
          subst h2
          intro c hc
          rcases List.mem_cons.mp hc with he | hm
          · subst he
            refine ⟨hcl, fun hcc => ?_⟩
            exact absurd (hcl.2 hcc) hconn
          · exact ih _ _ _ _ _ hrest hr c hm

theorem Client.handleStepResult_not_waiting (c : Client) (now : Int) (success : Bool)
    (raw : Storage) (hc : c.myConnected = false) (hw : c.myWaiting = false) :
    c.handleStepResult now success raw = c := by
  obtain ⟨sock, pa, pc, disc, conn, wait, tt⟩ := c
  simp only at hc hw
  subst hc hw
  unfold Client.handleStepResult
  split
  · rfl
  · rw [Client.putAnswers_disconnected _ _ rfl]

theorem Hub.runStep_settled {h h1 : Hub} (hr : h.runStep = .ok h1)
    (hall : ∀ c ∈ h.myClients, c.settled) : ∀ c ∈ h1.myClients, c.settled := by
  unfold Hub.runStep at hr
  split at hr
  · cases hr
  · split at hr
    · cases hr
    · dsimp only at hr
      split at hr
      · cases hr
      · injection hr with hr
        subst hr
        intro c hc
        simp only [List.mem_map] at hc
        obtain ⟨c0, hm, he⟩ := hc
        subst he
        exact Client.handleStepResult_settled c0 _ _ _ (hall c0 hm)

theorem Hub.handleStep_settled {fuel : Nat} {h h1 : Hub} {b : Bool}
    (hs : Hub.handleStep fuel h = some (.ok (b, h1)))
    (hall : ∀ c ∈ h.myClients, c.settled) : ∀ c ∈ h1.myClients, c.settled := by
  unfold Hub.handleStep at hs
  cases hc : Hub.handleClients fuel h.myCurrentTime h.mySumoSocket h.myClients false with
  | none => rw [hc] at hs; cases hs
  | some res =>
    cases res with
    | error e => rw [hc] at hs; cases hs
    | ok w =>
      obtain ⟨s1, cs1, sc⟩ := w
      rw [hc] at hs
      dsimp only at hs
      cases hr : Hub.runStep { h with mySumoSocket := s1, myClients := cs1 } with
      | error e => rw [hr] at hs; cases hs
      | ok h2 =>
        rw [hr] at hs
        injection hs with hs
        injection hs with hs
        injection hs with _ hs2
        subst hs2
        exact Hub.runStep_settled hr
          (fun c hm => (Hub.handleClients_settled fuel _ _ _ _ _ _ _ hall hc c hm).1)

theorem Hub.reachable_settled {h0 h : Hub} (hr : Hub.Reachable h0 h)
    (hall : ∀ c ∈ h0.myClients, c.settled) : ∀ c ∈ h.myClients, c.settled := by
  induction hr with
  | start => exact hall
  | round _ hs ih => exact Hub.handleStep_settled hs ih


theorem Socket.accept_hasPeer {k k1 : Socket} (h : k.accept = some k1) :
    k1.hasPeer = true := by
  unfold Socket.accept at h
  split at h
  · cases h
  · injection h with h
    subst h
    rfl

theorem Client.acceptConnection_settled {c c1 : Client} {r : Bool}
    (hs : c.settled) (hd : c.myDisconnecting = false)
    (h : c.acceptConnection = some (r, c1)) : c1.settled ∧ c1.myDisconnecting = false := by
  unfold Client.acceptConnection at h
  split at h
  · cases ha : c.mySocket.accept with
    | none => rw [ha] at h; cases h
    | some sock =>
      rw [ha] at h
      injection h with h
      injection h with _ h2
      subst h2
      exact ⟨⟨fun h0 => (by rw [hd] at h0; cases h0), fun _ => Socket.accept_hasPeer ha⟩, hd⟩
  · injection h with h
    injection h with _ h2
    subst h2
    exact ⟨hs, hd⟩

theorem Hub.acceptAll_settled : ∀ (cs : List Client),
    (∀ c ∈ cs, c.settled ∧ c.myDisconnecting = false) →
    ∀ c ∈ (Hub.acceptAll cs).2, c.settled := by
  intro cs
  induction cs with
  | nil => intro _ c hc; cases hc
  | cons client rest ih =>
    intro hall c hc
    unfold Hub.acceptAll at hc
    cases ha : client.acceptConnection with
    | none =>
      rw [ha] at hc
      exact (hall c hc).1
    | some w =>
      obtain ⟨r, c1⟩ := w
      rw [ha] at hc
      dsimp only at hc
      rcases List.mem_cons.mp hc with he | hm
      · subst he
        exact (Client.acceptConnection_settled
          (hall client (List.mem_cons_self _ _)).1 (hall client (List.mem_cons_self _ _)).2 ha).1
      · exact ih (fun c0 h0 => hall c0 (List.mem_cons_of_mem _ h0)) c hm

theorem Hub.start_settled (sumoHost : String) (sumoPort : Int) (clientPorts : List Int)
    (stepLength : Int) (engine : Peer) (clientPeers : Int → Peer) :
    ∀ c ∈ (Hub.acceptClients (Hub.connectToSUMO
      (Hub.new sumoHost sumoPort clientPorts stepLength engine clientPeers)).2).2.myClients,
      c.settled := by
  have hcl : (Hub.connectToSUMO
      (Hub.new sumoHost sumoPort clientPorts stepLength engine clientPeers)).2.myClients
      = clientPorts.map (fun p =>
          { Client.new p with mySocket := (Client.new p).mySocket.withPeer (clientPeers p) }) := by
    unfold Hub.connectToSUMO
    split <;> rfl
  unfold Hub.acceptClients
  dsimp only
  rw [hcl]
  apply Hub.acceptAll_settled
  intro c hc
  simp only [List.mem_map] at hc
  obtain ⟨p, _, he⟩ := hc
  subst he
  exact ⟨⟨fun h0 => (by cases h0), fun h0 => (by cases h0)⟩, rfl⟩

theorem Hub.handleStep_unfold (fuel : Nat) (h : Hub) (sumo1 : Socket) (cs1 : List Client)
    (sc : Bool)
    (hc : Hub.handleClients fuel h.myCurrentTime h.mySumoSocket h.myClients false =
      some (.ok (sumo1, cs1, sc))) :
    Hub.handleStep fuel h =
      (match Hub.runStep { h with mySumoSocket := sumo1, myClients := cs1 } with
       | .error e => some (.error e)
       | .ok h1 => some (.ok (sc, h1))) := by
  unfold Hub.handleStep
  rw [hc]


theorem Hub.handleClient_post (fuel : Nat) (sumo : Socket) (now : Int) (c : Client)
    (sumo1 : Socket) (c1 : Client) (hs : c.settled)
    (h : Hub.handleClient fuel sumo now c = some (.ok (sumo1, c1))) :
    (c1.myWaiting = true ∨ c1.myConnected = false) ∧
    (c1.myDisconnecting = true → c1.myConnected = false) ∧
    (c.myDisconnecting = false → c1.myDisconnecting = true →
      ∃ c2 : Client, c2.myConnected = true ∧ c2.myDisconnecting = true ∧
        c1 = c2.sendAnswers.2) ∧
    c1.settled := by
  have key : c1.settled ∧ c1.canAct now = false ∧
      (c.myDisconnecting = false → c1.myDisconnecting = true →
        ∃ c2 : Client, c2.myConnected = true ∧ c2.myDisconnecting = true ∧
          c1 = c2.sendAnswers.2) := by
    cases hdd : c.myDisconnecting with
    | false =>
      have := Hub.handleClient_settled now fuel sumo c sumo1 c1 hs
        (fun h0 => by rw [hdd] at h0; cases h0) h
      exact ⟨this.1, this.2.1, fun _ => this.2.2⟩
    | true =>
      have hcf := Client.canAct_of_disconnected now (hs.1 hdd)
      rw [Hub.handleClient_cannot_act _ _ _ _ hcf] at h
      injection h with h
      injection h with h
      injection h with _ h2
      subst h2
      exact ⟨hs, hcf, fun h0 => by cases h0⟩
  obtain ⟨k1, k2, k3⟩ := key
  refine ⟨?_, k1.1, k3, k1⟩
  cases hc : c1.myConnected with
  | false => exact Or.inr rfl
  | true => exact Or.inl (Client.waiting_of_cannot_act k1 k2 hc)

theorem Hub.handleClients_post (fuel : Nat) (h : Hub) (sumo1 : Socket) (cs1 : List Client)
    (sc : Bool) (hall : ∀ c ∈ h.myClients, c.settled)
    (hc : Hub.handleClients fuel h.myCurrentTime h.mySumoSocket h.myClients false =
      some (.ok (sumo1, cs1, sc))) :
    Hub.handleStep fuel h =
      (match Hub.runStep { h with mySumoSocket := sumo1, myClients := cs1 } with
       | .error e => some (.error e)
       | .ok h1 => some (.ok (sc, h1))) ∧
    ∀ c ∈ cs1, (c.myConnected = true → c.myWaiting = true) ∧ c.settled ∧
      (c.myWaiting = false →
        ∀ (now : Int) (success : Bool) (raw : Storage),
          c.handleStepResult now success raw = c) := by
  refine ⟨Hub.handleStep_unfold fuel h sumo1 cs1 sc hc, fun c hm => ?_⟩
  obtain ⟨h1, h2⟩ := Hub.handleClients_settled fuel _ _ _ _ _ _ _ hall hc c hm
  refine ⟨h2, h1, fun hw now success raw => ?_⟩
  have hcf : c.myConnected = false := by
    cases hcc : c.myConnected with
    | false => rfl
    | true =>
      have := h2 hcc
      rw [hw] at this
      cases this
  exact Client.handleStepResult_not_waiting c now success raw hcf hw

theorem Hub.run_settled (sumoHost : String) (sumoPort : Int) (clientPorts : List Int)
    (stepLength : Int) (engine : Peer) (clientPeers : Int → Peer) (h : Hub)
    (hr : Hub.Reachable (Hub.acceptClients (Hub.connectToSUMO
      (Hub.new sumoHost sumoPort clientPorts stepLength engine clientPeers)).2).2 h) :
    ∀ c ∈ h.myClients, c.settled :=
  Hub.reachable_settled hr
    (Hub.start_settled sumoHost sumoPort clientPorts stepLength engine clientPeers)

/-- C23: in every state that the hub reaches from its construction, whatever
the engine and the clients at the other end of its sockets do, a session
is settled (a session that handled CLOSE has `connected = false`, and a
connected session has a peer on its socket).  Whenever `handleClient` returns
without a fault on a settled session, the session is waiting or has
`connected = false`; a session that handled CLOSE has `connected = false`, and
if it handled CLOSE during this call it is the result of the `sendAnswers()`
call, made while connected and disconnecting, that flushed or failed to flush
its goodbye.  Consequently, when the session loop of `handleStep` has returned
and `runStep` is invoked, every session with `connected = true` is waiting, and
`handleStepResult` leaves every session that is not waiting unchanged: no step
answer is stored for or sent to a client that did not request a step. -/
theorem handleClient_leaves_session_settled :
    (∀ (fuel : Nat) (sumo : Socket) (now : Int) (c : Client) (sumo1 : Socket) (c1 : Client),
      c.settled → Hub.handleClient fuel sumo now c = some (.ok (sumo1, c1)) →
      (c1.myWaiting = true ∨ c1.myConnected = false) ∧
      (c1.myDisconnecting = true → c1.myConnected = false) ∧
      (c.myDisconnecting = false → c1.myDisconnecting = true →
        ∃ c2 : Client, c2.myConnected = true ∧ c2.myDisconnecting = true ∧
          c1 = c2.sendAnswers.2) ∧
      c1.settled) ∧
    (∀ (fuel : Nat) (h : Hub) (sumo1 : Socket) (cs1 : List Client) (sc : Bool),
      (∀ c ∈ h.myClients, c.settled) →
      Hub.handleClients fuel h.myCurrentTime h.mySumoSocket h.myClients false =
        some (.ok (sumo1, cs1, sc)) →
      Hub.handleStep fuel h =
        (match Hub.runStep { h with mySumoSocket := sumo1, myClients := cs1 } with
         | .error e => some (.error e)
         | .ok h1 => some (.ok (sc, h1))) ∧
      ∀ c ∈ cs1, (c.myConnected = true → c.myWaiting = true) ∧ c.settled ∧
        (c.myWaiting = false →
          ∀ (now : Int) (success : Bool) (raw : Storage),
            c.handleStepResult now success raw = c)) ∧
    (∀ (sumoHost : String) (sumoPort : Int) (clientPorts : List Int) (stepLength : Int)
      (engine : Peer) (clientPeers : Int → Peer) (h : Hub),
      Hub.Reachable (Hub.acceptClients (Hub.connectToSUMO
        (Hub.new sumoHost sumoPort clientPorts stepLength engine clientPeers)).2).2 h →
      ∀ c ∈ h.myClients, c.settled) :=
  ⟨fun fuel sumo now c sumo1 c1 hs h => Hub.handleClient_post fuel sumo now c sumo1 c1 hs h,
   fun fuel h sumo1 cs1 sc hall hc => Hub.handleClients_post fuel h sumo1 cs1 sc hall hc,
   fun sumoHost sumoPort clientPorts stepLength engine clientPeers h hr =>
     Hub.run_settled sumoHost sumoPort clientPorts stepLength engine clientPeers h hr⟩

/-- A session whose client sends the S1 frame followed by CLOSE in one message:
`handleClient` returns with the session disconnected, as the result of the
`sendAnswers()` call that flushed the goodbye. -/
theorem handleClient_leaves_session_settled_witness :
    ∃ (sumo1 : Socket) (c1 : Client),
      Hub.handleClient 1 hubS1.mySumoSocket 0 (readyWithInbox [frameS1 ++ frameClose]) =
        some (.ok (sumo1, c1)) ∧
      (c1.myWaiting = true ∨ c1.myConnected = false) ∧
      (c1.myDisconnecting = true → c1.myConnected = false) ∧
      ((readyWithInbox [frameS1 ++ frameClose]).myDisconnecting = false →
        c1.myDisconnecting = true →
        ∃ c2 : Client, c2.myConnected = true ∧ c2.myDisconnecting = true ∧
          c1 = c2.sendAnswers.2) ∧
      c1.settled ∧
      c1.myDisconnecting = true ∧
      c1.mySocket.sent = [[0x07, 0xAA, 0x00, 0x00, 0x00, 0x00, 0x00] ++ goodbyeFrame] :=
  ⟨_, _, rfl,
    (handleClient_leaves_session_settled.1 1 hubS1.mySumoSocket 0
      (readyWithInbox [frameS1 ++ frameClose]) _ _ (by decide) rfl).1,
    (handleClient_leaves_session_settled.1 1 hubS1.mySumoSocket 0
      (readyWithInbox [frameS1 ++ frameClose]) _ _ (by decide) rfl).2.1,
    (handleClient_leaves_session_settled.1 1 hubS1.mySumoSocket 0
      (readyWithInbox [frameS1 ++ frameClose]) _ _ (by decide) rfl).2.2.1,
    (handleClient_leaves_session_settled.1 1 hubS1.mySumoSocket 0
      (readyWithInbox [frameS1 ++ frameClose]) _ _ (by decide) rfl).2.2.2,
    rfl, rfl⟩


/-! ## Termination of the drain loop -/

theorem Client.drainCalls_le : ∀ (fuel : Nat) (c : Client) (message : Storage),
    Client.drainCalls fuel c message ≤
      (c.myPendingCommands.store.length - c.myPendingCommands.pos + 1) / 2 := by
  intro fuel
  induction fuel with
  | zero => intro c message; simp [Client.drainCalls]
  | succ k ih =>
    intro c message
    rw [Client.drainCalls]
    by_cases hv : c.myPendingCommands.valid_pos = true
    · rw [if_pos hv]
      have hlt : c.myPendingCommands.pos < c.myPendingCommands.store.length := by
        simpa [Storage.valid_pos] using hv
      cases hh : c.handleCommand c.myPendingCommands message with
      | error e => dsimp only; omega
      | ok r =>
        obtain ⟨code, c1, in1, out1⟩ := r
        obtain ⟨a1, a2, a3⟩ := Client.handleCommand_consumes hh
        dsimp only
        split
        · omega
        · have := ih { c1 with myPendingCommands := in1 } out1
          simp only at this
          rw [a1] at this
          rw [a1] at a3
          omega
    · rw [if_neg hv]
      omega

theorem Client.drainLoop_half_succ : ∀ (fuel : Nat) (c : Client) (message : Storage)
    (cmd : Option Byte) (n : Nat),
    (c.myPendingCommands.store.length - c.myPendingCommands.pos + 1) / 2 ≤ fuel →
    Client.drainLoop (fuel + 1) c message cmd n = Client.drainLoop fuel c message cmd n := by
  intro fuel
  induction fuel with
  | zero =>
    intro c message cmd n h
    have hv : c.myPendingCommands.valid_pos = false := by
      simp [Storage.valid_pos]; omega
    simp [Client.drainLoop, hv]
  | succ k ih =>
    intro c message cmd n h
    rw [Client.drainLoop]
    conv_rhs => rw [Client.drainLoop]
    by_cases hv : c.myPendingCommands.valid_pos = true
    · simp only [hv, if_true]
      cases hh : c.handleCommand c.myPendingCommands message with
      | error e => rfl
      | ok r =>
        obtain ⟨code, c1, in1, out1⟩ := r
        obtain ⟨a1, a2, a3⟩ := Client.handleCommand_consumes hh
        dsimp only
        split
        · rfl
        · apply ih
          simp only
          rw [a1]
          rw [a1] at a3
          omega
    · simp only [hv, Bool.false_eq_true, if_false]

theorem Client.drainLoop_half (c : Client) (message : Storage) (cmd : Option Byte) (n : Nat)
    (extra : Nat) :
    Client.drainLoop ((c.myPendingCommands.unread.length + 1) / 2 + extra) c message cmd n =
      Client.drainLoop ((c.myPendingCommands.unread.length + 1) / 2) c message cmd n := by
  induction extra with
  | zero => rfl
  | succ e ih =>
    rw [← Nat.add_assoc, Client.drainLoop_half_succ _ c message cmd n
      (by rw [Storage.unread_length]; omega), ih]

theorem Client.drainLoop_exit : ∀ (fuel : Nat) (c : Client) (message : Storage)
    (cmd : Option Byte) (n : Nat) (cmd1 : Option Byte) (n1 : Nat) (c1 : Client) (out : Storage),
    (c.myPendingCommands.store.length - c.myPendingCommands.pos + 1) / 2 ≤ fuel →
    Client.drainLoop fuel c message cmd n = .ok (cmd1, n1, c1, out) →
    n1 ≤ n + (c.myPendingCommands.store.length - c.myPendingCommands.pos + 1) / 2 ∧
    (c1.myPendingCommands.valid_pos = false ∨
      (n < n1 ∧ (cmd1 = some CMD_SIMSTEP2 ∨ cmd1 = some CMD_CLOSE))) := by
  intro fuel
  induction fuel with
  | zero =>
    intro c message cmd n cmd1 n1 c1 out hf h
    have hv : c.myPendingCommands.valid_pos = false := by
      simp [Storage.valid_pos]; omega
    simp only [Client.drainLoop] at h
    injection h with h
    injection h with _ h
    injection h with h1 h
    injection h with h2 _
    subst h1 h2
    exact ⟨by omega, Or.inl hv⟩
  | succ k ih =>
    intro c message cmd n cmd1 n1 c1 out hf h
    rw [Client.drainLoop] at h
    by_cases hv : c.myPendingCommands.valid_pos = true
    · rw [if_pos hv] at h
      have hlt : c.myPendingCommands.pos < c.myPendingCommands.store.length := by
        simpa [Storage.valid_pos] using hv
      cases hh : c.handleCommand c.myPendingCommands message with
      | error e => rw [hh] at h; cases h
      | ok r =>
        obtain ⟨code, c2, in2, out2⟩ := r
        obtain ⟨a1, a2, a3⟩ := Client.handleCommand_consumes hh
        rw [hh] at h
        dsimp only at h
        by_cases hctl : (code = CMD_SIMSTEP2 || code = CMD_CLOSE) = true
        · rw [if_pos hctl] at h
          injection h with h
          injection h with h0 h
          injection h with h1 h
          subst h0 h1
          refine ⟨by omega, Or.inr ⟨by omega, ?_⟩⟩
          simp only [Bool.or_eq_true, decide_eq_true_eq] at hctl
          rcases hctl with hc | hc
          · exact Or.inl (by rw [hc])
          · exact Or.inr (by rw [hc])
        · rw [if_neg hctl] at h
          have hb : (in2.store.length - in2.pos + 1) / 2 ≤ k := by
            rw [a1]
            rw [a1] at a3
            omega
          obtain ⟨r1, r2⟩ := ih { c2 with myPendingCommands := in2 } out2 (some code) (n + 1)
            cmd1 n1 c1 out hb h
          simp only at r1
          rw [a1] at r1 a3
          refine ⟨by omega, ?_⟩
          rcases r2 with r2 | ⟨r2, r3⟩
          · exact Or.inl r2
          · exact Or.inr ⟨by omega, r3⟩
    · rw [if_neg hv] at h
      injection h with h
      injection h with _ h
      injection h with h1 h
      injection h with h2 _
      subst h1 h2
      exact ⟨by omega, Or.inl (by simpa using hv)⟩


theorem Client.drainLoop_outcome (c : Client) (message : Storage) :
    (∃ e : ProtocolException,
      Client.drainLoop ((c.myPendingCommands.unread.length + 1) / 2) c message none 0 =
        .error e ∧ e.isFromClient = true) ∨
    (∃ (cmd1 : Option Byte) (n1 : Nat) (c1 : Client) (out : Storage),
      Client.drainLoop ((c.myPendingCommands.unread.length + 1) / 2) c message none 0 =
        .ok (cmd1, n1, c1, out) ∧
      n1 ≤ (c.myPendingCommands.unread.length + 1) / 2 ∧
      (c1.myPendingCommands.valid_pos = false ∨ cmd1 = some CMD_SIMSTEP2 ∨
        cmd1 = some CMD_CLOSE)) := by
  cases h : Client.drainLoop ((c.myPendingCommands.unread.length + 1) / 2) c message none 0 with
  | error e => exact Or.inl ⟨e, rfl, Client.drainLoop_error_fromClient _ _ _ _ _ _ h⟩
  | ok r =>
    obtain ⟨cmd1, n1, c1, out⟩ := r
    obtain ⟨r1, r2⟩ := Client.drainLoop_exit _ c message none 0 cmd1 n1 c1 out
      (by rw [Storage.unread_length]) h
    refine Or.inr ⟨cmd1, n1, c1, out, rfl, ?_, ?_⟩
    · rw [Storage.unread_length]
      omega
    · rcases r2 with r2 | ⟨_, r3⟩
      · exact Or.inl r2
      · exact Or.inr r3

theorem Client.drainLoop_getCommands_bound (c : Client) (message : Storage) :
    Client.drainLoop c.myPendingCommands.unread.length c message none 0 =
      Client.drainLoop ((c.myPendingCommands.unread.length + 1) / 2) c message none 0 := by
  have e : c.myPendingCommands.unread.length =
      (c.myPendingCommands.unread.length + 1) / 2 +
        (c.myPendingCommands.unread.length - (c.myPendingCommands.unread.length + 1) / 2) := by
    omega
  conv_lhs => rw [e]
  exact Client.drainLoop_half c message none 0 _

/-- C24: every `handleCommand` call that returns an opcode leaves the inbound
storage with the same bytes and the read cursor advanced by at least two, for
every decoded size.  Therefore the drain loop of `getCommands` on a pendingIn
with `r` unread bytes makes at most `(r + 1) / 2` calls of `handleCommand`
(the call that throws included), whatever bound it is given; with the bound
`(r + 1) / 2`, with any larger bound and with the bound `r` that `getCommands`
passes it gives one and the same result; and that result is a protocol error
of the client, or it is reached after at most `(r + 1) / 2` handled commands
with pendingIn exhausted or with SIMSTEP2 or CLOSE as the last command. -/
theorem drainLoop_terminates (c : Client) (message : Storage) :
    (∀ (inS outS in1 out1 : Storage) (code : Byte) (c1 : Client),
      c.handleCommand inS outS = .ok (code, c1, in1, out1) →
      in1.store = inS.store ∧ inS.pos + 2 ≤ in1.pos ∧ in1.pos ≤ in1.store.length) ∧
    (∀ fuel : Nat,
      Client.drainCalls fuel c message ≤ (c.myPendingCommands.unread.length + 1) / 2) ∧
    (∀ extra : Nat,
      Client.drainLoop ((c.myPendingCommands.unread.length + 1) / 2 + extra) c message none 0 =
        Client.drainLoop ((c.myPendingCommands.unread.length + 1) / 2) c message none 0) ∧
    Client.drainLoop c.myPendingCommands.unread.length c message none 0 =
      Client.drainLoop ((c.myPendingCommands.unread.length + 1) / 2) c message none 0 ∧
    ((∃ e : ProtocolException,
        Client.drainLoop ((c.myPendingCommands.unread.length + 1) / 2) c message none 0 =
          .error e ∧ e.isFromClient = true) ∨
      (∃ (cmd1 : Option Byte) (n1 : Nat) (c1 : Client) (out : Storage),
        Client.drainLoop ((c.myPendingCommands.unread.length + 1) / 2) c message none 0 =
          .ok (cmd1, n1, c1, out) ∧
        n1 ≤ (c.myPendingCommands.unread.length + 1) / 2 ∧
        (c1.myPendingCommands.valid_pos = false ∨ cmd1 = some CMD_SIMSTEP2 ∨
          cmd1 = some CMD_CLOSE))) :=
  ⟨fun _ _ _ _ _ _ h => Client.handleCommand_consumes h,
   fun fuel => by
     rw [Storage.unread_length]
     exact Client.drainCalls_le fuel c message,
   fun extra => Client.drainLoop_half c message none 0 extra,
   Client.drainLoop_getCommands_bound c message,
   Client.drainLoop_outcome c message⟩

/-- Two commands of decoded size 0 (`[0x01, 0xAA]` and `[0x01, 0xAB]`): each
`handleCommand` call advances the cursor by two bytes, and the drain of the
four bytes makes exactly two calls, the bound `(4 + 1) / 2`. -/
theorem drainLoop_terminates_witness :
    ((⟨[0x01, 0xAA, 0x01, 0xAB], 2⟩ : Storage).store = [0x01, 0xAA, 0x01, 0xAB] ∧
      (⟨[0x01, 0xAA, 0x01, 0xAB], 0⟩ : Storage).pos + 2 ≤
        (⟨[0x01, 0xAA, 0x01, 0xAB], 2⟩ : Storage).pos ∧
      (⟨[0x01, 0xAA, 0x01, 0xAB], 2⟩ : Storage).pos ≤
        (⟨[0x01, 0xAA, 0x01, 0xAB], 2⟩ : Storage).store.length) ∧
    Client.drainCalls 7 (readySession [0x01, 0xAA, 0x01, 0xAB]) Storage.empty = 2 ∧
    Client.drainLoop 2 (readySession [0x01, 0xAA, 0x01, 0xAB]) Storage.empty none 0 =
      .ok (some 0xAB, 2,
        { (readySession [0x01, 0xAA, 0x01, 0xAB]) with
          myPendingCommands := ⟨[0x01, 0xAA, 0x01, 0xAB], 4⟩ },
        ⟨[0x01, 0xAA, 0x01, 0xAB], 0⟩) :=
  ⟨(drainLoop_terminates (readySession [0x01, 0xAA, 0x01, 0xAB]) Storage.empty).1
      ⟨[0x01, 0xAA, 0x01, 0xAB], 0⟩ Storage.empty ⟨[0x01, 0xAA, 0x01, 0xAB], 2⟩
      ⟨[0x01, 0xAA], 0⟩ 0xAA (readySession [0x01, 0xAA, 0x01, 0xAB]) rfl,
   rfl, rfl⟩

end TraCIHub
